import Mathlib

/-!
Verification of the BVH importer (`BVHImporter.py`).

Shallow embedding conventions:

* Python strings are modelled as `PyStr := List Char`; Python string
  operations (`strip`, `replace`, `re.split`, `in`, `startswith`, slicing)
  are modelled by executable functions on `List Char` defined below.
* Python floats are never computed with: every numeric value that the code
  merely parses and forwards (`float(tok)`) is modelled by the token string
  itself, and `float()` failure is modelled by a decidable syntactic check
  `isFloatTok` (a conservative subset of the grammar Python accepts).
* The Maya scene (`maya.cmds`) is modelled by an explicit `Scene` record:
  nodes are identified by their full DAG path; commands that take a name
  resolve it the way Maya resolves a (possibly partial) DAG path, namely
  to the set of nodes whose full path equals it or ends with `|` followed
  by it.  Commands that need a unique target fail when resolution is not
  unique; `objExists` only asks for at least one match.  Keyframes
  (`setKeyframe`) and static attribute values (`setAttr`) are stored per
  resolved node, which models the fact that an animation curve created
  through a partial path lands on the same node as one created through the
  full path.  `mc.joint` is modelled as creating a child of the current
  selection and returning its full path (Maya returns a name that resolves
  to that node).
* Exceptions are modelled by `Except (Err × Scene) _`: an error carries the
  scene as it stands when the exception is raised, so that statements about
  mutations-before-failure can be made.  Python object state other than the
  scene (for example partial appends to `self._channels`) is not preserved
  across an exception in this model; no theorem below depends on it.
-/

abbrev PyStr := List Char

/-- Conversion from a Lean string literal to the `PyStr` model. -/
def pc (s : String) : PyStr := s.toList

/-- Model of the Python test `pat in s` (substring containment). -/
def subIn (pat : PyStr) : PyStr → Bool
  | [] => pat.isEmpty
  | c :: rest => pat.isPrefixOf (c :: rest) || subIn pat rest

/-- Model of `str.lstrip()` for whitespace. -/
def pyLtrim (s : PyStr) : PyStr := s.dropWhile Char.isWhitespace

/-- Model of `str.rstrip()` for whitespace. -/
def pyRtrim (s : PyStr) : PyStr := (s.reverse.dropWhile Char.isWhitespace).reverse

/-- Model of `str.strip()` for whitespace. -/
def pyStrip (s : PyStr) : PyStr := pyRtrim (pyLtrim s)

/-- Model of `line.replace('\t', ' ')` (line 108 of the source). -/
def tabToSpace (s : PyStr) : PyStr := s.map (fun c => if c = Char.ofNat 9 then ' ' else c)

/-- Auxiliary for `pyReplace`: structurally recursive scan; `skip` counts
characters of a previously matched pattern occurrence still to be consumed. -/
def pyReplaceAux (pat rep : PyStr) : PyStr → Nat → PyStr
  | [], _ => []
  | _ :: rest, Nat.succ skip => pyReplaceAux pat rep rest skip
  | c :: rest, 0 =>
    if pat ≠ [] && pat.isPrefixOf (c :: rest) then
      rep ++ pyReplaceAux pat rep rest (pat.length - 1)
    else
      c :: pyReplaceAux pat rep rest 0

/-- Model of `str.replace(pat, rep)`: leftmost, non-overlapping replacement.
For `pat = ''` (never used by the source) the string is returned unchanged. -/
def pyReplace (s pat rep : PyStr) : PyStr := pyReplaceAux pat rep s 0

/-- Helper for `pySplit`: cut a string at every whitespace character. -/
def splitWsAux : PyStr → PyStr → List PyStr
  | [], acc => [acc.reverse]
  | c :: rest, acc =>
    if c.isWhitespace then acc.reverse :: splitWsAux rest []
    else splitWsAux rest (c :: acc)

/-- Model of `re.compile(r"\s+").split(s.strip())`, the combination the
source always uses (lines 122, 143-144, 155-156, 181): strip, then split on
runs of whitespace.  On a stripped string, splitting at every whitespace
character and discarding empty pieces coincides with splitting at runs;
Python returns `['']` for the empty string. -/
def pySplit (s : PyStr) : List PyStr :=
  let t := pyStrip s
  if t.isEmpty then [[]] else (splitWsAux t []).filter (fun w => !w.isEmpty)

/-- Decimal-digit string (nonempty). -/
def decDigits (s : PyStr) : Bool := !s.isEmpty && s.all Char.isDigit

/-- Drop one leading sign character, as Python numeric parsing allows. -/
def dropSign : PyStr → PyStr
  | [] => []
  | c :: rest => if c = '+' || c = '-' then rest else c :: rest

/-- Mantissa forms accepted: `digits`, `digits.`, `digits.digits`, `.digits`. -/
def mantissaOK (s : PyStr) : Bool :=
  match s.splitOn '.' with
  | [a] => decDigits a
  | [a, b] => (decDigits a && (b.isEmpty || decDigits b)) || (a.isEmpty && decDigits b)
  | _ => false

/-- Decidable check standing in for success of Python `float(tok)` on a
whitespace-free token: an optional sign, a decimal mantissa, and an optional
exponent.  This is a conservative subset of what CPython accepts; every
token satisfying it is accepted by `float`. -/
def isFloatTok (s : PyStr) : Bool :=
  match (dropSign s).splitOn 'e' with
  | [m] => mantissaOK m
  | [m, ex] => mantissaOK m && decDigits (dropSign ex)
  | _ => false

/-- Fold a digit string into a natural number. -/
def natOfDigits : PyStr → Nat → Nat
  | [], acc => acc
  | c :: rest, acc => natOfDigits rest (acc * 10 + (c.toNat - 48))

/-- Model of Python `int(tok)` on a whitespace-free token: optional sign and
decimal digits (a conservative subset of what CPython accepts). -/
def pyInt (s : PyStr) : Option Int :=
  match s with
  | '-' :: rest => if decDigits rest then some (-(natOfDigits rest 0 : Int)) else none
  | '+' :: rest => if decDigits rest then some (natOfDigits rest 0 : Int) else none
  | _ => if decDigits s then some (natOfDigits s 0 : Int) else none

/-- Decimal rendering of a natural number as a `PyStr`. -/
def natStr (n : Nat) : PyStr := (Nat.repr n).toList

/-- Model of Python `list.index`: index of the first occurrence, or `none`
standing for the `ValueError` the method raises when absent. -/
def pyIndex (x : PyStr) : List PyStr → Option Nat
  | [] => none
  | y :: rest => if y = x then some 0 else (pyIndex x rest).map Nat.succ

/-- Model of `s.split(sep)[0]` for a one-character separator: the part of
the string before the first occurrence of the separator. -/
def takeBefore (sep : Char) (s : PyStr) : PyStr := s.takeWhile (fun c => c ≠ sep)

/-- Model of `cleanPath` (lines 16-17): replace backslashes with slashes. -/
def cleanPath (path : PyStr) : PyStr := path.map (fun c => if c = '\\' then '/' else c)

/-- Model of `os.path.basename` on a slash-normalized path: the part after
the last slash. -/
def pyBasename (s : PyStr) : PyStr := (s.reverse.takeWhile (fun c => c ≠ '/')).reverse

/-- Table `rotation_orders` (lines 7-14 of the source), in declaration
order, so that `pyIndex` models `rotation_orders.index`. -/
def rotation_orders : List PyStr := [pc "XYZ", pc "YZX", pc "ZXY", pc "XZY", pc "YXZ", pc "ZYX"]

/-- Table `ImportBVH.translationDict` (lines 46-53): channel token to Maya
attribute name; `none` stands for the `KeyError` of a failed dict lookup. -/
def translationDict (tok : PyStr) : Option PyStr :=
  if tok = pc "Xposition" then some (pc "translateX")
  else if tok = pc "Yposition" then some (pc "translateY")
  else if tok = pc "Zposition" then some (pc "translateZ")
  else if tok = pc "Xrotation" then some (pc "rotateX")
  else if tok = pc "Yrotation" then some (pc "rotateY")
  else if tok = pc "Zrotation" then some (pc "rotateZ")
  else none

/-- Model of class `TinyDAG` (lines 19-42): an object name together with an
optional parent chain.  `root obj` models `TinyDAG(obj, None)` and
`child obj p` models `TinyDAG(obj, p)`.  The source sometimes passes a
`TinyDAG` object as `obj` (line 104); since the only uses of `obj` go
through `str(...)`, such a value is modelled by its string form. -/
inductive TinyDAG where
  | root (obj : PyStr)
  | child (obj : PyStr) (parent : TinyDAG)
deriving DecidableEq, Repr

/-- Model of `TinyDAG.__str__` / `str(self.obj)`. -/
def TinyDAG.str : TinyDAG → PyStr
  | .root o => o
  | .child o _ => o

/-- Model of the `TinyDAG.parent` property. -/
def TinyDAG.par : TinyDAG → Option TinyDAG
  | .root _ => none
  | .child _ p => some p

/-- Model of `TinyDAG.full_path` (lines 38-42). -/
def TinyDAG.full_path : TinyDAG → PyStr
  | .root o => o
  | .child o p => p.full_path ++ '|' :: o

/-- Constructor helper: `TinyDAG(name, parent)` with an optional parent. -/
def mkDag (name : PyStr) : Option TinyDAG → TinyDAG
  | none => .root name
  | some p => .child name p

/-- Exception kinds raised by the importer or by the modelled Maya calls. -/
inductive Err where
  | fileNotFound
  | invalidFormat
  | indexError
  | valueError
  | keyError
  | nameError
  | attributeError
  | missingRoot
  | sceneError
deriving DecidableEq, Repr

/-- Model of the Maya scene state the importer mutates.  Nodes are stored as
full DAG paths in creation order; `attrs` maps resolved attribute paths to
the last statically set value (values are kept as the token strings the code
would pass to `setAttr`); `keyframes` maps a resolved attribute path and an
integer time to the last keyed value. -/
structure Scene where
  nodes : List PyStr
  attrs : List (PyStr × PyStr)
  keyframes : List ((PyStr × Nat) × PyStr)
  selection : Option PyStr
deriving DecidableEq, Repr

def emptyScene : Scene := ⟨[], [], [], none⟩

/-- All scene nodes a (possibly partial) DAG path resolves to: nodes whose
full path equals it or ends with a path separator followed by it. -/
def Scene.resolveList (sc : Scene) (p : PyStr) : List PyStr :=
  sc.nodes.filter (fun n => n = p || ('|' :: p).isSuffixOf n)

/-- Model of `mc.objExists(p)`: at least one node matches. -/
def Scene.objExists (sc : Scene) (p : PyStr) : Bool :=
  !(sc.resolveList p).isEmpty

/-- Unique resolution, required by commands that act on one node. -/
def Scene.resolveU (sc : Scene) (p : PyStr) : Option PyStr :=
  match sc.resolveList p with
  | [n] => some n
  | _ => none

/-- Split an attribute path `node.attr` at its last dot. -/
def splitAttrPath (ap : PyStr) : PyStr × PyStr :=
  let attr := (ap.reverse.takeWhile (fun c => c ≠ '.')).reverse
  let node := (ap.reverse.drop (attr.length + 1)).reverse
  (node, attr)

/-- Replace-or-append update of an association list. -/
def upd {α : Type} [DecidableEq α] (l : List (α × PyStr)) (k : α) (v : PyStr) :
    List (α × PyStr) :=
  l.filter (fun e => e.1 ≠ k) ++ [(k, v)]

/-- Lookup in an association list as maintained by `upd`. -/
def alook {α : Type} [DecidableEq α] (l : List (α × PyStr)) (k : α) : Option PyStr :=
  (l.filter (fun e => e.1 = k)).getLast? |>.map Prod.snd

/-- Model of `mc.setAttr(ap, v)`: resolve the node part of the attribute
path uniquely, else the command raises. -/
def Scene.setAttrM (sc : Scene) (ap : PyStr) (v : PyStr) : Except (Err × Scene) Scene :=
  let np := (splitAttrPath ap).1
  let at' := (splitAttrPath ap).2
  match sc.resolveU np with
  | some n => .ok { sc with attrs := upd sc.attrs (n ++ '.' :: at') v }
  | none => .error (.sceneError, sc)

/-- Model of `mc.setKeyframe(ap, time=t, value=v)`. -/
def Scene.setKeyframeM (sc : Scene) (ap : PyStr) (t : Nat) (v : PyStr) :
    Except (Err × Scene) Scene :=
  let np := (splitAttrPath ap).1
  let at' := (splitAttrPath ap).2
  match sc.resolveU np with
  | some n => .ok { sc with keyframes := upd sc.keyframes (n ++ '.' :: at', t) v }
  | none => .error (.sceneError, sc)

/-- Model of `mc.select(p)` (single node). -/
def Scene.selectM (sc : Scene) (p : PyStr) : Except (Err × Scene) Scene :=
  match sc.resolveU p with
  | some n => .ok { sc with selection := some n }
  | none => .error (.sceneError, sc)

/-- Model of `mc.group(em=True, name=nm)`: creates a world-level transform
and selects it; returns its name. -/
def Scene.createGroup (sc : Scene) (nm : PyStr) : Scene × PyStr :=
  ({ sc with nodes := sc.nodes ++ [nm], selection := some nm }, nm)

/-- Model of `mc.joint(name=nm, p=(0,0,0))`: creates a joint under the
current selection and selects it; the returned reference is modelled by the
new node's full path. -/
def Scene.createJoint (sc : Scene) (nm : PyStr) : Scene × PyStr :=
  let p := match sc.selection with
    | some s => s ++ '|' :: nm
    | none => nm
  ({ sc with nodes := sc.nodes ++ [p], selection := some p }, p)

/-- Value of the Python local variable `jnt` in `readFile`: unassigned
(using it raises `NameError`), a token list (assigned at line 122), or a
node reference string (assigned at line 165 or 168). -/
inductive JntVal where
  | undef
  | toks (ts : List PyStr)
  | path (p : PyStr)
deriving DecidableEq, Repr

/-- Join with a comma and a space, for the Python `repr` of a list. -/
def commaJoin : List PyStr → PyStr
  | [] => []
  | [x] => x
  | x :: y :: xs => x ++ ',' :: ' ' :: commaJoin (y :: xs)

/-- Rendering of a Python list of strings inside an f-string, as in
`f'{jnt}.rotateOrder'` when `jnt` holds the token list from line 122. -/
def pyListRepr (ts : List PyStr) : PyStr :=
  '[' :: commaJoin (ts.map (fun t => '\'' :: (t ++ ['\'']))) ++ [']']

/-- String the f-string `f'{jnt}...'` interpolates for each `jnt` state;
`none` models the `NameError` of an unassigned local. -/
def JntVal.fstr : JntVal → Option PyStr
  | .undef => none
  | .toks ts => some (pyListRepr ts)
  | .path p => some p

/-- Join tokens with single spaces (used to record multi-value `setAttr`
payloads such as the three `translate` components). -/
def wsJoin : List PyStr → PyStr
  | [] => []
  | [x] => x
  | x :: y :: xs => x ++ ' ' :: wsJoin (y :: xs)

/-- Parser state of one `readFile` invocation: the local variables of the
source function (lines 85-91) together with the object fields it mutates
(`_channels`, `_root_node`, `_root_node_full_path`) and the scene. -/
structure St where
  safe_close : Bool
  motion : Bool
  frame : Nat
  rot_order : Option Nat
  my_parent : Option TinyDAG
  jnt : JntVal
  channels : List PyStr
  root_node : Option TinyDAG
  root_full : Option PyStr
  scene : Scene
deriving DecidableEq, Repr

/-- Model of lines 145-146: strip the `rotation` suffix from the last three
tokens of the `CHANNELS` line, reverse, and join into an axis string. -/
def axisOf (chan : List PyStr) : PyStr :=
  (((chan.drop (chan.length - 3)).map (fun t => pyReplace t (pc "rotation") (pc ""))).reverse).flatten

/-- Model of line 147: `rotation_orders.index(''.join(axis))`. -/
def rotOrderOf (chan : List PyStr) : Option Nat := pyIndex (axisOf chan) rotation_orders

/-- Model of the loop at lines 150-151: build the channel-binding entries
`f'{my_parent.full_path()}.{translationDict[chan[2 + i]]}'` for
`i in range(n)`.  Per iteration the f-string evaluates `full_path` first
(`AttributeError` on `None`), then `chan[2 + i]` (`IndexError`), then the
dict lookup (`KeyError`). -/
def chanLoop (mp : Option TinyDAG) (chan : List PyStr) : Nat → Nat → Except Err (List PyStr)
  | 0, _ => .ok []
  | Nat.succ k, i =>
    match mp with
    | none => .error .attributeError
    | some d =>
      match chan.get? (2 + i) with
      | none => .error .indexError
      | some tok =>
        match translationDict tok with
        | none => .error .keyError
        | some attr =>
          (chanLoop mp chan k (i + 1)).map (fun rest => (d.full_path ++ '.' :: attr) :: rest)

/-- Model of lines 111-119 (`ROOT`). -/
def rootPart (st : St) (line : PyStr) : St :=
  if (pc "ROOT").isPrefixOf line then
    match st.root_node with
    | some r => { st with my_parent := some (.root r.str) }
    | none =>
      let d := mkDag (pyRtrim (line.drop 5)) st.my_parent
      { st with my_parent := some d, root_node := some d, root_full := some d.full_path }
  else st

/-- Model of lines 121-124 (`JOINT`). -/
def jointPart (st : St) (line : PyStr) : Except (Err × Scene) St :=
  if subIn (pc "JOINT") line then
    let toks := pySplit line
    match toks.get? 1 with
    | none => .error (.indexError, st.scene)
    | some nm => .ok { st with jnt := .toks toks, my_parent := some (mkDag nm st.my_parent) }
  else .ok st

/-- Model of lines 126-128 (`End Site`). -/
def endSitePart (st : St) (line : PyStr) : St :=
  if subIn (pc "End Site") line then { st with safe_close := true } else st

/-- Model of lines 130-140 (closing brace).  The boolean is the `continue`
on line 134: when `safe_close` is set, the remaining checks of the loop
body are skipped for this line. -/
def bracePart (st : St) (line : PyStr) : Except (Err × Scene) (Bool × St) :=
  if subIn (pc "\x7d") line then
    if st.safe_close then .ok (true, { st with safe_close := false })
    else
      match st.my_parent with
      | none => .ok (false, st)
      | some p =>
        match p.par with
        | none => .ok (false, { st with my_parent := none })
        | some q =>
          match st.scene.selectM q.full_path with
          | .error e => .error e
          | .ok sc => .ok (false, { st with my_parent := some q, scene := sc })
  else .ok (false, st)

/-- Model of lines 142-152 (`CHANNELS`).  The rotation-order lookup (line
147) runs first; then `int(chan[1])` and the binding loop; the final
`setAttr` targets the f-string of the shared `jnt` variable (line 152). -/
def channelsPart (st : St) (line : PyStr) : Except (Err × Scene) St :=
  if subIn (pc "CHANNELS") line then
    let chan := pySplit line
    match rotOrderOf chan with
    | none => .error (.valueError, st.scene)
    | some ro =>
      match chan.get? 1 with
      | none => .error (.indexError, st.scene)
      | some ntok =>
        match pyInt ntok with
        | none => .error (.valueError, st.scene)
        | some n =>
          match chanLoop st.my_parent chan n.toNat 0 with
          | .error e => .error (e, st.scene)
          | .ok newC =>
            match st.jnt.fstr with
            | none => .error (.nameError, st.scene)
            | some jp =>
              match st.scene.setAttrM (jp ++ pc ".rotateOrder") (natStr ro) with
              | .error e => .error e
              | .ok sc =>
                .ok { st with rot_order := some ro, channels := st.channels ++ newC,
                              scene := sc }
  else .ok st

/-- Model of lines 154-170 (`OFFSET`): compute the `_tip`-suffixed name when
in an End Site block, reuse the node at `my_parent.full_path()` when one
exists (else create a joint under the current selection), then set its
`translate` from the parsed offset tokens (a `double3`, so exactly three
values are required by the `setAttr` call). -/
def offsetPart (st : St) (line : PyStr) : Except (Err × Scene) St :=
  if subIn (pc "OFFSET") line then
    let offset := pySplit line
    let jnt_name0 := match st.my_parent with
      | none => pc "None"
      | some d => d.str
    let jnt_name := if st.safe_close then jnt_name0 ++ pc "_tip" else jnt_name0
    match st.my_parent with
    | none => .error (.attributeError, st.scene)
    | some mp =>
      let created := if st.scene.objExists mp.full_path then (st.scene, mp.full_path)
                     else st.scene.createJoint jnt_name
      let sc1 := created.1
      let jp := created.2
      let vals := offset.drop 1
      if vals.all isFloatTok then
        if vals.length = 3 then
          match sc1.setAttrM (jp ++ pc ".translate") (wsJoin vals) with
          | .error e => .error e
          | .ok sc2 => .ok { st with jnt := .path jp, scene := sc2 }
        else .error (.sceneError, sc1)
      else .error (.valueError, sc1)
  else .ok st

/-- Model of lines 173-175 (`MOTION`). -/
def motionPart (st : St) (line : PyStr) : St :=
  if subIn (pc "MOTION") line then { st with motion := true } else st

/-- Model of one hierarchy-phase loop iteration (lines 109-175): the checks
are applied in sequence to the same line; the brace handler's `continue`
skips the remaining checks. -/
def hierStep (st : St) (line : PyStr) : Except (Err × Scene) St :=
  match jointPart (rootPart st line) line with
  | .error e => .error e
  | .ok st1 =>
    let st2 := endSitePart st1 line
    match bracePart st2 line with
    | .error e => .error e
    | .ok (true, st3) => .ok st3
    | .ok (false, st3) =>
      match channelsPart st3 line with
      | .error e => .error e
      | .ok st4 =>
        match offsetPart st4 line with
        | .error e => .error e
        | .ok st5 => .ok (motionPart st5 line)

/-- Model of the keyframe loop at lines 183-186: for each token at position
`i`, index the channel table (`IndexError` past its end), parse the token as
a float (`ValueError`), and set a keyframe at the current frame. -/
def kfLoop (sc : Scene) (channels : List PyStr) (t : Nat) : List PyStr → Nat →
    Except (Err × Scene) Scene
  | [], _ => .ok sc
  | v :: rest, i =>
    match channels.get? i with
    | none => .error (.indexError, sc)
    | some ch =>
      if isFloatTok v then
        match sc.setKeyframeM ch t v with
        | .error e => .error e
        | .ok sc' => kfLoop sc' channels t rest (i + 1)
      else .error (.valueError, sc)

/-- Model of one motion-phase loop iteration (lines 177-188): lines whose
text contains `Frame` are skipped; any other line is split into tokens, a
keyframe is set per token, and the frame counter is incremented. -/
def motionStep (st : St) (line : PyStr) : Except (Err × Scene) St :=
  if subIn (pc "Frame") line then .ok st
  else
    match kfLoop st.scene st.channels st.frame (pySplit line) 0 with
    | .error e => .error e
    | .ok sc' => .ok { st with scene := sc', frame := st.frame + 1 }

/-- Model of one iteration of the `for line in self.data` loop (lines
107-188): tab normalization, then the hierarchy or motion branch. -/
def step (st : St) (rawLine : PyStr) : Except (Err × Scene) St :=
  let line := tabToSpace rawLine
  if st.motion then motionStep st line else hierStep st line

/-- Runner for the line loop. -/
def runL (st : St) : List PyStr → Except (Err × Scene) St
  | [] => .ok st
  | l :: ls =>
    match step st l with
    | .error e => .error e
    | .ok st' => runL st' ls

/-- Per-joint transform attributes, in the order `trans_attrs + rot_attrs`
of lines 198-199. -/
def sixAttrs : List PyStr :=
  [pc "translateX", pc "translateY", pc "translateZ",
   pc "rotateX", pc "rotateY", pc "rotateZ"]

def rotAttrs : List PyStr := [pc "rotateX", pc "rotateY", pc "rotateZ"]

/-- Node list of the `_clear_animation` pass (lines 195-196):
`mc.select(root, hi=True)` followed by `mc.ls(sl=True)` yields the resolved
root node and every node whose full path extends it. -/
def hierNodes (sc : Scene) (rt : PyStr) : List PyStr :=
  sc.nodes.filter (fun n => n = rt || (rt ++ ['|']).isPrefixOf n)

/-- Model of the per-node body of `_clear_animation` (lines 200-211): for
each of the six attributes delete all incoming animation connections (in the
scene model: drop every keyframe of that attribute), then set each rotation
attribute to 0.  The `listConnections`, `delete` and `setAttr` calls all
resolve the node path; resolution only depends on `Scene.nodes`, which none
of these calls change, so it is computed once. -/
def clearNode (sc : Scene) (n : PyStr) : Except (Err × Scene) Scene :=
  match sc.resolveU n with
  | none => .error (.sceneError, sc)
  | some tgt =>
    let sc1 : Scene :=
      { sc with keyframes :=
          sc.keyframes.filter (fun kv => !(sixAttrs.any (fun a => kv.1.1 = tgt ++ '.' :: a))) }
    match sc1.setAttrM (n ++ pc ".rotateX") (pc "0") with
    | .error e => .error e
    | .ok sc2 =>
      match sc2.setAttrM (n ++ pc ".rotateY") (pc "0") with
      | .error e => .error e
      | .ok sc3 => sc3.setAttrM (n ++ pc ".rotateZ") (pc "0")

def clearFold (sc : Scene) : List PyStr → Except (Err × Scene) Scene
  | [] => .ok sc
  | n :: rest =>
    match clearNode sc n with
    | .error e => .error e
    | .ok sc' => clearFold sc' rest

/-- Model of `_clear_animation` (lines 190-211).  `mc.select(str(root),
hi=True)` resolves the persisted root's name and selects it with its whole
hierarchy; `mc.ls(sl=True)` then lists the root node and every descendant
(the nodes whose full path extends the root's).  The selection is modelled
by the root node (the first listed node), the only part later commands could
read. -/
def clearAnimation (root? : Option TinyDAG) (sc : Scene) : Except (Err × Scene) Scene :=
  match root? with
  | none => .error (.missingRoot, sc)
  | some r =>
    match sc.resolveU r.str with
    | none => .error (.sceneError, sc)
    | some rt => clearFold { sc with selection := some rt } (hierNodes sc rt)

/-- Session object: the fields of an `ImportBVH` instance the core reads or
writes across `readFile` calls. -/
structure Session where
  file_path : PyStr
  scale : PyStr
  data : List PyStr
  channels : List PyStr
  root_node : Option TinyDAG
  root_full : Option PyStr
deriving DecidableEq, Repr

/-- Initial parser state of a `readFile` call (lines 85-91; `_channels` is
cleared at line 89 before anything is appended). -/
def initSt (sess : Session) (mp : Option TinyDAG) (sc : Scene) : St :=
  { safe_close := false, motion := false, frame := 0, rot_order := none,
    my_parent := mp, jnt := .undef, channels := [],
    root_node := sess.root_node, root_full := sess.root_full, scene := sc }

def finishRF (sess : Session) (stF : St) : Session × Scene :=
  ({ sess with channels := stF.channels, root_node := stF.root_node,
               root_full := stF.root_full }, stF.scene)

/-- Model of `readFile` (lines 82-188).  First parse: create the scale
group, set its scale, and use it as the initial parent.  Re-import (a root
node is already persisted): set the scale on the first path component of the
persisted root full path, build the parent from `TinyDAG(self._root_node,
None)` — whose string form and full path are the persisted root's name —
and run the clear-animation pass, then process the lines. -/
def readFile (sess : Session) (sc : Scene) : Except (Err × Scene) (Session × Scene) :=
  match sess.root_node with
  | none =>
    let mocap_name := pyBasename sess.file_path
    let created := sc.createGroup (pc "_mocap_" ++ mocap_name ++ pc "_grp")
    match created.1.setAttrM (created.2 ++ pc ".scale")
        (wsJoin [sess.scale, sess.scale, sess.scale]) with
    | .error e => .error e
    | .ok sc2 =>
      match runL (initSt sess (some (.root created.2)) sc2) sess.data with
      | .error e => .error e
      | .ok stF => .ok (finishRF sess stF)
  | some r =>
    let rootFullStr := match sess.root_full with
      | some p => p
      | none => pc "None"
    match sc.setAttrM (takeBefore '|' rootFullStr ++ pc ".scale")
        (wsJoin [sess.scale, sess.scale, sess.scale]) with
    | .error e => .error e
    | .ok sc2 =>
      match clearAnimation (some r) sc2 with
      | .error e => .error e
      | .ok sc3 =>
        match runL (initSt sess (some (.root r.str)) sc3) sess.data with
        | .error e => .error e
        | .ok stF => .ok (finishRF sess stF)

/-- Model of `getData` (lines 72-79): the first line of the read file must
start with `HIERARCHY` (an empty file raises `IndexError` at `data[0]`),
then `readFile` runs. -/
def getData (sess : Session) (sc : Scene) : Except (Err × Scene) (Session × Scene) :=
  match sess.data.head? with
  | none => .error (.indexError, sc)
  | some l0 =>
    if (pc "HIERARCHY").isPrefixOf l0 then readFile sess sc
    else .error (.invalidFormat, sc)

/-- Model of `ImportBVH.__init__` (lines 56-66): normalize the path, check
existence on disk (modelled by the `fileExists` flag for the cleaned path),
then read the file content (modelled by `content`, the `readlines` result)
and parse. -/
def importBVH (fileExists : Bool) (file_path scale : PyStr) (content : List PyStr)
    (sc : Scene) : Except (Err × Scene) (Session × Scene) :=
  match fileExists with
  | false => .error (.fileNotFound, sc)
  | true =>
    getData
      { file_path := cleanPath file_path, scale := scale, data := content,
        channels := [], root_node := none, root_full := none } sc

/-! Helper lemmas about the string and association-list operations. -/

theorem takeWhile_append_stop (p : Char → Bool) (xs : PyStr) (y : Char) (ys : PyStr)
    (hxs : ∀ c ∈ xs, p c = true) (hy : p y = false) :
    (xs ++ y :: ys).takeWhile p = xs := by
  induction xs with
  | nil => simp [List.takeWhile, hy]
  | cons c rest ih =>
    have hc : p c = true := hxs c (by simp)
    have ih' := ih (fun d hd => hxs d (by simp [hd]))
    simp only [List.cons_append, List.takeWhile_cons, hc, if_true]
    rw [ih']

theorem splitAttr_append (p a : PyStr) (ha : ∀ c ∈ a, c ≠ '.') :
    splitAttrPath (p ++ '.' :: a) = (p, a) := by
  unfold splitAttrPath
  have hrev : (p ++ '.' :: a).reverse = a.reverse ++ '.' :: p.reverse := by
    simp
  rw [hrev]
  have htake : (a.reverse ++ '.' :: p.reverse).takeWhile (fun c => decide (c ≠ '.')) =
      a.reverse := by
    apply takeWhile_append_stop
    · intro c hc
      simp only [decide_eq_true_eq]
      exact ha c (List.mem_reverse.mp hc)
    · simp
  rw [htake]
  dsimp only
  rw [List.reverse_reverse]
  have h2 : a.reverse ++ '.' :: p.reverse = (a.reverse ++ ['.']) ++ p.reverse := by simp
  have h3 : a.length + 1 = (a.reverse ++ ['.']).length := by simp
  rw [h2, h3, List.drop_left, List.reverse_reverse]

theorem attrPath_inj {p₁ a₁ p₂ a₂ : PyStr} (h : p₁ ++ '.' :: a₁ = p₂ ++ '.' :: a₂)
    (h₁ : ∀ c ∈ a₁, c ≠ '.') (h₂ : ∀ c ∈ a₂, c ≠ '.') : p₁ = p₂ ∧ a₁ = a₂ := by
  have e1 := splitAttr_append p₁ a₁ h₁
  have e2 := splitAttr_append p₂ a₂ h₂
  rw [h] at e1
  rw [e2] at e1
  exact ⟨(Prod.mk.injEq _ _ _ _ ▸ e1).1.symm, (Prod.mk.injEq _ _ _ _ ▸ e1).2.symm⟩

theorem alook_upd_same {α : Type} [DecidableEq α] (l : List (α × PyStr)) (k : α) (v : PyStr) :
    alook (upd l k v) k = some v := by
  unfold alook upd
  rw [List.filter_append]
  have h1 : List.filter (fun e => decide (e.1 = k)) [(k, v)] = [(k, v)] := by
    simp [List.filter]
  rw [h1]
  simp

theorem alook_upd_other {α : Type} [DecidableEq α] (l : List (α × PyStr)) (k k' : α)
    (v : PyStr) (hk : k' ≠ k) : alook (upd l k v) k' = alook l k' := by
  unfold alook upd
  rw [List.filter_append]
  have h1 : List.filter (fun e => decide (e.1 = k')) [(k, v)] = [] := by
    simp [List.filter, Ne.symm hk]
  rw [h1, List.append_nil, List.filter_filter]
  have h2 : List.filter (fun a => decide (a.1 = k') && decide (a.1 ≠ k)) l =
      List.filter (fun e => decide (e.1 = k')) l := by
    apply List.filter_congr
    intro e _
    by_cases he : e.1 = k'
    · simp [he, hk]
    · simp [he]
  rw [h2]

theorem alook_filter_key {α : Type} [DecidableEq α] (l : List (α × PyStr)) (p : α → Bool)
    (k : α) : alook (l.filter (fun e => p e.1)) k =
      if p k then alook l k else none := by
  unfold alook
  rw [List.filter_filter]
  by_cases hp : p k
  · simp only [hp, if_true]
    have h2 : List.filter (fun a => decide (a.1 = k) && p a.1) l =
        List.filter (fun e => decide (e.1 = k)) l := by
      apply List.filter_congr
      intro e _
      by_cases he : e.1 = k
      · simp [he, hp]
      · simp [he]
    rw [h2]
  · have h2 : List.filter (fun a => decide (a.1 = k) && p a.1) l = [] := by
      rw [List.filter_eq_nil_iff]
      intro e _
      by_cases he : e.1 = k
      · simp [he, hp]
      · simp [he]
    rw [h2]
    simp [hp]

theorem pyIndex_eq_none {x : PyStr} : ∀ l : List PyStr, x ∉ l → pyIndex x l = none := by
  intro l
  induction l with
  | nil => intro _; rfl
  | cons y rest ih =>
    intro hx
    unfold pyIndex
    have hne : y ≠ x := fun h => hx (by simp [h])
    rw [if_neg hne, ih (fun h => hx (by simp [h]))]
    rfl

/-- C2: for every `CHANNELS` token list ending in the three tokens
`Zrotation Xrotation Yrotation`, the derivation of lines 145-147 (strip the
`rotation` suffix from the last three tokens, reverse, join) yields the axis
string `YXZ` and rotation-order code 4; the fixed table maps `XYZ`, `YZX`,
`ZXY`, `XZY`, `YXZ`, `ZYX` to 0..5 in declaration order; and looking up an
axis string that is not one of the six listed permutations fails (the
`ValueError` of `list.index`, a fatal error). -/
theorem claim_C2_rotation_order :
    (∀ pre : List PyStr,
       axisOf (pre ++ [pc "Zrotation", pc "Xrotation", pc "Yrotation"]) = pc "YXZ" ∧
       rotOrderOf (pre ++ [pc "Zrotation", pc "Xrotation", pc "Yrotation"]) = some 4) ∧
    pyIndex (pc "XYZ") rotation_orders = some 0 ∧
    pyIndex (pc "YZX") rotation_orders = some 1 ∧
    pyIndex (pc "ZXY") rotation_orders = some 2 ∧
    pyIndex (pc "XZY") rotation_orders = some 3 ∧
    pyIndex (pc "YXZ") rotation_orders = some 4 ∧
    pyIndex (pc "ZYX") rotation_orders = some 5 ∧
    (∀ s : PyStr, s ∉ rotation_orders → pyIndex s rotation_orders = none) := by
  refine ⟨?_, by decide, by decide, by decide, by decide, by decide, by decide, ?_⟩
  · intro pre
    have hax : axisOf (pre ++ [pc "Zrotation", pc "Xrotation", pc "Yrotation"]) = pc "YXZ" := by
      unfold axisOf
      have hlen : (pre ++ [pc "Zrotation", pc "Xrotation", pc "Yrotation"]).length - 3 =
          pre.length := by
        simp
      rw [hlen]
      rw [List.drop_left pre [pc "Zrotation", pc "Xrotation", pc "Yrotation"]]
      decide
    refine ⟨hax, ?_⟩
    unfold rotOrderOf
    rw [hax]
    decide
  · intro s hs
    exact pyIndex_eq_none rotation_orders hs

/-- Witness for C2 at concrete inputs: the §8 channel list and an unknown
axis string. -/
theorem claim_C2_rotation_order_witness :
    axisOf ([pc "CHANNELS", pc "6", pc "Xposition", pc "Yposition", pc "Zposition"] ++
        [pc "Zrotation", pc "Xrotation", pc "Yrotation"]) = pc "YXZ" ∧
    rotOrderOf ([pc "CHANNELS", pc "6", pc "Xposition", pc "Yposition", pc "Zposition"] ++
        [pc "Zrotation", pc "Xrotation", pc "Yrotation"]) = some 4 ∧
    pc "XXY" ∉ rotation_orders ∧
    pyIndex (pc "XXY") rotation_orders = none :=
  ⟨(claim_C2_rotation_order.1 _).1, (claim_C2_rotation_order.1 _).2, by decide,
   claim_C2_rotation_order.2.2.2.2.2.2.2 (pc "XXY") (by decide)⟩

/-- First non-blank line of the file content; this encodes the claim's
phrase "first non-empty content line" for the statement of C6 (a line is
blank when it strips to nothing). -/
def firstContentLine (ls : List PyStr) : Option PyStr :=
  ls.find? (fun l => !(pyStrip l).isEmpty)

theorem pyStrip_blank_all_ws {l : PyStr} (h : (pyStrip l).isEmpty = true) :
    ∀ c ∈ l, c.isWhitespace = true := by
  intro c hc
  unfold pyStrip pyRtrim pyLtrim at h
  rw [List.isEmpty_iff] at h
  have h2 : (l.dropWhile Char.isWhitespace).reverse.dropWhile Char.isWhitespace = [] := by
    by_contra hne
    exact hne (by simpa using congrArg List.reverse h)
  rw [List.dropWhile_eq_nil_iff] at h2
  rcases List.mem_append.mp
      ((List.takeWhile_append_dropWhile (p := Char.isWhitespace) (l := l)) ▸ hc) with h3 | h3
  · exact List.mem_takeWhile_imp h3
  · exact h2 c (List.mem_reverse.mpr h3)

theorem blank_no_hierarchy {l : PyStr} (h : (pyStrip l).isEmpty = true) :
    (pc "HIERARCHY").isPrefixOf l = false := by
  by_contra hne
  have hpre : pc "HIERARCHY" <+: l :=
    List.isPrefixOf_iff_prefix.mp (by revert hne; cases (pc "HIERARCHY").isPrefixOf l <;> simp)
  have hH : 'H' ∈ l := hpre.mem (by decide)
  have := pyStrip_blank_all_ws h 'H' hH
  simp at this

/-- C6: construction fails fatally with `FileNotFound` when the file does
not exist on disk, and fails fatally with `InvalidFormat` when the first
non-blank content line does not start with `HIERARCHY`; in both cases the
scene carried by the error is the untouched input scene (no scene mutation
has been issued). -/
theorem claim_C6_construction_failures :
    ∀ (fp scale : PyStr) (content : List PyStr) (sc : Scene),
      importBVH false fp scale content sc = .error (.fileNotFound, sc) ∧
      (∀ l, firstContentLine content = some l →
        (pc "HIERARCHY").isPrefixOf l = false →
        importBVH true fp scale content sc = .error (.invalidFormat, sc)) := by
  intro fp scale content sc
  refine ⟨rfl, ?_⟩
  intro l hfind hnp
  cases content with
  | nil => simp [firstContentLine] at hfind
  | cons l0 rest =>
    unfold importBVH getData
    simp only [List.head?]
    by_cases hb : (pyStrip l0).isEmpty
    · rw [blank_no_hierarchy hb]
      simp
    · unfold firstContentLine at hfind
      rw [List.find?_cons] at hfind
      rw [show (!(pyStrip l0).isEmpty) = true by simp [hb]] at hfind
      have : l = l0 := by
        have := hfind
        simp at this
        exact this.symm
      rw [this] at hnp
      rw [hnp]
      simp

/-- Witness for C6 at concrete inputs: a missing file, and an existing file
whose first non-blank line starts with `MOTION` instead of `HIERARCHY`. -/
theorem claim_C6_construction_failures_witness :
    importBVH false (pc "a.bvh") (pc "1.0") [pc "HIERARCHY"] emptyScene =
      .error (.fileNotFound, emptyScene) ∧
    firstContentLine [pc "  ", pc "MOTION"] = some (pc "MOTION") ∧
    (pc "HIERARCHY").isPrefixOf (pc "MOTION") = false ∧
    importBVH true (pc "a.bvh") (pc "1.0") [pc "  ", pc "MOTION"] emptyScene =
      .error (.invalidFormat, emptyScene) :=
  ⟨(claim_C6_construction_failures (pc "a.bvh") (pc "1.0") [pc "HIERARCHY"] emptyScene).1,
   by decide, by decide,
   (claim_C6_construction_failures (pc "a.bvh") (pc "1.0") [pc "  ", pc "MOTION"]
      emptyScene).2 (pc "MOTION") (by decide) (by decide)⟩

/-- Scene component of an import result, when it succeeded. -/
def resScene? : Except (Err × Scene) (Session × Scene) → Option Scene
  | .ok (_, sc) => some sc
  | .error _ => none

/-- Session component of an import result, when it succeeded. -/
def resSession? : Except (Err × Scene) (Session × Scene) → Option Session
  | .ok (s, _) => some s
  | .error _ => none

/-- Input exercising End Site handling (the scenario of §8 of the spec): a
`JOINT B` block containing an `End Site { OFFSET 0 0 5 }` block, with `B`'s
own offset `0 1 0`. -/
def c7Lines : List PyStr :=
  [pc "HIERARCHY", pc "ROOT Hip", pc "\x7b", pc "OFFSET 0 0 0",
   pc "CHANNELS 3 Zrotation Xrotation Yrotation",
   pc "JOINT A", pc "\x7b", pc "OFFSET 1 2 3",
   pc "CHANNELS 3 Zrotation Xrotation Yrotation",
   pc "JOINT B", pc "\x7b", pc "OFFSET 0 1 0",
   pc "CHANNELS 3 Zrotation Xrotation Yrotation",
   pc "End Site", pc "\x7b", pc "OFFSET 0 0 5", pc "\x7d", pc "\x7d", pc "\x7d", pc "\x7d",
   pc "MOTION", pc "Frames: 1", pc "Frame Time: 0.033333",
   pc "0 0 0 0 0 0 0 0 0"]

/-- C7, evaluated at the failing input `c7Lines`: the parse succeeds and the
brace of the End Site block indeed does not ascend (the node set shows `A`
under `Hip` and `B` under `A`, and the nine channel bindings land on the
three joints), but no leaf named `B_tip` is created: the node at
`my_parent.full_path()` — joint `B` itself — already exists, so the End Site
`OFFSET` reuses `B` and overwrites `B.translate` with `0 0 5` (the End Site
offset) instead of creating a `B_tip` child holding it.  `B`'s own offset
`0 1 0` is lost. -/
theorem claim_C7_end_site_failing_input :
    (resScene? (importBVH true (pc "t.bvh") (pc "1.0") c7Lines emptyScene)).map Scene.nodes =
      some [pc "_mocap_t.bvh_grp", pc "_mocap_t.bvh_grp|Hip", pc "_mocap_t.bvh_grp|Hip|A",
            pc "_mocap_t.bvh_grp|Hip|A|B"] ∧
    ((resScene? (importBVH true (pc "t.bvh") (pc "1.0") c7Lines emptyScene)).map
      (fun sc => sc.nodes.any (fun n => subIn (pc "_tip") n))) = some false ∧
    ((resScene? (importBVH true (pc "t.bvh") (pc "1.0") c7Lines emptyScene)).map
      (fun sc => alook sc.attrs (pc "_mocap_t.bvh_grp|Hip|A|B.translate"))) =
        some (some (pc "0 0 5")) ∧
    ((resSession? (importBVH true (pc "t.bvh") (pc "1.0") c7Lines emptyScene)).map
      (fun s => s.channels.length)) = some 9 := by
  decide

/-- Input for the re-import counterexample: the §8 scenario file. -/
def c8Lines : List PyStr :=
  [pc "HIERARCHY", pc "ROOT Hip", pc "\x7b", pc "OFFSET 0 0 0",
   pc "CHANNELS 6 Xposition Yposition Zposition Zrotation Xrotation Yrotation",
   pc "\x7d", pc "MOTION", pc "Frames: 2", pc "Frame Time: 0.033333",
   pc "0 0 0 0 0 0", pc "1 2 3 4 5 6"]

def c8First : Except (Err × Scene) (Session × Scene) :=
  importBVH true (pc "a.bvh") (pc "1.0") c8Lines emptyScene

/-- Second `readFile` pass on the same session and scene. -/
def c8Second : Except (Err × Scene) (Session × Scene) :=
  match c8First with
  | .ok (s, sc) => readFile s sc
  | .error e => .error e

/-- Counterexample to C8 as stated: after a first import of `c8Lines` the
persisted root full path is `_mocap_a.bvh_grp|Hip`, but on the second pass
the root-level channel binding — whose prefix is exactly the full path of
the parent reference used for parsing — is `Hip.translateX`, not
`_mocap_a.bvh_grp|Hip.translateX`.  The parent reference is therefore built
from the persisted root's name (`str(self._root_node)`), not from its
persisted full path. -/
theorem claim_C8_counterexample :
    (resSession? c8First).map Session.root_full =
      some (some (pc "_mocap_a.bvh_grp|Hip")) ∧
    (resSession? c8Second).map (fun s => s.channels.head?) =
      some (some (pc "Hip.translateX")) ∧
    pc "Hip.translateX" ≠ pc "_mocap_a.bvh_grp|Hip" ++ pc ".translateX" := by
  decide

/-- C8 amended: on re-import (the session has a persisted root), processing
the `ROOT` line creates no new hierarchy node and leaves the scene
untouched; the parent reference used for subsequent parsing is a parentless
reference whose full path is the persisted root's name (`str(_root_node)`),
not its persisted full path; and the scale update and the clear-animation
pass run before any line — hence before motion ingestion — is processed. -/
theorem claim_C8_amended_reimport :
    (∀ (st : St) (line : PyStr) (r : TinyDAG),
      st.root_node = some r →
      st.motion = false →
      tabToSpace line = line →
      (pc "ROOT").isPrefixOf line = true →
      subIn (pc "JOINT") line = false →
      subIn (pc "End Site") line = false →
      subIn (pc "\x7d") line = false →
      subIn (pc "CHANNELS") line = false →
      subIn (pc "OFFSET") line = false →
      subIn (pc "MOTION") line = false →
      step st line = .ok { st with my_parent := some (.root r.str) } ∧
      (TinyDAG.root r.str).full_path = r.str) ∧
    (∀ (sess : Session) (sc : Scene) (r : TinyDAG) (res : Session × Scene),
      sess.root_node = some r →
      readFile sess sc = .ok res →
      ∃ sc2 sc3 stF,
        sc.setAttrM (takeBefore '|'
            (match sess.root_full with | some p => p | none => pc "None") ++ pc ".scale")
          (wsJoin [sess.scale, sess.scale, sess.scale]) = .ok sc2 ∧
        clearAnimation (some r) sc2 = .ok sc3 ∧
        runL (initSt sess (some (.root r.str)) sc3) sess.data = .ok stF ∧
        res = finishRF sess stF) := by
  constructor
  · intro st line r hroot hmot htab hR hJ hE hB hC hO hM
    refine ⟨?_, rfl⟩
    unfold step
    simp only [htab, hmot, Bool.false_eq_true, if_false]
    unfold hierStep rootPart jointPart endSitePart bracePart channelsPart offsetPart motionPart
    simp only [hroot, hR, hJ, hE, hB, hC, hO, hM]
    simp [hmot]
  · intro sess sc r res hroot hrun
    unfold readFile at hrun
    rw [hroot] at hrun
    dsimp only at hrun
    cases hsa : sc.setAttrM (takeBefore '|'
        (match sess.root_full with | some p => p | none => pc "None") ++ pc ".scale")
        (wsJoin [sess.scale, sess.scale, sess.scale]) with
    | error e => rw [hsa] at hrun; exact absurd hrun (by simp)
    | ok sc2 =>
      rw [hsa] at hrun
      dsimp only at hrun
      cases hca : clearAnimation (some r) sc2 with
      | error e => rw [hca] at hrun; exact absurd hrun (by simp)
      | ok sc3 =>
        rw [hca] at hrun
        dsimp only at hrun
        cases hrl : runL (initSt sess (some (.root r.str)) sc3) sess.data with
        | error e => rw [hrl] at hrun; exact absurd hrun (by simp)
        | ok stF =>
          rw [hrl] at hrun
          dsimp only at hrun
          exact ⟨sc2, sc3, stF, rfl, hca, hrl, by cases hrun; rfl⟩

/-- Witness for the amended C8 at a concrete state: a session whose
persisted root is `Hip` under the group, processing the line `ROOT Hip`. -/
theorem claim_C8_amended_reimport_witness :
    step
      { safe_close := false, motion := false, frame := 0, rot_order := none,
        my_parent := some (.root (pc "g")), jnt := .undef, channels := [],
        root_node := some (.child (pc "Hip") (.root (pc "g"))),
        root_full := some (pc "g|Hip"), scene := emptyScene }
      (pc "ROOT Hip") =
      .ok { safe_close := false, motion := false, frame := 0, rot_order := none,
            my_parent := some (.root (pc "Hip")), jnt := .undef, channels := [],
            root_node := some (.child (pc "Hip") (.root (pc "g"))),
            root_full := some (pc "g|Hip"), scene := emptyScene } :=
  (claim_C8_amended_reimport.1
    { safe_close := false, motion := false, frame := 0, rot_order := none,
      my_parent := some (.root (pc "g")), jnt := .undef, channels := [],
      root_node := some (.child (pc "Hip") (.root (pc "g"))),
      root_full := some (pc "g|Hip"), scene := emptyScene }
    (pc "ROOT Hip") (.child (pc "Hip") (.root (pc "g")))
    rfl rfl (by decide) (by decide) (by decide) (by decide) (by decide) (by decide)
    (by decide) (by decide)).1

/-- C10: when a `CHANNELS` line is processed, the rotation-order `setAttr`
targets the f-string of the shared `jnt` variable — the node reference most
recently produced by an `OFFSET` line — and not the current node's full
path: (i) with `jnt` holding a node path `p` the rotation order is written
to the node `p` resolves to, whatever `my_parent` is; (ii) with `jnt` never
assigned (no `OFFSET` or `JOINT` line seen yet) the operation fails with a
`NameError` and the scene — hence every rotation order — is unchanged;
(iii) with `jnt` holding the token list of a `JOINT` line (a `CHANNELS`
line before the block's `OFFSET` line) the `setAttr` call fails because the
rendered Python list is not a scene path, again leaving the scene
unchanged. -/
theorem claim_C10_rot_order_target :
    (∀ (st : St) (line : PyStr) (p tgt ntok : PyStr) (ro : Nat) (n : Int)
        (newC : List PyStr),
      st.jnt = .path p →
      subIn (pc "CHANNELS") line = true →
      rotOrderOf (pySplit line) = some ro →
      (pySplit line).get? 1 = some ntok →
      pyInt ntok = some n →
      chanLoop st.my_parent (pySplit line) n.toNat 0 = .ok newC →
      st.scene.resolveU p = some tgt →
      channelsPart st line =
        .ok { st with
              rot_order := some ro,
              channels := st.channels ++ newC,
              scene := { st.scene with
                         attrs := upd st.scene.attrs
                           (tgt ++ pc ".rotateOrder") (natStr ro) } }) ∧
    (∀ (st : St) (line : PyStr) (ntok : PyStr) (ro : Nat) (n : Int)
        (newC : List PyStr),
      st.jnt = .undef →
      subIn (pc "CHANNELS") line = true →
      rotOrderOf (pySplit line) = some ro →
      (pySplit line).get? 1 = some ntok →
      pyInt ntok = some n →
      chanLoop st.my_parent (pySplit line) n.toNat 0 = .ok newC →
      channelsPart st line = .error (.nameError, st.scene)) ∧
    (∀ (st : St) (line : PyStr) (ts : List PyStr) (ntok : PyStr) (ro : Nat) (n : Int)
        (newC : List PyStr),
      st.jnt = .toks ts →
      subIn (pc "CHANNELS") line = true →
      rotOrderOf (pySplit line) = some ro →
      (pySplit line).get? 1 = some ntok →
      pyInt ntok = some n →
      chanLoop st.my_parent (pySplit line) n.toNat 0 = .ok newC →
      st.scene.resolveU (pyListRepr ts) = none →
      channelsPart st line = .error (.sceneError, st.scene)) := by
  refine ⟨?_, ?_, ?_⟩
  · intro st line p tgt ntok ro n newC hj hC hro hn1 hint hloop hres
    unfold channelsPart
    rw [hC]
    simp only [if_true, hro, hn1, hint, hloop]
    rw [hj]
    unfold JntVal.fstr
    dsimp only
    unfold Scene.setAttrM
    have hsp : splitAttrPath (p ++ pc ".rotateOrder") = (p, pc "rotateOrder") :=
      splitAttr_append p (pc "rotateOrder") (by decide)
    rw [show p ++ pc ".rotateOrder" = p ++ '.' :: pc "rotateOrder" from rfl] at hsp ⊢
    rw [hsp]
    dsimp only
    rw [hres]
    rfl
  · intro st line ntok ro n newC hj hC hro hn1 hint hloop
    unfold channelsPart
    rw [hC]
    simp only [if_true, hro, hn1, hint, hloop]
    rw [hj]
    unfold JntVal.fstr
    dsimp only
  · intro st line ts ntok ro n newC hj hC hro hn1 hint hloop hres
    unfold channelsPart
    rw [hC]
    simp only [if_true, hro, hn1, hint, hloop]
    rw [hj]
    unfold JntVal.fstr
    dsimp only
    unfold Scene.setAttrM
    have hsp : splitAttrPath (pyListRepr ts ++ pc ".rotateOrder") =
        (pyListRepr ts, pc "rotateOrder") :=
      splitAttr_append (pyListRepr ts) (pc "rotateOrder") (by decide)
    rw [show pyListRepr ts ++ pc ".rotateOrder" = pyListRepr ts ++ '.' :: pc "rotateOrder"
      from rfl] at hsp ⊢
    rw [hsp]
    dsimp only
    rw [hres]

/-- Witness for C10 at a concrete state: `jnt` holds the path of a node
other than the current `my_parent`, and the rotation order is written to the
node `jnt` resolves to. -/
theorem claim_C10_rot_order_target_witness :
    channelsPart
      { safe_close := false, motion := false, frame := 0, rot_order := none,
        my_parent := some (.child (pc "B") (.root (pc "g"))), jnt := .path (pc "g"),
        channels := [],
        root_node := none, root_full := none,
        scene := { nodes := [pc "g", pc "g|B"], attrs := [], keyframes := [],
                   selection := some (pc "g|B") } }
      (pc "CHANNELS 3 Zrotation Xrotation Yrotation") =
      .ok { safe_close := false, motion := false, frame := 0, rot_order := some 4,
            my_parent := some (.child (pc "B") (.root (pc "g"))), jnt := .path (pc "g"),
            channels := [pc "g|B.rotateZ", pc "g|B.rotateX", pc "g|B.rotateY"],
            root_node := none, root_full := none,
            scene := { nodes := [pc "g", pc "g|B"],
                       attrs := upd [] (pc "g" ++ pc ".rotateOrder") (natStr 4),
                       keyframes := [], selection := some (pc "g|B") } } := by
  have h := claim_C10_rot_order_target.1
    { safe_close := false, motion := false, frame := 0, rot_order := none,
      my_parent := some (.child (pc "B") (.root (pc "g"))), jnt := .path (pc "g"),
      channels := [],
      root_node := none, root_full := none,
      scene := { nodes := [pc "g", pc "g|B"], attrs := [], keyframes := [],
                 selection := some (pc "g|B") } }
    (pc "CHANNELS 3 Zrotation Xrotation Yrotation") (pc "g") (pc "g") (pc "3") 4 3
    [pc "g|B.rotateZ", pc "g|B.rotateX", pc "g|B.rotateY"]
    rfl (by decide) (by decide) (by decide) (by decide) (by rfl) (by decide)
  exact h

/-- Resolved attribute path a channel-binding string writes to in a scene:
the node part resolved uniquely, rejoined with the attribute part. -/
def chanTarget (sc : Scene) (c : PyStr) : Option PyStr :=
  (sc.resolveU (splitAttrPath c).1).map (fun n => n ++ '.' :: (splitAttrPath c).2)

/-- Resolved targets of a list of channel bindings (`none` when any fails). -/
def chanTargets (sc : Scene) : List PyStr → Option (List PyStr)
  | [] => some []
  | c :: rest =>
    match chanTarget sc c, chanTargets sc rest with
    | some a, some rest' => some (a :: rest')
    | _, _ => none

/-- Keyframe store after writing one value per (resolved target, token)
pair at time `t`, in order. -/
def kfWrites (kfs : List ((PyStr × Nat) × PyStr)) (t : Nat) :
    List (PyStr × PyStr) → List ((PyStr × Nat) × PyStr)
  | [] => kfs
  | (a, v) :: rest => kfWrites (upd kfs (a, t) v) t rest

theorem resolveList_nodes {sc1 sc2 : Scene} (h : sc1.nodes = sc2.nodes) (p : PyStr) :
    sc1.resolveList p = sc2.resolveList p := by
  unfold Scene.resolveList
  rw [h]

theorem resolveU_nodes {sc1 sc2 : Scene} (h : sc1.nodes = sc2.nodes) (p : PyStr) :
    sc1.resolveU p = sc2.resolveU p := by
  unfold Scene.resolveU
  rw [resolveList_nodes h]

theorem chanTarget_nodes {sc1 sc2 : Scene} (h : sc1.nodes = sc2.nodes) (c : PyStr) :
    chanTarget sc1 c = chanTarget sc2 c := by
  unfold chanTarget
  rw [resolveU_nodes h]

theorem chanTargets_nodes {sc1 sc2 : Scene} (h : sc1.nodes = sc2.nodes) :
    ∀ l : List PyStr, chanTargets sc1 l = chanTargets sc2 l := by
  intro l
  induction l with
  | nil => rfl
  | cons c rest ih =>
    unfold chanTargets
    rw [chanTarget_nodes h, ih]

theorem setKeyframeM_ok {sc : Scene} {c a : PyStr} (h : chanTarget sc c = some a)
    (t : Nat) (v : PyStr) :
    sc.setKeyframeM c t v = .ok { sc with keyframes := upd sc.keyframes (a, t) v } := by
  unfold Scene.setKeyframeM
  unfold chanTarget at h
  cases hr : sc.resolveU (splitAttrPath c).1 with
  | none => rw [hr] at h; exact absurd h (by simp)
  | some n =>
    rw [hr] at h
    simp only [Option.map_some'] at h
    cases h
    dsimp only
    rw [hr]

theorem kfLoop_ok (channels : List PyStr) (t : Nat) :
    ∀ (data : List PyStr) (sc : Scene) (i : Nat) (tgts : List PyStr),
      chanTargets sc ((channels.drop i).take data.length) = some tgts →
      data.length + i ≤ channels.length →
      data.all isFloatTok = true →
      kfLoop sc channels t data i =
        .ok { sc with keyframes := kfWrites sc.keyframes t (tgts.zip data) } := by
  intro data
  induction data with
  | nil =>
    intro sc i tgts htg _ _
    simp only [List.length_nil, List.take_zero] at htg
    unfold chanTargets at htg
    cases htg
    rfl
  | cons v rest ih =>
    intro sc i tgts htg hlen hfl
    have hi : i < channels.length := by
      simp only [List.length_cons] at hlen
      omega
    have hdrop : channels.drop i = channels[i] :: channels.drop (i + 1) :=
      List.drop_eq_getElem_cons hi
    rw [hdrop] at htg
    simp only [List.length_cons, List.take_succ_cons] at htg
    unfold chanTargets at htg
    cases hct : chanTarget sc channels[i] with
    | none =>
      cases hcts : chanTargets sc ((channels.drop (i + 1)).take rest.length) with
      | none => rw [hct, hcts] at htg; exact absurd htg (by simp)
      | some r => rw [hct, hcts] at htg; exact absurd htg (by simp)
    | some a =>
      cases hcts : chanTargets sc ((channels.drop (i + 1)).take rest.length) with
      | none => rw [hct, hcts] at htg; exact absurd htg (by simp)
      | some rest' =>
        rw [hct, hcts] at htg
        simp only at htg
        cases htg
        have hflv : isFloatTok v = true := by
          simp [List.all_cons] at hfl
          exact hfl.1
        have hflr : rest.all isFloatTok = true := by
          simp [List.all_cons] at hfl
          simp [List.all_eq_true]
          exact hfl.2
        unfold kfLoop
        have hget : channels.get? i = some channels[i] := by
          rw [List.get?_eq_getElem?]
          exact List.getElem?_eq_getElem hi
        rw [hget]
        simp only [hflv, if_true]
        rw [setKeyframeM_ok hct t v]
        have hnodes : ({ sc with keyframes := upd sc.keyframes (a, t) v } : Scene).nodes =
            sc.nodes := rfl
        have ih' := ih { sc with keyframes := upd sc.keyframes (a, t) v } (i + 1) rest'
          (by rw [chanTargets_nodes hnodes]; exact hcts)
          (by simp only [List.length_cons] at hlen; omega) hflr
        dsimp only
        rw [ih']
        rfl

theorem kfLoop_overflow (channels : List PyStr) (t : Nat) :
    ∀ (data : List PyStr) (sc : Scene) (i : Nat) (tgts : List PyStr),
      chanTargets sc (channels.drop i) = some tgts →
      channels.length - i < data.length →
      data.all isFloatTok = true →
      ∃ sc', kfLoop sc channels t data i = .error (.indexError, sc') := by
  intro data
  induction data with
  | nil =>
    intro sc i tgts _ hlen _
    simp only [List.length_nil] at hlen
    omega
  | cons v rest ih =>
    intro sc i tgts htg hlen hfl
    by_cases hi : i < channels.length
    · have hdrop : channels.drop i = channels[i] :: channels.drop (i + 1) :=
        List.drop_eq_getElem_cons hi
      rw [hdrop] at htg
      unfold chanTargets at htg
      cases hct : chanTarget sc channels[i] with
      | none =>
        cases hcts : chanTargets sc (channels.drop (i + 1)) with
        | none => rw [hct, hcts] at htg; exact absurd htg (by simp)
        | some r => rw [hct, hcts] at htg; exact absurd htg (by simp)
      | some a =>
        cases hcts : chanTargets sc (channels.drop (i + 1)) with
        | none => rw [hct, hcts] at htg; exact absurd htg (by simp)
        | some rest' =>
          have hflv : isFloatTok v = true := by
            simp [List.all_cons] at hfl
            exact hfl.1
          have hflr : rest.all isFloatTok = true := by
            simp [List.all_cons] at hfl
            simp [List.all_eq_true]
            exact hfl.2
          unfold kfLoop
          have hget : channels.get? i = some channels[i] := by
            rw [List.get?_eq_getElem?]
            exact List.getElem?_eq_getElem hi
          rw [hget]
          simp only [hflv, if_true]
          rw [setKeyframeM_ok hct t v]
          have hnodes : ({ sc with keyframes := upd sc.keyframes (a, t) v } : Scene).nodes =
              sc.nodes := rfl
          have ih' := ih { sc with keyframes := upd sc.keyframes (a, t) v } (i + 1) rest'
            (by rw [chanTargets_nodes hnodes]; exact hcts)
            (by simp only [List.length_cons] at hlen; omega) hflr
          obtain ⟨sc', hsc'⟩ := ih'
          exact ⟨sc', by dsimp only; rw [hsc']⟩
    · have hget : channels.get? i = none := by
        rw [List.get?_eq_getElem?]
        exact List.getElem?_eq_none (by omega)
      refine ⟨sc, ?_⟩
      unfold kfLoop
      rw [hget]

/-- C5: during motion ingestion of one data line, (overflow) when there are
more whitespace-separated numeric tokens than Channel Binding Table entries
the loop raises a fatal `IndexError` when indexing the table; (underflow)
when there are fewer tokens than entries the loop finishes without error and
the keyframe writes it performs are exactly those for the first
`data.length` table entries — the trailing channels receive no keyframe on
that frame. -/
theorem claim_C5_token_count :
    (∀ (sc : Scene) (channels : List PyStr) (t : Nat) (data : List PyStr)
        (tgts : List PyStr),
      chanTargets sc channels = some tgts →
      channels.length < data.length →
      data.all isFloatTok = true →
      ∃ sc', kfLoop sc channels t data 0 = .error (.indexError, sc')) ∧
    (∀ (sc : Scene) (channels : List PyStr) (t : Nat) (data : List PyStr)
        (tgts : List PyStr),
      chanTargets sc (channels.take data.length) = some tgts →
      data.length ≤ channels.length →
      data.all isFloatTok = true →
      kfLoop sc channels t data 0 =
        .ok { sc with keyframes := kfWrites sc.keyframes t (tgts.zip data) }) := by
  constructor
  · intro sc channels t data tgts htg hlen hfl
    exact kfLoop_overflow channels t data sc 0 tgts (by simpa using htg) (by omega) hfl
  · intro sc channels t data tgts htg hlen hfl
    exact kfLoop_ok channels t data sc 0 tgts (by simpa using htg) (by omega) hfl

/-- Witness for C5 at concrete inputs: one binding with two tokens raises
`IndexError`; three bindings with one token succeed, writing a keyframe only
for the first binding. -/
theorem claim_C5_token_count_witness :
    (∃ sc', kfLoop { nodes := [pc "g"], attrs := [], keyframes := [], selection := none }
        [pc "g.translateX"] 7 [pc "1", pc "2"] 0 = .error (.indexError, sc')) ∧
    kfLoop { nodes := [pc "g"], attrs := [], keyframes := [], selection := none }
        [pc "g.translateX", pc "g.translateY", pc "g.translateZ"] 7 [pc "5"] 0 =
      .ok { nodes := [pc "g"], attrs := [],
            keyframes := kfWrites [] 7 ([pc "g.translateX"].zip [pc "5"]),
            selection := none } :=
  ⟨claim_C5_token_count.1 _ _ 7 _ [pc "g.translateX"] (by decide) (by decide) (by decide),
   claim_C5_token_count.2 _ _ 7 _ [pc "g.translateX"] (by decide) (by decide) (by decide)⟩

theorem setAttrM_ok {sc : Scene} {p a tgt : PyStr} (ha : ∀ c ∈ a, c ≠ '.')
    (h : sc.resolveU p = some tgt) (v : PyStr) :
    sc.setAttrM (p ++ '.' :: a) v = .ok { sc with attrs := upd sc.attrs (tgt ++ '.' :: a) v } := by
  unfold Scene.setAttrM
  rw [splitAttr_append p a ha]
  dsimp only
  rw [h]

theorem clearNode_ok {sc : Scene} {n : PyStr} (h : sc.resolveU n = some n) :
    clearNode sc n = .ok { sc with
      keyframes := sc.keyframes.filter
        (fun kv => !(sixAttrs.any (fun a => kv.1.1 = n ++ '.' :: a))),
      attrs := upd (upd (upd sc.attrs (n ++ '.' :: pc "rotateX") (pc "0"))
        (n ++ '.' :: pc "rotateY") (pc "0")) (n ++ '.' :: pc "rotateZ") (pc "0") } := by
  unfold clearNode
  rw [h]
  dsimp only
  have h1 : Scene.resolveU { sc with keyframes := sc.keyframes.filter (fun kv => !(sixAttrs.any (fun a => kv.1.1 = n ++ '.' :: a))) } n = some n :=
    (resolveU_nodes rfl n).trans h
  rw [show (n ++ pc ".rotateX") = n ++ '.' :: pc "rotateX" from rfl,
      setAttrM_ok (by decide) h1 (pc "0")]
  dsimp only
  have h2 : Scene.resolveU { sc with keyframes := sc.keyframes.filter (fun kv => !(sixAttrs.any (fun a => kv.1.1 = n ++ '.' :: a))), attrs := upd sc.attrs (n ++ '.' :: pc "rotateX") (pc "0") } n = some n :=
    (resolveU_nodes rfl n).trans h
  rw [show (n ++ pc ".rotateY") = n ++ '.' :: pc "rotateY" from rfl,
      setAttrM_ok (by decide) h2 (pc "0")]
  dsimp only
  have h3 : Scene.resolveU { sc with keyframes := sc.keyframes.filter (fun kv => !(sixAttrs.any (fun a => kv.1.1 = n ++ '.' :: a))), attrs := upd (upd sc.attrs (n ++ '.' :: pc "rotateX") (pc "0")) (n ++ '.' :: pc "rotateY") (pc "0") } n = some n :=
    (resolveU_nodes rfl n).trans h
  rw [show (n ++ pc ".rotateZ") = n ++ '.' :: pc "rotateZ" from rfl,
      setAttrM_ok (by decide) h3 (pc "0")]

def transAttrs : List PyStr := [pc "translateX", pc "translateY", pc "translateZ"]

theorem alook_kfFilter (l : List ((PyStr × Nat) × PyStr)) (n : PyStr) (k : PyStr × Nat) :
    alook (l.filter (fun kv => !(sixAttrs.any (fun a => kv.1.1 = n ++ '.' :: a)))) k =
      if sixAttrs.any (fun a => k.1 = n ++ '.' :: a) then none else alook l k := by
  have h := alook_filter_key l (fun key => !(sixAttrs.any (fun a => key.1 = n ++ '.' :: a))) k
  rw [show (fun (kv : (PyStr × Nat) × PyStr) =>
        !(sixAttrs.any (fun a => kv.1.1 = n ++ '.' :: a))) =
      (fun (e : (PyStr × Nat) × PyStr) =>
        (fun (key : PyStr × Nat) => !(sixAttrs.any (fun a => key.1 = n ++ '.' :: a))) e.1)
      from rfl]
  rw [h]
  by_cases hk : sixAttrs.any (fun a => k.1 = n ++ '.' :: a)
  · simp [hk]
  · simp [hk]

theorem attrKey_ne {n : PyStr} {a₁ a₂ : PyStr} (h₁ : ∀ c ∈ a₁, c ≠ '.')
    (h₂ : ∀ c ∈ a₂, c ≠ '.') (hne : a₁ ≠ a₂) : n ++ '.' :: a₁ ≠ n ++ '.' :: a₂ := by
  intro he
  exact hne (attrPath_inj he h₁ h₂).2

theorem trans_ne_rot {n m ta ra : PyStr} (hta : ta ∈ transAttrs) (hra : ra ∈ rotAttrs) :
    n ++ '.' :: ta ≠ m ++ '.' :: ra := by
  intro he
  fin_cases hta <;> fin_cases hra <;>
    exact absurd (attrPath_inj he (by decide) (by decide)).2 (by decide)

theorem clearFold_spec :
    ∀ (ns : List PyStr) (sc : Scene),
      (∀ n ∈ ns, sc.resolveU n = some n) →
      ∃ sc', clearFold sc ns = .ok sc' ∧
        sc'.nodes = sc.nodes ∧
        sc'.selection = sc.selection ∧
        (∀ n ∈ ns, ∀ a ∈ sixAttrs, ∀ t : Nat,
          alook sc'.keyframes (n ++ '.' :: a, t) = none) ∧
        (∀ k : PyStr × Nat, (∀ n ∈ ns, ∀ a ∈ sixAttrs, k.1 ≠ n ++ '.' :: a) →
          alook sc'.keyframes k = alook sc.keyframes k) ∧
        (∀ n ∈ ns, ∀ a ∈ rotAttrs, alook sc'.attrs (n ++ '.' :: a) = some (pc "0")) ∧
        (∀ k : PyStr, (∀ n ∈ ns, ∀ a ∈ rotAttrs, k ≠ n ++ '.' :: a) →
          alook sc'.attrs k = alook sc.attrs k) := by
  intro ns
  induction ns with
  | nil =>
    intro sc _
    exact ⟨sc, rfl, rfl, rfl, by simp, fun k _ => rfl, by simp, fun k _ => rfl⟩
  | cons n rest ih =>
    intro sc hres
    have hn : sc.resolveU n = some n := hres n (by simp)
    have hclear := clearNode_ok hn
    set scn : Scene := { sc with
      keyframes := sc.keyframes.filter
        (fun kv => !(sixAttrs.any (fun a => kv.1.1 = n ++ '.' :: a))),
      attrs := upd (upd (upd sc.attrs (n ++ '.' :: pc "rotateX") (pc "0"))
        (n ++ '.' :: pc "rotateY") (pc "0")) (n ++ '.' :: pc "rotateZ") (pc "0") } with hscn
    obtain ⟨sc', hfold, hnodes, hsel, hkfnone, hkfpres, hrot, hattrpres⟩ :=
      ih scn (by
        intro m hm
        rw [resolveU_nodes (show scn.nodes = sc.nodes from rfl)]
        exact hres m (by simp [hm]))
    -- effect of clearNode on this node's keyframes and rotation attrs
    have factA : ∀ a ∈ sixAttrs, ∀ t : Nat, alook scn.keyframes (n ++ '.' :: a, t) = none := by
      intro a ha t
      rw [hscn]
      dsimp only
      rw [alook_kfFilter]
      rw [if_pos]
      rw [List.any_eq_true]
      exact ⟨a, ha, by simp⟩
    have factB : ∀ k : PyStr × Nat, (∀ a ∈ sixAttrs, k.1 ≠ n ++ '.' :: a) →
        alook scn.keyframes k = alook sc.keyframes k := by
      intro k hk
      rw [hscn]
      dsimp only
      rw [alook_kfFilter]
      rw [if_neg]
      simp only [List.any_eq_true, not_exists]
      intro a ha
      exact hk a ha.1 (of_decide_eq_true ha.2)
    have factC : ∀ a ∈ rotAttrs, alook scn.attrs (n ++ '.' :: a) = some (pc "0") := by
      intro a ha
      rw [hscn]
      dsimp only
      fin_cases ha
      · rw [alook_upd_other _ _ _ _ (attrKey_ne (by decide) (by decide) (by decide)),
            alook_upd_other _ _ _ _ (attrKey_ne (by decide) (by decide) (by decide)),
            alook_upd_same]
      · rw [alook_upd_other _ _ _ _ (attrKey_ne (by decide) (by decide) (by decide)),
            alook_upd_same]
      · rw [alook_upd_same]
    have factD : ∀ k : PyStr, (∀ a ∈ rotAttrs, k ≠ n ++ '.' :: a) →
        alook scn.attrs k = alook sc.attrs k := by
      intro k hk
      rw [hscn]
      dsimp only
      rw [alook_upd_other _ _ _ _ (hk (pc "rotateZ") (by decide)),
          alook_upd_other _ _ _ _ (hk (pc "rotateY") (by decide)),
          alook_upd_other _ _ _ _ (hk (pc "rotateX") (by decide))]
    refine ⟨sc', ?_, hnodes, hsel, ?_, ?_, ?_, ?_⟩
    · unfold clearFold
      rw [hclear]
      dsimp only
      exact hfold
    · intro m hm a ha t
      rcases List.mem_cons.mp hm with hm1 | hm2
      · subst hm1
        by_cases hc : ∀ m' ∈ rest, ∀ a' ∈ sixAttrs,
            ((m ++ '.' :: a : PyStr), t).1 ≠ m' ++ '.' :: a'
        · rw [hkfpres _ hc]
          exact factA a ha t
        · push_neg at hc
          obtain ⟨m', hm', a', ha', heq⟩ := hc
          have : ((m ++ '.' :: a : PyStr), t) = ((m' ++ '.' :: a' : PyStr), t) := by
            simp only at heq
            rw [heq]
          rw [this]
          exact hkfnone m' hm' a' ha' t
      · exact hkfnone m hm2 a ha t
    · intro k hk
      rw [hkfpres k (fun m hm a ha => hk m (by simp [hm]) a ha)]
      exact factB k (fun a ha => hk n (by simp) a ha)
    · intro m hm a ha
      rcases List.mem_cons.mp hm with hm1 | hm2
      · subst hm1
        by_cases hc : ∀ m' ∈ rest, ∀ a' ∈ rotAttrs, (m ++ '.' :: a : PyStr) ≠ m' ++ '.' :: a'
        · rw [hattrpres _ hc]
          exact factC a ha
        · push_neg at hc
          obtain ⟨m', hm', a', ha', heq⟩ := hc
          rw [heq]
          exact hrot m' hm' a' ha'
      · exact hrot m hm2 a ha
    · intro k hk
      rw [hattrpres k (fun m hm a ha => hk m (by simp [hm]) a ha)]
      exact factD k (fun a ha => hk n (by simp) a ha)

/-- C9: frame effect of the clear-animation pass.  For the resolved root and
every descendant (`hierNodes`), every keyframe on each of the six transform
attributes is deleted (the incoming animation curves are gone), keyframes on
any other attribute are untouched, each rotation attribute is set to 0, and
each translation attribute's static value is unchanged. -/
theorem claim_C9_clear_animation :
    ∀ (sc : Scene) (r : TinyDAG) (rt : PyStr),
      sc.resolveU r.str = some rt →
      (∀ n ∈ hierNodes sc rt, sc.resolveU n = some n) →
      ∃ sc', clearAnimation (some r) sc = .ok sc' ∧
        sc'.nodes = sc.nodes ∧
        (∀ n ∈ hierNodes sc rt, ∀ a ∈ sixAttrs, ∀ t : Nat,
          alook sc'.keyframes (n ++ '.' :: a, t) = none) ∧
        (∀ k : PyStr × Nat,
          (∀ n ∈ hierNodes sc rt, ∀ a ∈ sixAttrs, k.1 ≠ n ++ '.' :: a) →
          alook sc'.keyframes k = alook sc.keyframes k) ∧
        (∀ n ∈ hierNodes sc rt, ∀ a ∈ rotAttrs,
          alook sc'.attrs (n ++ '.' :: a) = some (pc "0")) ∧
        (∀ n ∈ hierNodes sc rt, ∀ a ∈ transAttrs,
          alook sc'.attrs (n ++ '.' :: a) = alook sc.attrs (n ++ '.' :: a)) := by
  intro sc r rt hrt hns
  obtain ⟨sc', hfold, hnodes, hsel, hkfnone, hkfpres, hrot, hattrpres⟩ :=
    clearFold_spec (hierNodes sc rt) { sc with selection := some rt }
      (fun m hm => (resolveU_nodes rfl m).trans (hns m hm))
  refine ⟨sc', ?_, hnodes, hkfnone, hkfpres, hrot, ?_⟩
  · unfold clearAnimation
    dsimp only
    rw [hrt]
    dsimp only
    exact hfold
  · intro n hn a ha
    exact hattrpres (n ++ '.' :: a) (fun m _ ra hra => trans_ne_rot ha hra)

/-- Scene for the C9 witness: a root `Hip` under a group with one child,
an animated rotation, a static rotation value, and a keyframe on an
unrelated node. -/
def c9Scene : Scene :=
  { nodes := [pc "g", pc "g|Hip", pc "g|Hip|A", pc "other"],
    attrs := [(pc "g|Hip.rotateX", pc "5"), (pc "g|Hip.translateY", pc "7")],
    keyframes := [((pc "g|Hip.rotateX", 0), pc "1"), ((pc "g|Hip|A.translateZ", 2), pc "3"),
                  ((pc "other.rotateX", 0), pc "9")],
    selection := none }

/-- Witness for C9 on `c9Scene`: the persisted root `Hip` resolves to
`g|Hip`, whose hierarchy is `[g|Hip, g|Hip|A]`. -/
theorem claim_C9_clear_animation_witness :
    ∃ sc', clearAnimation (some (TinyDAG.child (pc "Hip") (TinyDAG.root (pc "g"))))
        c9Scene = .ok sc' ∧
      sc'.nodes = c9Scene.nodes ∧
      (∀ n ∈ hierNodes c9Scene (pc "g|Hip"), ∀ a ∈ sixAttrs, ∀ t : Nat,
        alook sc'.keyframes (n ++ '.' :: a, t) = none) ∧
      (∀ k : PyStr × Nat,
        (∀ n ∈ hierNodes c9Scene (pc "g|Hip"), ∀ a ∈ sixAttrs, k.1 ≠ n ++ '.' :: a) →
        alook sc'.keyframes k = alook c9Scene.keyframes k) ∧
      (∀ n ∈ hierNodes c9Scene (pc "g|Hip"), ∀ a ∈ rotAttrs,
        alook sc'.attrs (n ++ '.' :: a) = some (pc "0")) ∧
      (∀ n ∈ hierNodes c9Scene (pc "g|Hip"), ∀ a ∈ transAttrs,
        alook sc'.attrs (n ++ '.' :: a) = alook c9Scene.attrs (n ++ '.' :: a)) :=
  claim_C9_clear_animation c9Scene (TinyDAG.child (pc "Hip") (TinyDAG.root (pc "g")))
    (pc "g|Hip") (by decide) (by decide)

/-- Explicit form of the keyframe store produced by the motion loop: lines
containing `Frame` are skipped without touching the frame counter; any other
line writes one keyframe per token at time equal to the current frame
counter (against the first `token count` resolved channel targets), after
which the counter is incremented. -/
def mIngest (tgts : List PyStr) : Nat → List PyStr → List ((PyStr × Nat) × PyStr) →
    List ((PyStr × Nat) × PyStr)
  | _, [], kfs => kfs
  | f, l :: ls, kfs =>
    if subIn (pc "Frame") (tabToSpace l) then mIngest tgts f ls kfs
    else
      mIngest tgts (f + 1) ls
        (kfWrites kfs f ((tgts.take (pySplit (tabToSpace l)).length).zip
          (pySplit (tabToSpace l))))

/-- Shape of a line the motion loop can consume without error: either a
`Frame` header line, or a data line of float tokens no longer than the
channel table. -/
def MLineOK (channels : List PyStr) (line : PyStr) : Prop :=
  subIn (pc "Frame") (tabToSpace line) = true ∨
  ((pySplit (tabToSpace line)).all isFloatTok = true ∧
   (pySplit (tabToSpace line)).length ≤ channels.length)

theorem chanTargets_take {sc : Scene} :
    ∀ (channels tgts : List PyStr) (k : Nat),
      channels.map (chanTarget sc) = tgts.map some →
      chanTargets sc (channels.take k) = some (tgts.take k) := by
  intro channels
  induction channels with
  | nil =>
    intro tgts k h
    cases tgts with
    | nil => simp [chanTargets]
    | cons a ts => exact absurd h (by simp)
  | cons c cs ih =>
    intro tgts k h
    cases tgts with
    | nil => exact absurd h (by simp)
    | cons a ts =>
      simp only [List.map_cons, List.cons.injEq] at h
      cases k with
      | zero => simp [chanTargets]
      | succ k' =>
        simp only [List.take_succ_cons]
        unfold chanTargets
        rw [h.1, ih ts k' h.2]

theorem mIngest_cons (tgts : List PyStr) (f : Nat) (l : PyStr) (ls : List PyStr)
    (kfs : List ((PyStr × Nat) × PyStr)) :
    mIngest tgts f (l :: ls) kfs =
      if subIn (pc "Frame") (tabToSpace l) then mIngest tgts f ls kfs
      else mIngest tgts (f + 1) ls
        (kfWrites kfs f ((tgts.take (pySplit (tabToSpace l)).length).zip
          (pySplit (tabToSpace l)))) := rfl

/-- Motion-phase characterization: starting in motion mode with a channel
table whose entries all resolve, running the loop over `Frame` header lines
and well-formed data lines succeeds, counts one frame per data line, and
writes exactly the `mIngest` keyframe store. -/
theorem motionRun :
    ∀ (lines : List PyStr) (st : St) (tgts : List PyStr),
      st.motion = true →
      st.channels.map (chanTarget st.scene) = tgts.map some →
      (∀ line ∈ lines, MLineOK st.channels line) →
      ∃ stF, runL st lines = .ok stF ∧
        stF.frame = st.frame +
          lines.countP (fun l => !(subIn (pc "Frame") (tabToSpace l))) ∧
        stF.motion = true ∧
        stF.channels = st.channels ∧
        stF.my_parent = st.my_parent ∧
        stF.root_node = st.root_node ∧
        stF.root_full = st.root_full ∧
        stF.scene.nodes = st.scene.nodes ∧
        stF.scene.attrs = st.scene.attrs ∧
        stF.scene.selection = st.scene.selection ∧
        stF.scene.keyframes = mIngest tgts st.frame lines st.scene.keyframes := by
  intro lines
  induction lines with
  | nil =>
    intro st tgts hm _ _
    exact ⟨st, rfl, by simp, hm, rfl, rfl, rfl, rfl, rfl, rfl, rfl, rfl⟩
  | cons l ls ih =>
    intro st tgts hm htg hok
    have hstep : step st l = motionStep st (tabToSpace l) := by
      unfold step
      rw [hm]
      simp
    by_cases hfr : subIn (pc "Frame") (tabToSpace l) = true
    · have hms : motionStep st (tabToSpace l) = .ok st := by
        unfold motionStep
        rw [hfr]
        simp
      obtain ⟨stF, hrun, hframe, hmot, hchan, hpar, hrn, hrf, hnodes, hattrs, hsel, hkfs⟩ :=
        ih st tgts hm htg (fun li hli => hok li (by simp [hli]))
      refine ⟨stF, ?_, ?_, hmot, hchan, hpar, hrn, hrf, hnodes, hattrs, hsel, ?_⟩
      · unfold runL
        rw [hstep, hms]
        exact hrun
      · rw [hframe, List.countP_cons]
        simp [hfr]
      · rw [hkfs, mIngest_cons, if_pos hfr]
    · have hfr' : subIn (pc "Frame") (tabToSpace l) = false := by
        revert hfr
        cases subIn (pc "Frame") (tabToSpace l) <;> simp
      rcases hok l (by simp) with hfrX | hdata
      · exact absurd hfrX hfr
      · obtain ⟨hfl, hlen⟩ := hdata
        have htake := chanTargets_take st.channels tgts (pySplit (tabToSpace l)).length htg
        have hkf := kfLoop_ok st.channels st.frame (pySplit (tabToSpace l)) st.scene 0
          (tgts.take (pySplit (tabToSpace l)).length) (by simpa using htake)
          (by omega) hfl
        set st1 : St := { st with frame := st.frame + 1, scene := { st.scene with keyframes := kfWrites st.scene.keyframes st.frame ((tgts.take (pySplit (tabToSpace l)).length).zip (pySplit (tabToSpace l))) } } with hst1
        have hms : motionStep st (tabToSpace l) = .ok st1 := by
          unfold motionStep
          rw [hfr']
          simp only [Bool.false_eq_true, if_false]
          rw [hkf]
        obtain ⟨stF, hrun, hframe, hmot, hchan, hpar, hrn, hrf, hnodes, hattrs, hsel, hkfs⟩ :=
          ih st1 tgts hm (by
            have heq : chanTarget st1.scene = chanTarget st.scene :=
              funext (fun c => chanTarget_nodes rfl c)
            show st1.channels.map (chanTarget st1.scene) = tgts.map some
            rw [heq]
            exact htg)
            (fun li hli => hok li (by simp [hli]))
        refine ⟨stF, ?_, ?_, hmot, hchan, hpar, hrn, hrf, hnodes, hattrs, hsel, ?_⟩
        · unfold runL
          rw [hstep, hms]
          exact hrun
        · rw [hframe, List.countP_cons]
          have h1 : st1.frame = st.frame + 1 := rfl
          rw [h1]
          simp only [hfr', Bool.not_false, if_true]
          omega
        · rw [hkfs, mIngest_cons, if_neg (by rw [hfr']; exact Bool.false_ne_true)]

/-- C4: starting in motion mode with a channel table whose entries all
resolve, running the loop over any line list made of `Frame` header lines
and well-formed data lines succeeds; the final frame counter equals the
starting counter plus the number of lines that do not contain `Frame`; a
line containing `Frame` contributes neither keyframes nor an increment; and
the keyframes written are exactly `mIngest`: each data line writes its
tokens at time equal to the frame counter at that line, the counter being
incremented once per data line after its tokens are processed. -/
theorem claim_C4_motion_ingestion :
    ∀ (lines : List PyStr) (st : St) (tgts : List PyStr),
      st.motion = true →
      st.channels.map (chanTarget st.scene) = tgts.map some →
      (∀ line ∈ lines, MLineOK st.channels line) →
      ∃ stF, runL st lines = .ok stF ∧
        stF.frame = st.frame +
          lines.countP (fun l => !(subIn (pc "Frame") (tabToSpace l))) ∧
        stF.motion = true ∧
        stF.channels = st.channels ∧
        stF.my_parent = st.my_parent ∧
        stF.root_node = st.root_node ∧
        stF.root_full = st.root_full ∧
        stF.scene.nodes = st.scene.nodes ∧
        stF.scene.attrs = st.scene.attrs ∧
        stF.scene.selection = st.scene.selection ∧
        stF.scene.keyframes = mIngest tgts st.frame lines st.scene.keyframes :=
  motionRun

/-- Witness for C4 at a concrete run: two header lines and two data lines
against a two-entry channel table. -/
theorem claim_C4_motion_ingestion_witness :
    ∃ stF, runL
      { safe_close := false, motion := true, frame := 0, rot_order := none,
        my_parent := none, jnt := .undef,
        channels := [pc "g.translateX", pc "g.rotateX"],
        root_node := none, root_full := none,
        scene := { nodes := [pc "g"], attrs := [], keyframes := [], selection := none } }
      [pc "Frames: 2", pc "Frame Time: 0.04", pc "1 2", pc "3 4"] = .ok stF ∧
      stF.frame = 0 + List.countP (fun l => !(subIn (pc "Frame") (tabToSpace l)))
        [pc "Frames: 2", pc "Frame Time: 0.04", pc "1 2", pc "3 4"] ∧
      stF.motion = true ∧
      stF.channels = [pc "g.translateX", pc "g.rotateX"] ∧
      stF.my_parent = none ∧
      stF.root_node = none ∧
      stF.root_full = none ∧
      stF.scene.nodes = [pc "g"] ∧
      stF.scene.attrs = [] ∧
      stF.scene.selection = none ∧
      stF.scene.keyframes = mIngest [pc "g.translateX", pc "g.rotateX"] 0
        [pc "Frames: 2", pc "Frame Time: 0.04", pc "1 2", pc "3 4"] [] :=
  claim_C4_motion_ingestion
    [pc "Frames: 2", pc "Frame Time: 0.04", pc "1 2", pc "3 4"]
    { safe_close := false, motion := true, frame := 0, rot_order := none,
      my_parent := none, jnt := .undef,
      channels := [pc "g.translateX", pc "g.rotateX"],
      root_node := none, root_full := none,
      scene := { nodes := [pc "g"], attrs := [], keyframes := [], selection := none } }
    [pc "g.translateX", pc "g.rotateX"] rfl (by decide)
    (by
      intro line hl
      fin_cases hl <;> first
        | exact Or.inl (by decide)
        | exact Or.inr (by decide))

/-! Path-chain machinery for the hierarchy characterization: scene node
paths are `|`-joins of name chains. -/

/-- Join a chain of names with the DAG path separator. -/
def pjoin : List PyStr → PyStr
  | [] => []
  | [x] => x
  | x :: y :: xs => x ++ '|' :: pjoin (y :: xs)

/-- Name usable as a path component: nonempty and free of the separator. -/
def okName (n : PyStr) : Prop := n ≠ [] ∧ ∀ c ∈ n, c ≠ '|'

theorem pjoin_cons_cons (x y : PyStr) (xs : List PyStr) :
    pjoin (x :: y :: xs) = x ++ '|' :: pjoin (y :: xs) := rfl

theorem pjoin_append (xs : List PyStr) (ys : List PyStr) (hx : xs ≠ []) (hy : ys ≠ []) :
    pjoin (xs ++ ys) = pjoin xs ++ '|' :: pjoin ys := by
  induction xs with
  | nil => exact absurd rfl hx
  | cons x xs ih =>
    cases xs with
    | nil =>
      cases ys with
      | nil => exact absurd rfl hy
      | cons y ys => simp [pjoin]
    | cons x2 xs2 =>
      have ih' := ih (by simp)
      rw [show (x :: x2 :: xs2) ++ ys = x :: x2 :: (xs2 ++ ys) from rfl]
      rw [pjoin_cons_cons x x2 (xs2 ++ ys)]
      rw [show x2 :: (xs2 ++ ys) = (x2 :: xs2) ++ ys from rfl, ih']
      rw [pjoin_cons_cons]
      simp

theorem sepSplit_inj {sep : Char} :
    ∀ (x y u v : PyStr), (∀ c ∈ x, c ≠ sep) → (∀ c ∈ y, c ≠ sep) →
      x ++ sep :: u = y ++ sep :: v → x = y ∧ u = v := by
  intro x
  induction x with
  | nil =>
    intro y u v _ hy h
    cases y with
    | nil => simpa using h
    | cons c y' =>
      simp only [List.nil_append, List.cons_append, List.cons.injEq] at h
      exact absurd h.1.symm (hy c (by simp))
  | cons c x' ih =>
    intro y u v hx hy h
    cases y with
    | nil =>
      simp only [List.cons_append, List.nil_append, List.cons.injEq] at h
      exact absurd h.1 (hx c (by simp))
    | cons d y' =>
      simp only [List.cons_append, List.cons.injEq] at h
      obtain ⟨h1, h2⟩ := ih y' u v (fun e he => hx e (by simp [he]))
        (fun e he => hy e (by simp [he])) h.2
      exact ⟨by rw [h.1, h1], h2⟩

theorem firstSep_split {sep : Char} :
    ∀ (s : PyStr), sep ∈ s → ∃ s₁ s₂, s = s₁ ++ sep :: s₂ ∧ ∀ c ∈ s₁, c ≠ sep := by
  intro s
  induction s with
  | nil => intro h; simp at h
  | cons c s' ih =>
    intro h
    by_cases hc : c = sep
    · exact ⟨[], s', by rw [hc]; rfl, by simp⟩
    · have hs' : sep ∈ s' := by
        rcases List.mem_cons.mp h with h1 | h1
        · exact absurd h1.symm hc
        · exact h1
      obtain ⟨s₁, s₂, heq, hok⟩ := ih hs'
      exact ⟨c :: s₁, s₂, by rw [List.cons_append, heq],
        fun e he => by
          rcases List.mem_cons.mp he with h1 | h1
          · rw [h1]; exact hc
          · exact hok e h1⟩

theorem pjoin_ne_nil {c : List PyStr} (hc : ∀ m ∈ c, okName m) (hne : c ≠ []) :
    pjoin c ≠ [] := by
  cases c with
  | nil => exact absurd rfl hne
  | cons x xs =>
    cases xs with
    | nil => exact (hc x (by simp)).1
    | cons y ys =>
      rw [pjoin_cons_cons]
      cases x with
      | nil => simp
      | cons a as => simp

theorem pipe_boundary :
    ∀ (c : List PyStr), (∀ m ∈ c, okName m) →
      ∀ s r, pjoin c = s ++ '|' :: r →
      ∃ c₁ c₂, c = c₁ ++ c₂ ∧ c₁ ≠ [] ∧ c₂ ≠ [] ∧ s = pjoin c₁ ∧ r = pjoin c₂ := by
  intro c
  induction c with
  | nil =>
    intro _ s r h
    exact absurd h (by simp [pjoin])
  | cons x c' ih =>
    intro hok s r h
    cases c' with
    | nil =>
      have hmem : '|' ∈ x := by
        rw [show pjoin [x] = x from rfl] at h
        rw [h]
        simp
      exact absurd rfl ((hok x (by simp)).2 '|' hmem)
    | cons x2 c'' =>
      rw [pjoin_cons_cons] at h
      have hxp : ∀ e ∈ x, e ≠ '|' := (hok x (by simp)).2
      by_cases hps : '|' ∈ s
      · obtain ⟨s₁, s₂, hs, hok₁⟩ := firstSep_split s hps
        rw [hs, List.append_assoc, List.cons_append] at h
        obtain ⟨hx1, hx2⟩ := sepSplit_inj x s₁ (pjoin (x2 :: c'')) (s₂ ++ '|' :: r)
          hxp hok₁ h
        obtain ⟨c₁', c₂', hcc, hc1, hc2, hps2, hpr⟩ :=
          ih (fun m hm => hok m (by simp [hm])) s₂ r hx2
        refine ⟨x :: c₁', c₂', by rw [List.cons_append, ← hcc], by simp, hc2, ?_, hpr⟩
        rw [hs, hx1, hps2]
        cases c₁' with
        | nil => exact absurd rfl hc1
        | cons z zs => rw [pjoin_cons_cons]
      · obtain ⟨hx1, hx2⟩ := sepSplit_inj x s (pjoin (x2 :: c'')) r hxp
          (fun e he hcontra => hps (hcontra ▸ he)) h
        exact ⟨[x], x2 :: c'', rfl, by simp, by simp, hx1.symm, hx2.symm⟩

theorem pjoin_inj :
    ∀ (c₁ c₂ : List PyStr), (∀ m ∈ c₁, okName m) → (∀ m ∈ c₂, okName m) →
      pjoin c₁ = pjoin c₂ → c₁ = c₂ := by
  intro c₁
  induction c₁ with
  | nil =>
    intro c₂ _ h2 h
    cases c₂ with
    | nil => rfl
    | cons y ys => exact absurd h.symm (pjoin_ne_nil h2 (by simp))
  | cons x xs ih =>
    intro c₂ h1 h2 h
    cases c₂ with
    | nil => exact absurd h (pjoin_ne_nil h1 (by simp))
    | cons y ys =>
      cases xs with
      | nil =>
        cases ys with
        | nil => rw [show pjoin [x] = x from rfl, show pjoin [y] = y from rfl] at h; rw [h]
        | cons y2 ys2 =>
          rw [show pjoin [x] = x from rfl, pjoin_cons_cons] at h
          have : '|' ∈ x := by rw [h]; simp
          exact absurd rfl ((h1 x (by simp)).2 '|' this)
      | cons x2 xs2 =>
        cases ys with
        | nil =>
          rw [show pjoin [y] = y from rfl, pjoin_cons_cons] at h
          have : '|' ∈ y := by rw [← h]; simp
          exact absurd rfl ((h2 y (by simp)).2 '|' this)
        | cons y2 ys2 =>
          rw [pjoin_cons_cons, pjoin_cons_cons] at h
          obtain ⟨hxy, hrest⟩ := sepSplit_inj x y (pjoin (x2 :: xs2)) (pjoin (y2 :: ys2))
            (h1 x (by simp)).2 (h2 y (by simp)).2 h
          rw [hxy, ih (y2 :: ys2) (fun m hm => h1 m (by simp [hm]))
            (fun m hm => h2 m (by simp [hm])) hrest]

theorem suffix_to_extension {c q : List PyStr} (hc : ∀ m ∈ c, okName m)
    (hq : ∀ m ∈ q, okName m)
    (h : ('|' :: pjoin q).isSuffixOf (pjoin c) = true) :
    ∃ pre, pre ≠ [] ∧ c = pre ++ q := by
  rw [List.isSuffixOf_iff_suffix] at h
  obtain ⟨s, hs⟩ := h
  obtain ⟨c₁, c₂, hcc, hc1, hc2, hps, hpr⟩ := pipe_boundary c hc s (pjoin q) hs.symm
  have hcq : c₂ = q := pjoin_inj c₂ q
    (fun m hm => hc m (hcc ▸ List.mem_append.mpr (Or.inr hm))) hq hpr.symm
  exact ⟨c₁, hc1, by rw [hcc, hcq]⟩

theorem extension_to_suffix {pre q : List PyStr} (hpre : pre ≠ []) (hq : q ≠ []) :
    ('|' :: pjoin q).isSuffixOf (pjoin (pre ++ q)) = true := by
  rw [List.isSuffixOf_iff_suffix, pjoin_append pre q hpre hq]
  exact List.suffix_append _ _

/-- Scene node set of a parse: the scale group plus one node per joint
chain, each a child chain of the group. -/
def jpaths (grp : PyStr) (rel : List (List PyStr)) : List PyStr :=
  grp :: rel.map (fun c => pjoin (grp :: c))

/-- Global naming discipline: the group name and the joint names are
separator-free and the group name is not a joint name. -/
def NamesOK (grp : PyStr) (usable : List PyStr) : Prop :=
  okName grp ∧ grp ∉ usable ∧ (∀ m ∈ usable, okName m)

/-- Wellformedness of the chain list: chains are nonempty, duplicate-free,
drawn from the usable names, pairwise distinct, and all start at the root
joint's name. -/
def RelOK (rootn : PyStr) (usable : List PyStr) (rel : List (List PyStr)) : Prop :=
  rel.Nodup ∧
  ∀ c ∈ rel, c ≠ [] ∧ c.Nodup ∧ (∀ m ∈ c, m ∈ usable) ∧ ∃ c', c = rootn :: c'

theorem filter_map_single {rel : List (List PyStr)} {f : List PyStr → PyStr}
    {p : PyStr → Bool} {q : List PyStr} (hrel : rel.Nodup) (hq : q ∈ rel)
    (hiff : ∀ c ∈ rel, (p (f c) = true ↔ c = q)) :
    (rel.map f).filter p = [f q] := by
  induction rel with
  | nil => cases hq
  | cons c cs ih =>
    simp only [List.map_cons, List.filter_cons]
    rcases List.mem_cons.mp hq with h1 | h1
    · rw [if_pos ((hiff c (by simp)).mpr h1.symm)]
      have htail : (cs.map f).filter p = [] := by
        rw [List.filter_eq_nil_iff]
        intro e he hp
        obtain ⟨c', hc', hfc⟩ := List.mem_map.mp he
        have hcq : c' = q := (hiff c' (by simp [hc'])).mp (by rw [hfc]; exact hp)
        exact (List.nodup_cons.mp hrel).1 (h1 ▸ hcq ▸ hc')
      rw [htail, h1]
    · have hcf : p (f c) = false := by
        by_contra hcf
        have hc : c = q := (hiff c (by simp)).mp (by
          revert hcf
          cases p (f c) <;> simp)
        exact (List.nodup_cons.mp hrel).1 (hc ▸ h1)
      rw [if_neg (by simp [hcf])]
      exact ih (List.nodup_cons.mp hrel).2 h1 (fun c' hc' => hiff c' (by simp [hc']))

theorem filter_map_nil {rel : List (List PyStr)} {f : List PyStr → PyStr}
    {p : PyStr → Bool} (hall : ∀ c ∈ rel, p (f c) = false) :
    (rel.map f).filter p = [] := by
  rw [List.filter_eq_nil_iff]
  intro e he hp
  obtain ⟨c', hc', hfc⟩ := List.mem_map.mp he
  rw [← hfc] at hp
  rw [hall c' hc'] at hp
  cases hp

theorem grpchain_ne_grp {grp : PyStr} {q : List PyStr} (hqne : q ≠ []) :
    grp ≠ pjoin (grp :: q) := by
  intro h
  have h2 : pjoin (grp :: q) = grp ++ '|' :: pjoin q := by
    have h4 := pjoin_append [grp] q (by simp) hqne
    rw [show ([grp] ++ q : List PyStr) = grp :: q from rfl] at h4
    rw [show pjoin [grp] = grp from rfl] at h4
    exact h4
  have h3 : grp ++ [] = grp ++ '|' :: pjoin q := by
    rw [List.append_nil, ← h2, ← h]
  have := List.append_cancel_left h3
  cases this

theorem nosuffix_grpnode {grp : PyStr} {x : List PyStr} (hgok : okName grp)
    (hx : ∀ m ∈ x, okName m) (hxlong : 2 ≤ x.length) :
    ('|' :: pjoin x).isSuffixOf grp = false := by
  by_contra h
  have h' : ('|' :: pjoin x).isSuffixOf grp = true := eq_true_of_ne_false h
  obtain ⟨pre, hpre, heq⟩ := suffix_to_extension (c := [grp]) (q := x)
    (fun m hm => by simpa using (List.mem_singleton.mp hm ▸ hgok)) hx h'
  have : (1 : Nat) = pre.length + x.length := by
    have := congrArg List.length heq
    simpa using this
  have hpl : 1 ≤ pre.length := by
    cases pre with
    | nil => exact absurd rfl hpre
    | cons _ _ => simp
  omega

theorem chain_suffix_false {grp : PyStr} {c q : List PyStr} {usable : List PyStr}
    (hgok : okName grp) (hgnu : grp ∉ usable) (huok : ∀ m ∈ usable, okName m)
    (hcu : ∀ m ∈ c, m ∈ usable) (hqok : ∀ m ∈ q, okName m) :
    ('|' :: pjoin (grp :: q)).isSuffixOf (pjoin (grp :: c)) = false := by
  by_contra h
  have h' : ('|' :: pjoin (grp :: q)).isSuffixOf (pjoin (grp :: c)) = true :=
    eq_true_of_ne_false h
  obtain ⟨pre, hpre, heq⟩ := suffix_to_extension (c := grp :: c) (q := grp :: q)
    (fun m hm => by
      rcases List.mem_cons.mp hm with h1 | h1
      · rw [h1]; exact hgok
      · exact huok m (hcu m h1))
    (fun m hm => by
      rcases List.mem_cons.mp hm with h1 | h1
      · rw [h1]; exact hgok
      · exact hqok m h1) h'
  cases pre with
  | nil => exact absurd rfl hpre
  | cons p0 pre' =>
    rw [List.cons_append] at heq
    injection heq with h0 hc
    have : grp ∈ c := by
      rw [hc]
      exact List.mem_append.mpr (Or.inr (by simp))
    exact hgnu (hcu grp this)

theorem chain_eq_iff {grp : PyStr} {c q : List PyStr} (hgok : okName grp)
    (hcok : ∀ m ∈ c, okName m) (hqok : ∀ m ∈ q, okName m) :
    pjoin (grp :: c) = pjoin (grp :: q) ↔ c = q := by
  constructor
  · intro h
    have := pjoin_inj (grp :: c) (grp :: q)
      (fun m hm => by
        rcases List.mem_cons.mp hm with h1 | h1
        · rw [h1]; exact hgok
        · exact hcok m h1)
      (fun m hm => by
        rcases List.mem_cons.mp hm with h1 | h1
        · rw [h1]; exact hgok
        · exact hqok m h1) h
    exact (List.cons.injEq _ _ _ _ ▸ this).2
  · intro h
    rw [h]

theorem resolve_full_mem {sc : Scene} {grp rootn : PyStr} {usable : List PyStr}
    {rel : List (List PyStr)} {q : List PyStr}
    (hnodes : sc.nodes = jpaths grp rel) (hN : NamesOK grp usable)
    (hR : RelOK rootn usable rel) (hq : q ∈ rel) :
    sc.resolveList (pjoin (grp :: q)) = [pjoin (grp :: q)] := by
  obtain ⟨hgok, hgnu, huok⟩ := hN
  obtain ⟨hnd, hchains⟩ := hR
  have hqne : q ≠ [] := (hchains q hq).1
  have hqel : ∀ m ∈ q, okName m := fun m hm => huok m ((hchains q hq).2.2.1 m hm)
  unfold Scene.resolveList
  rw [hnodes]
  unfold jpaths
  rw [List.filter_cons]
  rw [if_neg (by
    simp only [Bool.or_eq_true, decide_eq_true_eq, not_or]
    constructor
    · exact grpchain_ne_grp hqne
    · rw [nosuffix_grpnode hgok
        (fun m hm => by
          rcases List.mem_cons.mp hm with h1 | h1
          · rw [h1]; exact hgok
          · exact hqel m h1)
        (by
          cases q with
          | nil => exact absurd rfl hqne
          | cons _ _ => simp)]
      simp)]
  rw [filter_map_single hnd hq (fun c hc => by
    have hcel : ∀ m ∈ c, okName m := fun m hm => huok m ((hchains c hc).2.2.1 m hm)
    constructor
    · intro hp
      simp only [Bool.or_eq_true, decide_eq_true_eq] at hp
      rcases hp with hp | hp
      · exact (chain_eq_iff hgok hcel hqel).mp hp
      · rw [chain_suffix_false hgok hgnu huok ((hchains c hc).2.2.1) hqel] at hp
        cases hp
    · intro h
      rw [h]
      simp)]

theorem resolve_full_absent {sc : Scene} {grp rootn : PyStr} {usable : List PyStr}
    {rel : List (List PyStr)} {q : List PyStr}
    (hnodes : sc.nodes = jpaths grp rel) (hN : NamesOK grp usable)
    (hR : RelOK rootn usable rel) (hqel : ∀ m ∈ q, okName m) (hqne : q ≠ [])
    (hq : q ∉ rel) :
    sc.resolveList (pjoin (grp :: q)) = [] := by
  obtain ⟨hgok, hgnu, huok⟩ := hN
  obtain ⟨hnd, hchains⟩ := hR
  unfold Scene.resolveList
  rw [hnodes]
  unfold jpaths
  rw [List.filter_cons]
  rw [if_neg (by
    simp only [Bool.or_eq_true, decide_eq_true_eq, not_or]
    constructor
    · exact grpchain_ne_grp hqne
    · rw [nosuffix_grpnode hgok
        (fun m hm => by
          rcases List.mem_cons.mp hm with h1 | h1
          · rw [h1]; exact hgok
          · exact hqel m h1)
        (by
          cases q with
          | nil => exact absurd rfl hqne
          | cons _ _ => simp)]
      simp)]
  rw [filter_map_nil (fun c hc => by
    have hcel : ∀ m ∈ c, okName m := fun m hm => huok m ((hchains c hc).2.2.1 m hm)
    have h1 : ¬(pjoin (grp :: c) = pjoin (grp :: q)) := by
      intro he
      exact hq ((chain_eq_iff hgok hcel hqel).mp he ▸ hc)
    rw [show (decide (pjoin (grp :: c) = pjoin (grp :: q)) ||
        ('|' :: pjoin (grp :: q)).isSuffixOf (pjoin (grp :: c))) =
      (decide (pjoin (grp :: c) = pjoin (grp :: q)) ||
        ('|' :: pjoin (grp :: q)).isSuffixOf (pjoin (grp :: c))) from rfl]
    rw [chain_suffix_false hgok hgnu huok ((hchains c hc).2.2.1) hqel]
    simp [h1])]

theorem resolve_rel_mem {sc : Scene} {grp rootn : PyStr} {usable : List PyStr}
    {rel : List (List PyStr)} {q : List PyStr}
    (hnodes : sc.nodes = jpaths grp rel) (hN : NamesOK grp usable)
    (hR : RelOK rootn usable rel) (hq : q ∈ rel) :
    sc.resolveList (pjoin q) = [pjoin (grp :: q)] := by
  obtain ⟨hgok, hgnu, huok⟩ := hN
  obtain ⟨hnd, hchains⟩ := hR
  have hqne : q ≠ [] := (hchains q hq).1
  have hqu : ∀ m ∈ q, m ∈ usable := (hchains q hq).2.2.1
  have hqel : ∀ m ∈ q, okName m := fun m hm => huok m (hqu m hm)
  unfold Scene.resolveList
  rw [hnodes]
  unfold jpaths
  rw [List.filter_cons]
  rw [if_neg (by
    simp only [Bool.or_eq_true, decide_eq_true_eq, not_or]
    constructor
    · intro he
      have : ([grp] : List (List Char)) = q :=
        pjoin_inj [grp] q (fun m hm => by
          rw [List.mem_singleton.mp hm]; exact hgok) hqel he
      have : grp ∈ q := by rw [← this]; simp
      exact hgnu (hqu grp this)
    · intro hsuf
      obtain ⟨pre, hpre, heq⟩ := suffix_to_extension (c := [grp]) (q := q)
        (fun m hm => by rw [List.mem_singleton.mp hm]; exact hgok) hqel
        (by
          rw [show pjoin [grp] = grp from rfl]
          exact hsuf)
      have hlen : (1 : Nat) = pre.length + q.length := by
        have := congrArg List.length heq
        simpa using this
      have hpl : 1 ≤ pre.length := by
        cases pre with
        | nil => exact absurd rfl hpre
        | cons _ _ => simp
      have hql : 1 ≤ q.length := by
        cases q with
        | nil => exact absurd rfl hqne
        | cons _ _ => simp
      omega)]
  rw [filter_map_single hnd hq (fun c hc => by
    have hcne : c ≠ [] := (hchains c hc).1
    have hcnd : c.Nodup := (hchains c hc).2.1
    have hcu : ∀ m ∈ c, m ∈ usable := (hchains c hc).2.2.1
    have hcel : ∀ m ∈ c, okName m := fun m hm => huok m (hcu m hm)
    obtain ⟨c', hcr⟩ := (hchains c hc).2.2.2
    obtain ⟨q', hqr⟩ := (hchains q hq).2.2.2
    constructor
    · intro hp
      simp only [Bool.or_eq_true, decide_eq_true_eq] at hp
      rcases hp with hp | hp
      · have : grp :: c = q := pjoin_inj (grp :: c) q
          (fun m hm => by
            rcases List.mem_cons.mp hm with h1 | h1
            · rw [h1]; exact hgok
            · exact hcel m h1) hqel hp
        have : grp ∈ q := by rw [← this]; simp
        exact absurd (hqu grp this) hgnu
      · obtain ⟨pre, hpre, heq⟩ := suffix_to_extension (c := grp :: c) (q := q)
          (fun m hm => by
            rcases List.mem_cons.mp hm with h1 | h1
            · rw [h1]; exact hgok
            · exact hcel m h1) hqel hp
        cases pre with
        | nil => exact absurd rfl hpre
        | cons p0 pre' =>
          rw [List.cons_append] at heq
          injection heq with h0 hcc
          cases pre' with
          | nil => rw [hcc]; rfl
          | cons p1 pre'' =>
            exfalso
            have hr1 : rootn ∈ p1 :: pre'' := by
              have : c.head? = some p1 := by rw [hcc]; rfl
              rw [hcr] at this
              injection this with hh
              rw [hh]
              simp
            have hr2 : rootn ∈ q := by rw [hqr]; simp
            have := (List.nodup_append.mp (hcc ▸ hcnd)).2.2
            exact this hr1 hr2
    · intro h
      rw [h]
      simp only [Bool.or_eq_true]
      right
      have : pjoin (grp :: q) = pjoin ([grp] ++ q) := by rw [List.singleton_append]
      rw [this]
      exact extension_to_suffix (by simp) hqne)]

theorem resolve_grp {sc : Scene} {grp rootn : PyStr} {usable : List PyStr}
    {rel : List (List PyStr)}
    (hnodes : sc.nodes = jpaths grp rel) (hN : NamesOK grp usable)
    (hR : RelOK rootn usable rel) :
    sc.resolveList grp = [grp] := by
  obtain ⟨hgok, hgnu, huok⟩ := hN
  obtain ⟨hnd, hchains⟩ := hR
  unfold Scene.resolveList
  rw [hnodes]
  unfold jpaths
  rw [List.filter_cons]
  rw [if_pos (by simp)]
  rw [filter_map_nil (fun c hc => by
    have hcne : c ≠ [] := (hchains c hc).1
    have hcu : ∀ m ∈ c, m ∈ usable := (hchains c hc).2.2.1
    have hcel : ∀ m ∈ c, okName m := fun m hm => huok m (hcu m hm)
    have h1 : ¬(pjoin (grp :: c) = grp) := by
      intro he
      have : grp :: c = [grp] := pjoin_inj (grp :: c) [grp]
        (fun m hm => by
          rcases List.mem_cons.mp hm with h1 | h1
          · rw [h1]; exact hgok
          · exact hcel m h1)
        (fun m hm => by rw [List.mem_singleton.mp hm]; exact hgok) he
      injection this with _ h2
      exact hcne h2
    have h2 : ('|' :: pjoin [grp]).isSuffixOf (pjoin (grp :: c)) = false := by
      by_contra hcon
      have h' := eq_true_of_ne_false hcon
      obtain ⟨pre, hpre, heq⟩ := suffix_to_extension (c := grp :: c) (q := [grp])
        (fun m hm => by
          rcases List.mem_cons.mp hm with h1 | h1
          · rw [h1]; exact hgok
          · exact hcel m h1)
        (fun m hm => by rw [List.mem_singleton.mp hm]; exact hgok) h'
      cases pre with
      | nil => exact absurd rfl hpre
      | cons p0 pre' =>
        rw [List.cons_append] at heq
        injection heq with h0 hcc
        have : grp ∈ c := by
          rw [hcc]
          exact List.mem_append.mpr (Or.inr (by simp))
        exact hgnu (hcu grp this)
    rw [show pjoin [grp] = grp from rfl] at h2
    simp [h1, h2])]

/-! Structured BVH files.  A claim quantifying over "every valid BVH input"
is formalized by quantifying over these trees together with decidable
wellformedness conditions (`treeOKb` below) expressing that the rendered
lines are parsed by the string-level checks of the importer exactly as a
BVH grammar intends (names do not contain parser keywords, tokens are
numeric, and so on). -/

mutual
inductive BT where
  | mk (name : PyStr) (off : List PyStr) (ch : List PyStr) (kids : BTs)
      (tip : Option (List PyStr))
deriving DecidableEq
inductive BTs where
  | nil
  | cons (t : BT) (ts : BTs)
deriving DecidableEq
end

/-- Lines of an `End Site` block. -/
def tipLines : Option (List PyStr) → List PyStr
  | none => []
  | some o => [pc "End Site", pc "\x7b", pc "OFFSET " ++ wsJoin o, pc "\x7d"]

mutual
def renderJ : BT → List PyStr
  | .mk n off ch kids tip =>
    (pc "JOINT " ++ n) :: pc "\x7b" :: (pc "OFFSET " ++ wsJoin off) ::
    (pc "CHANNELS " ++ natStr ch.length ++ pc " " ++ wsJoin ch) ::
    (renderKids kids ++ tipLines tip ++ [pc "\x7d"])
def renderKids : BTs → List PyStr
  | .nil => []
  | .cons t ts => renderJ t ++ renderKids ts
end

/-- Lines of the whole `ROOT` block. -/
def renderRoot : BT → List PyStr
  | .mk n off ch kids tip =>
    (pc "ROOT " ++ n) :: pc "\x7b" :: (pc "OFFSET " ++ wsJoin off) ::
    (pc "CHANNELS " ++ natStr ch.length ++ pc " " ++ wsJoin ch) ::
    (renderKids kids ++ tipLines tip ++ [pc "\x7d"])

/-- Lines of a complete BVH file: the hierarchy section followed by the
motion section (frame rows are whitespace-joined token lists). -/
def renderFile (rt : BT) (frameCount frameTime : PyStr)
    (frames : List (List PyStr)) : List PyStr :=
  pc "HIERARCHY" :: renderRoot rt ++
    pc "MOTION" :: (pc "Frames: " ++ frameCount) ::
    (pc "Frame Time: " ++ frameTime) :: frames.map wsJoin

mutual
def namesOf : BT → List PyStr
  | .mk n _ _ kids _ => n :: namesOfK kids
def namesOfK : BTs → List PyStr
  | .nil => []
  | .cons t ts => namesOf t ++ namesOfK ts
end

mutual
def chainsRel (C : List PyStr) : BT → List (List PyStr)
  | .mk n _ _ kids _ => (C ++ [n]) :: chainsRelK (C ++ [n]) kids
def chainsRelK (C : List PyStr) : BTs → List (List PyStr)
  | .nil => []
  | .cons t ts => chainsRel C t ++ chainsRelK C ts
end

mutual
def bindsOf (C : List PyStr) : BT → List (List PyStr × PyStr)
  | .mk n _ ch kids _ =>
    ch.map (fun tok => (C ++ [n], (translationDict tok).getD [])) ++
      bindsOfK (C ++ [n]) kids
def bindsOfK (C : List PyStr) : BTs → List (List PyStr × PyStr)
  | .nil => []
  | .cons t ts => bindsOf C t ++ bindsOfK C ts
end

mutual
def sumCh : BT → Nat
  | .mk _ _ ch kids _ => ch.length + sumChK kids
def sumChK : BTs → Nat
  | .nil => 0
  | .cons t ts => sumCh t + sumChK ts
end

/-- Channel-binding strings for a binding list, relative to a path prefix. -/
def chanPaths (P : List PyStr) (bs : List (List PyStr × PyStr)) : List PyStr :=
  bs.map (fun b => pjoin (P ++ b.1) ++ '.' :: b.2)

/-- Boolean form of `okName`. -/
def okNameB (n : PyStr) : Bool := !n.isEmpty && n.all (fun c => c ≠ '|')

/-- Outcomes of the eight string checks the hierarchy step performs on a
line (tab normalization fixed point plus the seven keyword checks). -/
def hlineB (l : PyStr) (b1 b2 b3 b4 b5 b6 b7 : Bool) : Bool :=
  (tabToSpace l == l) && ((pc "ROOT").isPrefixOf l == b1) &&
  (subIn (pc "JOINT") l == b2) && (subIn (pc "End Site") l == b3) &&
  (subIn (pc "\x7d") l == b4) && (subIn (pc "CHANNELS") l == b5) &&
  (subIn (pc "OFFSET") l == b6) && (subIn (pc "MOTION") l == b7)

def jointLineB (n : PyStr) : Bool :=
  hlineB (pc "JOINT " ++ n) false true false false false false false &&
  (pySplit (pc "JOINT " ++ n) == [pc "JOINT", n])

def offsetLineB (off : List PyStr) : Bool :=
  hlineB (pc "OFFSET " ++ wsJoin off) false false false false false true false &&
  (pySplit (pc "OFFSET " ++ wsJoin off) == pc "OFFSET" :: off) &&
  (off.length == 3) && off.all isFloatTok

def channelsLineB (ch : List PyStr) : Bool :=
  hlineB (pc "CHANNELS " ++ natStr ch.length ++ pc " " ++ wsJoin ch)
    false false false false true false false &&
  (pySplit (pc "CHANNELS " ++ natStr ch.length ++ pc " " ++ wsJoin ch) ==
    pc "CHANNELS" :: natStr ch.length :: ch) &&
  (rotOrderOf (pc "CHANNELS" :: natStr ch.length :: ch)).isSome &&
  (pyInt (natStr ch.length) == some (ch.length : Int)) &&
  ch.all (fun tok => (translationDict tok).isSome)

def rootLineB (n : PyStr) : Bool :=
  hlineB (pc "ROOT " ++ n) true false false false false false false &&
  (pyRtrim n == n)

def tipOKb : Option (List PyStr) → Bool
  | none => true
  | some o => offsetLineB o

mutual
def treeOKb : BT → Bool
  | .mk n off ch kids tip =>
    okNameB n && jointLineB n && offsetLineB off && channelsLineB ch &&
      treesOKb kids && tipOKb tip
def treesOKb : BTs → Bool
  | .nil => true
  | .cons t ts => treeOKb t && treesOKb ts
end

/-- Wellformedness of the root block: as for a joint, with a `ROOT` line. -/
def rootOKb : BT → Bool
  | .mk n off ch kids tip =>
    okNameB n && rootLineB n && offsetLineB off && channelsLineB ch &&
      treesOKb kids && tipOKb tip

theorem resolveU_of_list {sc : Scene} {p n : PyStr} (h : sc.resolveList p = [n]) :
    sc.resolveU p = some n := by
  unfold Scene.resolveU
  rw [h]

theorem rootPart_skip {st : St} {line : PyStr}
    (h : (pc "ROOT").isPrefixOf line = false) : rootPart st line = st := by
  unfold rootPart
  rw [h]
  simp

theorem rootPart_fresh {st : St} {line : PyStr} {n : PyStr}
    (h : (pc "ROOT").isPrefixOf line = true) (hroot : st.root_node = none)
    (hname : pyRtrim (line.drop 5) = n) :
    rootPart st line =
      { st with
        my_parent := some (mkDag n st.my_parent),
        root_node := some (mkDag n st.my_parent),
        root_full := some (mkDag n st.my_parent).full_path } := by
  unfold rootPart
  rw [h, hroot, hname]
  simp

theorem jointPart_skip {st : St} {line : PyStr}
    (h : subIn (pc "JOINT") line = false) : jointPart st line = .ok st := by
  unfold jointPart
  rw [h]
  simp

theorem jointPart_hit {st : St} {line : PyStr} {n : PyStr}
    (h : subIn (pc "JOINT") line = true) (hsp : pySplit line = [pc "JOINT", n]) :
    jointPart st line = .ok { st with
      jnt := .toks [pc "JOINT", n],
      my_parent := some (mkDag n st.my_parent) } := by
  unfold jointPart
  rw [h, hsp]
  rfl

theorem endSitePart_skip {st : St} {line : PyStr}
    (h : subIn (pc "End Site") line = false) : endSitePart st line = st := by
  unfold endSitePart
  rw [h]
  simp

theorem endSitePart_hit {st : St} {line : PyStr}
    (h : subIn (pc "End Site") line = true) :
    endSitePart st line = { st with safe_close := true } := by
  unfold endSitePart
  rw [h]
  simp

theorem bracePart_skip {st : St} {line : PyStr}
    (h : subIn (pc "\x7d") line = false) : bracePart st line = .ok (false, st) := by
  unfold bracePart
  rw [h]
  simp

theorem bracePart_safe {st : St} {line : PyStr}
    (h : subIn (pc "\x7d") line = true) (hs : st.safe_close = true) :
    bracePart st line = .ok (true, { st with safe_close := false }) := by
  unfold bracePart
  rw [h, hs]
  simp

theorem bracePart_ascend {st : St} {line : PyStr} {p q : TinyDAG} {tgt : PyStr}
    (h : subIn (pc "\x7d") line = true) (hs : st.safe_close = false)
    (hmp : st.my_parent = some p) (hpar : p.par = some q)
    (hres : st.scene.resolveU q.full_path = some tgt) :
    bracePart st line = .ok (false, { st with
      my_parent := some q,
      scene := { st.scene with selection := some tgt } }) := by
  unfold bracePart
  rw [h, hs, hmp]
  dsimp only
  rw [hpar]
  dsimp only
  unfold Scene.selectM
  rw [hres]
  simp

theorem bracePart_ascend_top {st : St} {line : PyStr} {p : TinyDAG}
    (h : subIn (pc "\x7d") line = true) (hs : st.safe_close = false)
    (hmp : st.my_parent = some p) (hpar : p.par = none) :
    bracePart st line = .ok (false, { st with my_parent := none }) := by
  unfold bracePart
  rw [h, hs, hmp]
  dsimp only
  rw [hpar]
  simp

theorem channelsPart_skip {st : St} {line : PyStr}
    (h : subIn (pc "CHANNELS") line = false) : channelsPart st line = .ok st := by
  unfold channelsPart
  rw [h]
  simp

theorem offsetPart_skip {st : St} {line : PyStr}
    (h : subIn (pc "OFFSET") line = false) : offsetPart st line = .ok st := by
  unfold offsetPart
  rw [h]
  simp

theorem motionPart_skip {st : St} {line : PyStr}
    (h : subIn (pc "MOTION") line = false) : motionPart st line = st := by
  unfold motionPart
  rw [h]
  simp

theorem motionPart_hit {st : St} {line : PyStr}
    (h : subIn (pc "MOTION") line = true) :
    motionPart st line = { st with motion := true } := by
  unfold motionPart
  rw [h]
  simp

theorem chanLoop_run (D : TinyDAG) (a b : PyStr) :
    ∀ (ch done : List PyStr), (∀ tok ∈ ch, (translationDict tok).isSome) →
      chanLoop (some D) (a :: b :: (done ++ ch)) ch.length done.length =
        .ok (ch.map (fun tok => D.full_path ++ '.' :: (translationDict tok).getD [])) := by
  intro ch
  induction ch with
  | nil => intro done _; rfl
  | cons tok ch' ih =>
    intro done hd
    show chanLoop (some D) (a :: b :: (done ++ tok :: ch')) (ch'.length + 1) done.length = _
    unfold chanLoop
    have hget : (a :: b :: (done ++ tok :: ch')).get? (2 + done.length) = some tok := by
      rw [show 2 + done.length = (done.length + 1) + 1 from by omega]
      rw [List.get?_cons_succ, List.get?_cons_succ]
      rw [List.get?_append_right (by omega)]
      simp
    rw [hget]
    dsimp only
    obtain ⟨attr, hattr⟩ := Option.isSome_iff_exists.mp (hd tok (by simp))
    rw [hattr]
    dsimp only
    have ih' := ih (done ++ [tok]) (fun tk htk => hd tk (by simp [htk]))
    rw [show (done ++ tok :: ch' : List PyStr) = (done ++ [tok]) ++ ch' from by simp]
    rw [show done.length + 1 = (done ++ [tok]).length from by simp]
    rw [ih']
    rw [List.map_cons, hattr]
    rfl

theorem channelsPart_run {st : St} {line : PyStr} {ch : List PyStr} {ro : Nat}
    {mp : TinyDAG} {jp tgt : PyStr}
    (hC : subIn (pc "CHANNELS") line = true)
    (hsp : pySplit line = pc "CHANNELS" :: natStr ch.length :: ch)
    (hro : rotOrderOf (pc "CHANNELS" :: natStr ch.length :: ch) = some ro)
    (hint : pyInt (natStr ch.length) = some (ch.length : Int))
    (hmp : st.my_parent = some mp)
    (hdict : ∀ tok ∈ ch, (translationDict tok).isSome)
    (hj : st.jnt = .path jp)
    (hresU : st.scene.resolveU jp = some tgt) :
    channelsPart st line = .ok { st with
      rot_order := some ro,
      channels := st.channels ++
        ch.map (fun tok => mp.full_path ++ '.' :: (translationDict tok).getD []),
      scene := { st.scene with
                 attrs := upd st.scene.attrs (tgt ++ '.' :: pc "rotateOrder")
                   (natStr ro) } } := by
  unfold channelsPart
  rw [hC]
  simp only [if_true]
  rw [hsp, hro]
  dsimp only
  rw [show (pc "CHANNELS" :: natStr ch.length :: ch).get? 1 = some (natStr ch.length)
    from rfl]
  dsimp only
  rw [hint]
  dsimp only
  rw [hmp]
  have hloop := chanLoop_run mp (pc "CHANNELS") (natStr ch.length) ch [] hdict
  rw [show ([] ++ ch : List PyStr) = ch from rfl] at hloop
  rw [show (((ch.length : Int)).toNat) = ch.length from by simp]
  rw [show ([].length : Nat) = 0 from rfl] at hloop
  rw [hloop]
  dsimp only
  rw [hj]
  unfold JntVal.fstr
  dsimp only
  rw [show (jp ++ pc ".rotateOrder") = jp ++ '.' :: pc "rotateOrder" from rfl]
  rw [setAttrM_ok (by decide) hresU (natStr ro)]

theorem offsetPart_create {st : St} {line : PyStr} {off : List PyStr}
    {mp : TinyDAG} {sel : PyStr}
    (hO : subIn (pc "OFFSET") line = true)
    (hsp : pySplit line = pc "OFFSET" :: off)
    (hsc : st.safe_close = false)
    (hmp : st.my_parent = some mp)
    (hex : st.scene.resolveList mp.full_path = [])
    (hsel : st.scene.selection = some sel)
    (hfl : off.all isFloatTok = true)
    (hlen : off.length = 3)
    (hnew : ∀ sc1 : Scene, sc1.nodes = st.scene.nodes ++ [sel ++ '|' :: mp.str] →
      sc1.resolveU (sel ++ '|' :: mp.str) = some (sel ++ '|' :: mp.str)) :
    offsetPart st line = .ok { st with
      jnt := .path (sel ++ '|' :: mp.str),
      scene := { st.scene with
                 nodes := st.scene.nodes ++ [sel ++ '|' :: mp.str],
                 selection := some (sel ++ '|' :: mp.str),
                 attrs := upd st.scene.attrs
                   ((sel ++ '|' :: mp.str) ++ '.' :: pc "translate") (wsJoin off) } } := by
  unfold offsetPart
  rw [hO]
  simp only [if_true]
  rw [hsp, hsc, hmp]
  dsimp only
  unfold Scene.objExists
  rw [hex]
  simp only [List.isEmpty_nil, Bool.not_true, Bool.false_eq_true, if_false]
  unfold Scene.createJoint
  rw [hsel]
  dsimp only
  rw [show (pc "OFFSET" :: off : List PyStr).drop 1 = off from rfl]
  rw [hfl]
  simp only [if_true]
  rw [hlen]
  simp only [if_true]
  have hres1 := hnew { st.scene with nodes := st.scene.nodes ++ [sel ++ '|' :: mp.str], selection := some (sel ++ '|' :: mp.str) } rfl
  rw [show ((sel ++ '|' :: mp.str) ++ pc ".translate") =
    (sel ++ '|' :: mp.str) ++ '.' :: pc "translate" from rfl]
  rw [setAttrM_ok (by decide) hres1 (wsJoin off)]

theorem offsetPart_exists {st : St} {line : PyStr} {off : List PyStr}
    {mp : TinyDAG} {tgt : PyStr}
    (hO : subIn (pc "OFFSET") line = true)
    (hsp : pySplit line = pc "OFFSET" :: off)
    (hmp : st.my_parent = some mp)
    (hex : st.scene.objExists mp.full_path = true)
    (hresU : st.scene.resolveU mp.full_path = some tgt)
    (hfl : off.all isFloatTok = true)
    (hlen : off.length = 3) :
    offsetPart st line = .ok { st with
      jnt := .path mp.full_path,
      scene := { st.scene with
                 attrs := upd st.scene.attrs (tgt ++ '.' :: pc "translate")
                   (wsJoin off) } } := by
  unfold offsetPart
  rw [hO]
  simp only [if_true]
  rw [hsp, hmp]
  dsimp only
  rw [hex]
  simp only [if_true]
  rw [show (pc "OFFSET" :: off : List PyStr).drop 1 = off from rfl]
  rw [hfl]
  simp only [if_true]
  rw [hlen]
  simp only [if_true]
  rw [show (mp.full_path ++ pc ".translate") =
    mp.full_path ++ '.' :: pc "translate" from rfl]
  rw [setAttrM_ok (by decide) hresU (wsJoin off)]

theorem rootPart_re {st : St} {line : PyStr} {r : TinyDAG}
    (h : (pc "ROOT").isPrefixOf line = true) (hroot : st.root_node = some r) :
    rootPart st line = { st with my_parent := some (.root r.str) } := by
  unfold rootPart
  rw [h, hroot]
  simp

theorem hlineB_spec {l : PyStr} {b1 b2 b3 b4 b5 b6 b7 : Bool}
    (h : hlineB l b1 b2 b3 b4 b5 b6 b7 = true) :
    tabToSpace l = l ∧ (pc "ROOT").isPrefixOf l = b1 ∧ subIn (pc "JOINT") l = b2 ∧
    subIn (pc "End Site") l = b3 ∧ subIn (pc "\x7d") l = b4 ∧
    subIn (pc "CHANNELS") l = b5 ∧ subIn (pc "OFFSET") l = b6 ∧
    subIn (pc "MOTION") l = b7 := by
  unfold hlineB at h
  simp only [Bool.and_eq_true, beq_iff_eq] at h
  exact ⟨h.1.1.1.1.1.1.1, h.1.1.1.1.1.1.2, h.1.1.1.1.1.2, h.1.1.1.1.2, h.1.1.1.2,
    h.1.1.2, h.1.2, h.2⟩

theorem step_noop {st : St} {l : PyStr} (hmot : st.motion = false)
    (hb : hlineB l false false false false false false false = true) :
    step st l = .ok st := by
  obtain ⟨htab, h1, h2, h3, h4, h5, h6, h7⟩ := hlineB_spec hb
  unfold step
  rw [htab, hmot]
  simp only [Bool.false_eq_true, if_false]
  unfold hierStep
  rw [rootPart_skip h1, jointPart_skip h2]
  dsimp only
  rw [endSitePart_skip h3, bracePart_skip h4]
  dsimp only
  rw [channelsPart_skip h5]
  dsimp only
  rw [offsetPart_skip h6]
  dsimp only
  rw [motionPart_skip h7]

theorem step_joint {st : St} {n : PyStr} (hmot : st.motion = false)
    (hb : jointLineB n = true) :
    step st (pc "JOINT " ++ n) = .ok { st with
      jnt := .toks [pc "JOINT", n],
      my_parent := some (mkDag n st.my_parent) } := by
  obtain ⟨hhl, hsp⟩ : hlineB (pc "JOINT " ++ n) false true false false false false false =
      true ∧ pySplit (pc "JOINT " ++ n) = [pc "JOINT", n] := by
    unfold jointLineB at hb
    simp only [Bool.and_eq_true, beq_iff_eq] at hb
    exact hb
  obtain ⟨htab, h1, h2, h3, h4, h5, h6, h7⟩ := hlineB_spec hhl
  unfold step
  rw [htab, hmot]
  simp only [Bool.false_eq_true, if_false]
  unfold hierStep
  rw [rootPart_skip h1, jointPart_hit h2 hsp]
  dsimp only
  rw [endSitePart_skip h3, bracePart_skip h4]
  dsimp only
  rw [channelsPart_skip h5]
  dsimp only
  rw [offsetPart_skip h6]
  dsimp only
  rw [motionPart_skip h7]
  rw [hmot]

theorem step_end_site {st : St} (hmot : st.motion = false) :
    step st (pc "End Site") = .ok { st with safe_close := true } := by
  have hb : hlineB (pc "End Site") false false true false false false false = true := by
    decide
  obtain ⟨htab, h1, h2, h3, h4, h5, h6, h7⟩ := hlineB_spec hb
  unfold step
  rw [htab, hmot]
  simp only [Bool.false_eq_true, if_false]
  unfold hierStep
  rw [rootPart_skip h1, jointPart_skip h2]
  dsimp only
  rw [endSitePart_hit h3, bracePart_skip h4]
  dsimp only
  rw [channelsPart_skip h5]
  dsimp only
  rw [offsetPart_skip h6]
  dsimp only
  rw [motionPart_skip h7]
  rw [hmot]

theorem step_brace_safe {st : St} (hmot : st.motion = false)
    (hsc : st.safe_close = true) :
    step st (pc "\x7d") = .ok { st with safe_close := false } := by
  have hb : hlineB (pc "\x7d") false false false true false false false = true := by
    decide
  obtain ⟨htab, h1, h2, h3, h4, h5, h6, h7⟩ := hlineB_spec hb
  unfold step
  rw [htab, hmot]
  simp only [Bool.false_eq_true, if_false]
  unfold hierStep
  rw [rootPart_skip h1, jointPart_skip h2]
  dsimp only
  rw [endSitePart_skip h3, bracePart_safe h4 hsc]
  rw [hmot]

theorem step_brace_ascend {st : St} {p q : TinyDAG} {tgt : PyStr}
    (hmot : st.motion = false) (hsc : st.safe_close = false)
    (hmp : st.my_parent = some p) (hpar : p.par = some q)
    (hres : st.scene.resolveU q.full_path = some tgt) :
    step st (pc "\x7d") = .ok { st with
      my_parent := some q,
      scene := { st.scene with selection := some tgt } } := by
  have hb : hlineB (pc "\x7d") false false false true false false false = true := by
    decide
  obtain ⟨htab, h1, h2, h3, h4, h5, h6, h7⟩ := hlineB_spec hb
  unfold step
  rw [htab, hmot]
  simp only [Bool.false_eq_true, if_false]
  unfold hierStep
  rw [rootPart_skip h1, jointPart_skip h2]
  dsimp only
  rw [endSitePart_skip h3, bracePart_ascend h4 hsc hmp hpar hres]
  dsimp only
  rw [channelsPart_skip h5]
  dsimp only
  rw [offsetPart_skip h6]
  dsimp only
  rw [motionPart_skip h7]
  rw [hmot]

theorem step_brace_top {st : St} {p : TinyDAG}
    (hmot : st.motion = false) (hsc : st.safe_close = false)
    (hmp : st.my_parent = some p) (hpar : p.par = none) :
    step st (pc "\x7d") = .ok { st with my_parent := none } := by
  have hb : hlineB (pc "\x7d") false false false true false false false = true := by
    decide
  obtain ⟨htab, h1, h2, h3, h4, h5, h6, h7⟩ := hlineB_spec hb
  unfold step
  rw [htab, hmot]
  simp only [Bool.false_eq_true, if_false]
  unfold hierStep
  rw [rootPart_skip h1, jointPart_skip h2]
  dsimp only
  rw [endSitePart_skip h3, bracePart_ascend_top h4 hsc hmp hpar]
  dsimp only
  rw [channelsPart_skip h5]
  dsimp only
  rw [offsetPart_skip h6]
  dsimp only
  rw [motionPart_skip h7]
  rw [hmot]

theorem step_channels {st : St} {ch : List PyStr} {ro : Nat} {mp : TinyDAG}
    {jp tgt : PyStr} (hmot : st.motion = false)
    (hb : channelsLineB ch = true)
    (hro : rotOrderOf (pc "CHANNELS" :: natStr ch.length :: ch) = some ro)
    (hmp : st.my_parent = some mp)
    (hj : st.jnt = .path jp)
    (hresU : st.scene.resolveU jp = some tgt) :
    step st (pc "CHANNELS " ++ natStr ch.length ++ pc " " ++ wsJoin ch) = .ok { st with
      rot_order := some ro,
      channels := st.channels ++
        ch.map (fun tok => mp.full_path ++ '.' :: (translationDict tok).getD []),
      scene := { st.scene with
                 attrs := upd st.scene.attrs (tgt ++ '.' :: pc "rotateOrder")
                   (natStr ro) } } := by
  obtain ⟨hhl, hsp, hros, hint, hdict⟩ : hlineB (pc "CHANNELS " ++ natStr ch.length ++
        pc " " ++ wsJoin ch) false false false false true false false = true ∧
      pySplit (pc "CHANNELS " ++ natStr ch.length ++ pc " " ++ wsJoin ch) =
        pc "CHANNELS" :: natStr ch.length :: ch ∧
      (rotOrderOf (pc "CHANNELS" :: natStr ch.length :: ch)).isSome = true ∧
      pyInt (natStr ch.length) = some (ch.length : Int) ∧
      ch.all (fun tok => (translationDict tok).isSome) = true := by
    unfold channelsLineB at hb
    simp only [Bool.and_eq_true, beq_iff_eq] at hb
    exact ⟨hb.1.1.1.1, hb.1.1.1.2, hb.1.1.2, hb.1.2, hb.2⟩
  obtain ⟨htab, h1, h2, h3, h4, h5, h6, h7⟩ := hlineB_spec hhl
  have hdict' : ∀ tok ∈ ch, (translationDict tok).isSome := by
    intro tok htok
    exact List.all_eq_true.mp hdict tok htok
  unfold step
  rw [htab, hmot]
  simp only [Bool.false_eq_true, if_false]
  unfold hierStep
  rw [rootPart_skip h1, jointPart_skip h2]
  dsimp only
  rw [endSitePart_skip h3, bracePart_skip h4]
  dsimp only
  rw [channelsPart_run h5 hsp hro hint hmp hdict' hj hresU]
  dsimp only
  rw [offsetPart_skip h6]
  dsimp only
  rw [motionPart_skip h7]
  rw [hmot]

theorem step_motion_line {st : St} (hmot : st.motion = false) :
    step st (pc "MOTION") = .ok { st with motion := true } := by
  have hb : hlineB (pc "MOTION") false false false false false false true = true := by
    decide
  obtain ⟨htab, h1, h2, h3, h4, h5, h6, h7⟩ := hlineB_spec hb
  unfold step
  rw [htab, hmot]
  simp only [Bool.false_eq_true, if_false]
  unfold hierStep
  rw [rootPart_skip h1, jointPart_skip h2]
  dsimp only
  rw [endSitePart_skip h3, bracePart_skip h4]
  dsimp only
  rw [channelsPart_skip h5]
  dsimp only
  rw [offsetPart_skip h6]
  dsimp only
  rw [motionPart_hit h7]

theorem step_offset_create {st : St} {off : List PyStr} {mp : TinyDAG} {sel : PyStr}
    (hmot : st.motion = false) (hb : offsetLineB off = true)
    (hsc : st.safe_close = false)
    (hmp : st.my_parent = some mp)
    (hex : st.scene.resolveList mp.full_path = [])
    (hsel : st.scene.selection = some sel)
    (hnew : ∀ sc1 : Scene, sc1.nodes = st.scene.nodes ++ [sel ++ '|' :: mp.str] →
      sc1.resolveU (sel ++ '|' :: mp.str) = some (sel ++ '|' :: mp.str)) :
    step st (pc "OFFSET " ++ wsJoin off) = .ok { st with
      jnt := .path (sel ++ '|' :: mp.str),
      scene := { st.scene with
                 nodes := st.scene.nodes ++ [sel ++ '|' :: mp.str],
                 selection := some (sel ++ '|' :: mp.str),
                 attrs := upd st.scene.attrs
                   ((sel ++ '|' :: mp.str) ++ '.' :: pc "translate") (wsJoin off) } } := by
  obtain ⟨hhl, hsp, hlen, hfl⟩ : hlineB (pc "OFFSET " ++ wsJoin off)
        false false false false false true false = true ∧
      pySplit (pc "OFFSET " ++ wsJoin off) = pc "OFFSET" :: off ∧
      off.length = 3 ∧ off.all isFloatTok = true := by
    unfold offsetLineB at hb
    simp only [Bool.and_eq_true, beq_iff_eq, Nat.beq_eq_true_eq] at hb
    exact ⟨hb.1.1.1, hb.1.1.2, hb.1.2, hb.2⟩
  obtain ⟨htab, h1, h2, h3, h4, h5, h6, h7⟩ := hlineB_spec hhl
  unfold step
  rw [htab, hmot]
  simp only [Bool.false_eq_true, if_false]
  unfold hierStep
  rw [rootPart_skip h1, jointPart_skip h2]
  dsimp only
  rw [endSitePart_skip h3, bracePart_skip h4]
  dsimp only
  rw [channelsPart_skip h5]
  dsimp only
  rw [offsetPart_create h6 hsp hsc hmp hex hsel hfl hlen hnew]
  dsimp only
  rw [motionPart_skip h7]
  rw [hmot]

theorem step_offset_exists {st : St} {off : List PyStr} {mp : TinyDAG} {tgt : PyStr}
    (hmot : st.motion = false) (hb : offsetLineB off = true)
    (hmp : st.my_parent = some mp)
    (hex : st.scene.objExists mp.full_path = true)
    (hresU : st.scene.resolveU mp.full_path = some tgt) :
    step st (pc "OFFSET " ++ wsJoin off) = .ok { st with
      jnt := .path mp.full_path,
      scene := { st.scene with
                 attrs := upd st.scene.attrs (tgt ++ '.' :: pc "translate")
                   (wsJoin off) } } := by
  obtain ⟨hhl, hsp, hlen, hfl⟩ : hlineB (pc "OFFSET " ++ wsJoin off)
        false false false false false true false = true ∧
      pySplit (pc "OFFSET " ++ wsJoin off) = pc "OFFSET" :: off ∧
      off.length = 3 ∧ off.all isFloatTok = true := by
    unfold offsetLineB at hb
    simp only [Bool.and_eq_true, beq_iff_eq, Nat.beq_eq_true_eq] at hb
    exact ⟨hb.1.1.1, hb.1.1.2, hb.1.2, hb.2⟩
  obtain ⟨htab, h1, h2, h3, h4, h5, h6, h7⟩ := hlineB_spec hhl
  unfold step
  rw [htab, hmot]
  simp only [Bool.false_eq_true, if_false]
  unfold hierStep
  rw [rootPart_skip h1, jointPart_skip h2]
  dsimp only
  rw [endSitePart_skip h3, bracePart_skip h4]
  dsimp only
  rw [channelsPart_skip h5]
  dsimp only
  rw [offsetPart_exists h6 hsp hmp hex hresU hfl hlen]
  dsimp only
  rw [motionPart_skip h7]
  rw [hmot]

theorem step_root_fresh {st : St} {n : PyStr} (hmot : st.motion = false)
    (hb : rootLineB n = true) (hroot : st.root_node = none) :
    step st (pc "ROOT " ++ n) = .ok { st with
      my_parent := some (mkDag n st.my_parent),
      root_node := some (mkDag n st.my_parent),
      root_full := some (mkDag n st.my_parent).full_path } := by
  obtain ⟨hhl, hrt⟩ : hlineB (pc "ROOT " ++ n) true false false false false false false =
      true ∧ pyRtrim n = n := by
    unfold rootLineB at hb
    simp only [Bool.and_eq_true, beq_iff_eq] at hb
    exact hb
  obtain ⟨htab, h1, h2, h3, h4, h5, h6, h7⟩ := hlineB_spec hhl
  have hdrop : pyRtrim ((pc "ROOT " ++ n).drop 5) = n := by
    rw [show (pc "ROOT " ++ n).drop 5 = n from List.drop_left (pc "ROOT ") n]
    exact hrt
  unfold step
  rw [htab, hmot]
  simp only [Bool.false_eq_true, if_false]
  unfold hierStep
  rw [rootPart_fresh h1 hroot hdrop]
  dsimp only
  rw [jointPart_skip h2]
  dsimp only
  rw [endSitePart_skip h3, bracePart_skip h4]
  dsimp only
  rw [channelsPart_skip h5]
  dsimp only
  rw [offsetPart_skip h6]
  dsimp only
  rw [motionPart_skip h7]
  rw [hmot]

theorem step_root_re {st : St} {n : PyStr} {r : TinyDAG} (hmot : st.motion = false)
    (hb : rootLineB n = true) (hroot : st.root_node = some r) :
    step st (pc "ROOT " ++ n) = .ok { st with my_parent := some (.root r.str) } := by
  obtain ⟨hhl, hrt⟩ : hlineB (pc "ROOT " ++ n) true false false false false false false =
      true ∧ pyRtrim n = n := by
    unfold rootLineB at hb
    simp only [Bool.and_eq_true, beq_iff_eq] at hb
    exact hb
  obtain ⟨htab, h1, h2, h3, h4, h5, h6, h7⟩ := hlineB_spec hhl
  unfold step
  rw [htab, hmot]
  simp only [Bool.false_eq_true, if_false]
  unfold hierStep
  rw [rootPart_re h1 hroot]
  dsimp only
  rw [jointPart_skip h2]
  dsimp only
  rw [endSitePart_skip h3, bracePart_skip h4]
  dsimp only
  rw [channelsPart_skip h5]
  dsimp only
  rw [offsetPart_skip h6]
  dsimp only
  rw [motionPart_skip h7]
  rw [hmot]

theorem runL_append (xs ys : List PyStr) :
    ∀ st : St, runL st (xs ++ ys) =
      match runL st xs with
      | .error e => .error e
      | .ok st1 => runL st1 ys := by
  induction xs with
  | nil => intro st; rfl
  | cons l ls ih =>
    intro st
    rw [List.cons_append]
    unfold runL
    cases h : step st l with
    | error e => rfl
    | ok st1 =>
      dsimp only
      rw [ih st1]
      cases runL st1 ls with
      | error e => rfl
      | ok a => cases ys <;> rfl

theorem runL_cons_ok {st st' : St} {l : PyStr} (ls : List PyStr)
    (h : step st l = .ok st') : runL st (l :: ls) = runL st' ls := by
  unfold runL
  rw [h]
  dsimp only
  cases ls <;> rfl

theorem pjoin_snoc (xs : List PyStr) (y : PyStr) (hx : xs ≠ []) :
    pjoin (xs ++ [y]) = pjoin xs ++ '|' :: y :=
  pjoin_append xs [y] hx (by simp)

theorem jpaths_append (grp : PyStr) (r1 r2 : List (List PyStr)) :
    jpaths grp (r1 ++ r2) = jpaths grp r1 ++ r2.map (fun c => pjoin (grp :: c)) := by
  unfold jpaths
  simp

theorem takeBefore_pipe (grp rest : PyStr) (h : ∀ c ∈ grp, c ≠ '|') :
    takeBefore '|' (grp ++ '|' :: rest) = grp := by
  unfold takeBefore
  exact takeWhile_append_stop _ grp '|' rest
    (fun c hc => by simpa using h c hc) (by simp)

theorem td_six {tok a : PyStr} (h : translationDict tok = some a) :
    a ∈ sixAttrs ∧ (∀ c ∈ a, c ≠ '.') := by
  unfold translationDict at h
  repeat' split at h
  all_goals cases h
  all_goals exact ⟨by decide, by decide⟩

theorem resolveU_some_list {sc : Scene} {p t : PyStr} (h : sc.resolveU p = some t) :
    sc.resolveList p = [t] := by
  unfold Scene.resolveU at h
  cases hr : sc.resolveList p with
  | nil => rw [hr] at h; cases h
  | cons a rest =>
    cases rest with
    | nil =>
      rw [hr] at h
      injection h with h2
      rw [h2]
    | cons b r2 => rw [hr] at h; cases h

theorem objExists_of_resolveU {sc : Scene} {p t : PyStr} (h : sc.resolveU p = some t) :
    sc.objExists p = true := by
  unfold Scene.objExists
  rw [resolveU_some_list h]
  rfl

theorem getLastD_mem {α : Type} (l : List α) (d : α) (h : l ≠ []) :
    l.getLastD d ∈ l := by
  induction l with
  | nil => exact absurd rfl h
  | cons a rest ih =>
    cases rest with
    | nil => simp [List.getLastD]
    | cons b r2 =>
      have := ih (by simp)
      rw [show (a :: b :: r2 : List α).getLastD d = (b :: r2 : List α).getLastD d from rfl]
      exact List.mem_cons_of_mem a this

mutual
theorem chains_last (t : BT) : ∀ C : List PyStr,
    (chainsRel C t).map (fun c => c.getLastD []) = namesOf t := by
  cases t with
  | mk n off ch kids tip =>
    intro C
    unfold chainsRel namesOf
    rw [List.map_cons]
    rw [chains_lastK kids (C ++ [n])]
    rw [List.getLastD_concat]
theorem chains_lastK (ts : BTs) : ∀ C : List PyStr,
    (chainsRelK C ts).map (fun c => c.getLastD []) = namesOfK ts := by
  cases ts with
  | nil => intro C; rfl
  | cons t ts' =>
    intro C
    unfold chainsRelK namesOfK
    rw [List.map_append, chains_last t C, chains_lastK ts' C]
end

mutual
theorem chainsRel_shape (t : BT) : ∀ (C : List PyStr) (c : List PyStr),
    c ∈ chainsRel C t → ∃ d, c = C ++ d ∧ d ≠ [] ∧ (∀ m ∈ d, m ∈ namesOf t) ∧
      ((namesOf t).Nodup → d.Nodup) := by
  cases t with
  | mk n off ch kids tip =>
    intro C c hc
    unfold chainsRel at hc
    rcases List.mem_cons.mp hc with h1 | h1
    · refine ⟨[n], by rw [h1], by simp, ?_, fun _ => by simp⟩
      intro m hm
      rw [List.mem_singleton.mp hm]
      unfold namesOf
      simp
    · obtain ⟨d', hd1, hd2, hd3, hd4⟩ := chainsRelK_shape kids (C ++ [n]) c h1
      refine ⟨n :: d', by rw [hd1]; simp, by simp, ?_, ?_⟩
      · intro m hm
        unfold namesOf
        rcases List.mem_cons.mp hm with h2 | h2
        · rw [h2]; simp
        · exact List.mem_cons_of_mem n (hd3 m h2)
      · intro hnd
        unfold namesOf at hnd
        rw [List.nodup_cons] at hnd
        rw [List.nodup_cons]
        exact ⟨fun hn => hnd.1 (hd3 n hn), hd4 hnd.2⟩
theorem chainsRelK_shape (ts : BTs) : ∀ (C : List PyStr) (c : List PyStr),
    c ∈ chainsRelK C ts → ∃ d, c = C ++ d ∧ d ≠ [] ∧ (∀ m ∈ d, m ∈ namesOfK ts) ∧
      ((namesOfK ts).Nodup → d.Nodup) := by
  cases ts with
  | nil => intro C c hc; cases hc
  | cons t ts' =>
    intro C c hc
    unfold chainsRelK at hc
    unfold namesOfK
    rcases List.mem_append.mp hc with h1 | h1
    · obtain ⟨d, hd1, hd2, hd3, hd4⟩ := chainsRel_shape t C c h1
      exact ⟨d, hd1, hd2, fun m hm => List.mem_append.mpr (Or.inl (hd3 m hm)),
        fun hnd => hd4 (List.Nodup.of_append_left hnd)⟩
    · obtain ⟨d, hd1, hd2, hd3, hd4⟩ := chainsRelK_shape ts' C c h1
      exact ⟨d, hd1, hd2, fun m hm => List.mem_append.mpr (Or.inr (hd3 m hm)),
        fun hnd => hd4 (List.Nodup.of_append_right hnd)⟩
end

mutual
theorem binds_shape (t : BT) : ∀ (C : List PyStr) (b : List PyStr × PyStr),
    treeOKb t = true → b ∈ bindsOf C t →
    b.1 ∈ chainsRel C t ∧ b.2 ∈ sixAttrs ∧ (∀ cc ∈ b.2, cc ≠ '.') := by
  cases t with
  | mk n off ch kids tip =>
    intro C b hok hb
    unfold treeOKb at hok
    simp only [Bool.and_eq_true] at hok
    have hch : channelsLineB ch = true := hok.1.1.2
    have hkids : treesOKb kids = true := hok.1.2
    have hdict : ∀ tok ∈ ch, (translationDict tok).isSome = true := by
      unfold channelsLineB at hch
      simp only [Bool.and_eq_true] at hch
      exact fun tok htok => List.all_eq_true.mp hch.2 tok htok
    unfold bindsOf at hb
    unfold chainsRel
    rcases List.mem_append.mp hb with h1 | h1
    · obtain ⟨tok, htok, hbe⟩ := List.mem_map.mp h1
      obtain ⟨a, ha⟩ := Option.isSome_iff_exists.mp (hdict tok htok)
      have h2 := td_six ha
      rw [← hbe]
      refine ⟨by simp, ?_, ?_⟩
      · rw [ha]
        exact h2.1
      · rw [ha]
        exact h2.2
    · obtain ⟨hb1, hb2, hb3⟩ := bindsK_shape kids (C ++ [n]) b hkids h1
      exact ⟨List.mem_cons_of_mem _ hb1, hb2, hb3⟩
theorem bindsK_shape (ts : BTs) : ∀ (C : List PyStr) (b : List PyStr × PyStr),
    treesOKb ts = true → b ∈ bindsOfK C ts →
    b.1 ∈ chainsRelK C ts ∧ b.2 ∈ sixAttrs ∧ (∀ cc ∈ b.2, cc ≠ '.') := by
  cases ts with
  | nil => intro C b _ hb; cases hb
  | cons t ts' =>
    intro C b hok hb
    unfold treesOKb at hok
    simp only [Bool.and_eq_true] at hok
    unfold bindsOfK at hb
    unfold chainsRelK
    rcases List.mem_append.mp hb with h1 | h1
    · obtain ⟨hb1, hb2, hb3⟩ := binds_shape t C b hok.1 h1
      exact ⟨List.mem_append.mpr (Or.inl hb1), hb2, hb3⟩
    · obtain ⟨hb1, hb2, hb3⟩ := bindsK_shape ts' C b hok.2 h1
      exact ⟨List.mem_append.mpr (Or.inr hb1), hb2, hb3⟩
end

mutual
theorem binds_length (t : BT) : ∀ C : List PyStr, (bindsOf C t).length = sumCh t := by
  cases t with
  | mk n off ch kids tip =>
    intro C
    unfold bindsOf sumCh
    rw [List.length_append, List.length_map, bindsK_length kids (C ++ [n])]
theorem bindsK_length (ts : BTs) : ∀ C : List PyStr, (bindsOfK C ts).length = sumChK ts := by
  cases ts with
  | nil => intro C; rfl
  | cons t ts' =>
    intro C
    unfold bindsOfK sumChK
    rw [List.length_append, binds_length t C, bindsK_length ts' C]
end

theorem relOK_snoc {rootn : PyStr} {usable : List PyStr} {rel : List (List PyStr)}
    {q : List PyStr} (hR : RelOK rootn usable rel) (hnotin : q ∉ rel)
    (hqne : q ≠ []) (hqnd : q.Nodup) (hqu : ∀ m ∈ q, m ∈ usable)
    (hqr : ∃ c', q = rootn :: c') :
    RelOK rootn usable (rel ++ [q]) := by
  obtain ⟨hnd, hch⟩ := hR
  constructor
  · rw [List.nodup_append]
    exact ⟨hnd, by simp, fun c hc hc2 => hnotin ((List.mem_singleton.mp hc2) ▸ hc)⟩
  · intro c hc
    rcases List.mem_append.mp hc with h1 | h1
    · exact hch c h1
    · rw [List.mem_singleton.mp h1]
      exact ⟨hqne, hqnd, hqu, hqr⟩

theorem chainsK_nodup {q : List PyStr} {kids : BTs} (hnd : (namesOfK kids).Nodup) :
    (chainsRelK q kids).Nodup := by
  have h := chains_lastK kids q
  exact List.Nodup.of_map _ (h ▸ hnd)

theorem chainsK_last_mem {q c : List PyStr} {kids : BTs} (hc : c ∈ chainsRelK q kids) :
    c.getLastD [] ∈ namesOfK kids := by
  rw [← chains_lastK kids q]
  exact List.mem_map_of_mem _ hc

theorem relOK_extendK {rootn : PyStr} {usable : List PyStr} {rel : List (List PyStr)}
    {q : List PyStr} {kids : BTs}
    (hR : RelOK rootn usable rel)
    (hqr : ∃ c', q = rootn :: c') (hqnd : q.Nodup) (hqu : ∀ m ∈ q, m ∈ usable)
    (hnd : (namesOfK kids).Nodup) (hu : ∀ m ∈ namesOfK kids, m ∈ usable)
    (hfr : ∀ m ∈ namesOfK kids, m ∉ rel.flatten)
    (hnq : ∀ m ∈ namesOfK kids, m ∉ q) :
    RelOK rootn usable (rel ++ chainsRelK q kids) := by
  obtain ⟨hndR, hch⟩ := hR
  constructor
  · rw [List.nodup_append]
    refine ⟨hndR, chainsK_nodup hnd, ?_⟩
    intro c hc hc2
    have hlast := chainsK_last_mem hc2
    have hcne : c ≠ [] := (hch c hc).1
    have : c.getLastD [] ∈ rel.flatten :=
      List.mem_flatten.mpr ⟨c, hc, getLastD_mem c [] hcne⟩
    exact hfr _ hlast this
  · intro c hc
    rcases List.mem_append.mp hc with h1 | h1
    · exact hch c h1
    · obtain ⟨d, hd1, hd2, hd3, hd4⟩ := chainsRelK_shape kids q c h1
      obtain ⟨c', hc'⟩ := hqr
      refine ⟨?_, ?_, ?_, ⟨c' ++ d, ?_⟩⟩
      · rw [hd1, hc']
        simp
      · rw [hd1]
        exact List.Nodup.append hqnd (hd4 hnd)
          (fun m hmq hmd => hnq m (hd3 m hmd) hmq)
      · intro m hm
        rw [hd1] at hm
        rcases List.mem_append.mp hm with h2 | h2
        · exact hqu m h2
        · exact hu m (hd3 m h2)
      · rw [hd1, hc']
        simp

theorem runTip {st : St} {P : TinyDAG} {tgt : PyStr} (tip : Option (List PyStr))
    (hmot : st.motion = false) (hsc : st.safe_close = false)
    (hmp : st.my_parent = some P)
    (hres : st.scene.resolveU P.full_path = some tgt)
    (htip : tipOKb tip = true) :
    ∃ (jv : JntVal) (attrs' : List (PyStr × PyStr)),
      runL st (tipLines tip) = .ok { st with jnt := jv, scene := { st.scene with attrs := attrs' } } := by
  cases tip with
  | none => exact ⟨st.jnt, st.scene.attrs, rfl⟩
  | some o =>
    have hb : offsetLineB o = true := htip
    refine ⟨.path P.full_path,
      upd st.scene.attrs (tgt ++ '.' :: pc "translate") (wsJoin o), ?_⟩
    have h1 : step st (pc "End Site") = .ok { st with safe_close := true } :=
      step_end_site hmot
    have h2 : step { st with safe_close := true } (pc "\x7b") =
        .ok { st with safe_close := true } :=
      step_noop (show St.motion { st with safe_close := true } = false from hmot) (by decide)
    have h3 := step_offset_exists (show St.motion { st with safe_close := true } = false from hmot) hb hmp (objExists_of_resolveU hres) hres
    have h4 : step { st with safe_close := true, jnt := JntVal.path P.full_path, scene := { st.scene with attrs := upd st.scene.attrs (tgt ++ '.' :: pc "translate") (wsJoin o) } } (pc "\x7d") = .ok { st with safe_close := false, jnt := JntVal.path P.full_path, scene := { st.scene with attrs := upd st.scene.attrs (tgt ++ '.' :: pc "translate") (wsJoin o) } } :=
      step_brace_safe hmot rfl
    show runL st [pc "End Site", pc "\x7b", pc "OFFSET " ++ wsJoin o, pc "\x7d"] = _
    rw [runL_cons_ok _ h1, runL_cons_ok _ h2, runL_cons_ok _ h3, runL_cons_ok _ h4]
    unfold runL
    rw [hsc]

theorem runL_append_ok {st st1 : St} {xs : List PyStr} (ys : List PyStr)
    (h : runL st xs = .ok st1) : runL st (xs ++ ys) = runL st1 ys := by
  rw [runL_append xs ys st, h]

/-- Hierarchy characterization of one fresh-import block body (the lines of
a `JOINT`/`ROOT` block after its header line): the opening brace is inert,
the `OFFSET` line creates the joint under the current selection, the
`CHANNELS` line extends the channel table with the block's bindings at the
joint's full path, the children and optional `End Site` block are processed
recursively, and the closing brace ascends to the parent and restores the
selection. -/
theorem run1Body {grp rootn : PyStr} {usable : List PyStr} {rel : List (List PyStr)}
    {C : List PyStr} {n : PyStr} {D : TinyDAG} {st : St}
    (off ch : List PyStr) (kids : BTs) (tip : Option (List PyStr))
    (hok_off : offsetLineB off = true) (hok_ch : channelsLineB ch = true)
    (hok_tip : tipOKb tip = true)
    (hN : NamesOK grp usable) (hR : RelOK rootn usable rel)
    (hCnil : C = [] ∨ C ∈ rel)
    (hCr : ∃ c', C ++ [n] = rootn :: c')
    (hnames_u : ∀ m ∈ n :: namesOfK kids, m ∈ usable)
    (hnames_nd : (n :: namesOfK kids).Nodup)
    (hfresh : ∀ m ∈ n :: namesOfK kids, m ∉ rel.flatten)
    (hkids : ∀ (st' : St) (rel' : List (List PyStr)) (D' : TinyDAG),
      RelOK rootn usable rel' → (C ++ [n]) ∈ rel' →
      (∀ m ∈ namesOfK kids, m ∉ rel'.flatten) →
      st'.motion = false → st'.safe_close = false →
      st'.my_parent = some D' → D'.full_path = pjoin (grp :: (C ++ [n])) →
      st'.scene.selection = some (pjoin (grp :: (C ++ [n]))) →
      st'.scene.nodes = jpaths grp rel' →
      ∃ (attrs' : List (PyStr × PyStr)) (jv : JntVal) (ro : Option Nat),
        runL st' (renderKids kids) = .ok { st' with jnt := jv, rot_order := ro, channels := st'.channels ++ chanPaths [grp] (bindsOfK (C ++ [n]) kids), scene := { st'.scene with nodes := jpaths grp (rel' ++ chainsRelK (C ++ [n]) kids), attrs := attrs' } })
    (hmot : st.motion = false) (hsc : st.safe_close = false)
    (hmp : st.my_parent = some (.child n D))
    (hD : D.full_path = pjoin (grp :: C))
    (hsel : st.scene.selection = some (pjoin (grp :: C)))
    (hnodes : st.scene.nodes = jpaths grp rel) :
    ∃ (attrs' : List (PyStr × PyStr)) (jv : JntVal) (ro : Option Nat),
      runL st (pc "\x7b" :: (pc "OFFSET " ++ wsJoin off) :: (pc "CHANNELS " ++ natStr ch.length ++ pc " " ++ wsJoin ch) :: (renderKids kids ++ tipLines tip ++ [pc "\x7d"])) = .ok { st with my_parent := some D, jnt := jv, rot_order := ro, channels := st.channels ++ chanPaths [grp] (List.map (fun tok => (C ++ [n], (translationDict tok).getD [])) ch ++ bindsOfK (C ++ [n]) kids), scene := { st.scene with nodes := jpaths grp (rel ++ (C ++ [n]) :: chainsRelK (C ++ [n]) kids), selection := some (pjoin (grp :: C)), attrs := attrs' } } := by
  obtain ⟨hgok, hgnu, huok⟩ := hN
  have hN' : NamesOK grp usable := ⟨hgok, hgnu, huok⟩
  have hCnd : C.Nodup := by
    rcases hCnil with h | h
    · rw [h]; exact List.nodup_nil
    · exact (hR.2 C h).2.1
  have hCu : ∀ m ∈ C, m ∈ usable := by
    rcases hCnil with h | h
    · rw [h]; intro m hm; cases hm
    · exact (hR.2 C h).2.2.1
  have hnotC : ∀ m ∈ n :: namesOfK kids, m ∉ C := by
    rcases hCnil with h | h
    · rw [h]; intro m _ hm; cases hm
    · exact fun m hm hmc => hfresh m hm (List.mem_flatten.mpr ⟨C, h, hmc⟩)
  have hqne : (C ++ [n] : List PyStr) ≠ [] := by simp
  have hqnd : (C ++ [n]).Nodup :=
    List.Nodup.append hCnd (by simp)
      (fun m hmC hmn => hnotC n (by simp) ((List.mem_singleton.mp hmn) ▸ hmC))
  have hqu : ∀ m ∈ C ++ [n], m ∈ usable := by
    intro m hm
    rcases List.mem_append.mp hm with h | h
    · exact hCu m h
    · rw [List.mem_singleton.mp h]; exact hnames_u n (by simp)
  have hqel : ∀ m ∈ C ++ [n], okName m := fun m hm => huok m (hqu m hm)
  have hqnotrel : (C ++ [n]) ∉ rel := fun hmem =>
    hfresh n (by simp) (List.mem_flatten.mpr ⟨C ++ [n], hmem, by simp⟩)
  have hR1 : RelOK rootn usable (rel ++ [C ++ [n]]) :=
    relOK_snoc hR hqnotrel hqne hqnd hqu hCr
  have hq1 : (C ++ [n]) ∈ rel ++ [C ++ [n]] := by simp
  have hNNeq : pjoin (grp :: C) ++ '|' :: n = pjoin (grp :: (C ++ [n])) := by
    rw [← pjoin_snoc (grp :: C) n (by simp)]
    exact congrArg pjoin (List.cons_append grp C [n])
  have hPfull : (TinyDAG.child n D).full_path = pjoin (grp :: (C ++ [n])) := by
    show D.full_path ++ '|' :: n = _
    rw [hD, hNNeq]
  have hjp1 : jpaths grp rel ++ [pjoin (grp :: (C ++ [n]))] = jpaths grp (rel ++ [C ++ [n]]) := by
    rw [jpaths_append]
    simp
  have hknd : (namesOfK kids).Nodup := (List.nodup_cons.mp hnames_nd).2
  have hku : ∀ m ∈ namesOfK kids, m ∈ usable :=
    fun m hm => hnames_u m (List.mem_cons_of_mem n hm)
  have hfr1 : ∀ m ∈ namesOfK kids, m ∉ (rel ++ [C ++ [n]]).flatten := by
    intro m hm hmem
    rw [List.flatten_append] at hmem
    rcases List.mem_append.mp hmem with h | h
    · exact hfresh m (List.mem_cons_of_mem n hm) h
    · simp only [List.flatten_cons, List.flatten_nil, List.append_nil] at h
      rcases List.mem_append.mp h with h2 | h2
      · exact hnotC m (List.mem_cons_of_mem n hm) h2
      · rw [List.mem_singleton.mp h2] at hm
        exact (List.nodup_cons.mp hnames_nd).1 hm
  have hkq : ∀ m ∈ namesOfK kids, m ∉ C ++ [n] := by
    intro m hm hmem
    rcases List.mem_append.mp hmem with h2 | h2
    · exact hnotC m (List.mem_cons_of_mem n hm) h2
    · rw [List.mem_singleton.mp h2] at hm
      exact (List.nodup_cons.mp hnames_nd).1 hm
  have hRK : RelOK rootn usable ((rel ++ [C ++ [n]]) ++ chainsRelK (C ++ [n]) kids) :=
    relOK_extendK hR1 hCr hqnd hqu hknd hku hfr1 hkq
  have hqK : (C ++ [n]) ∈ (rel ++ [C ++ [n]]) ++ chainsRelK (C ++ [n]) kids :=
    List.mem_append.mpr (Or.inl hq1)
  have hroS : (rotOrderOf (pc "CHANNELS" :: natStr ch.length :: ch)).isSome = true := by
    unfold channelsLineB at hok_ch
    simp only [Bool.and_eq_true] at hok_ch
    exact hok_ch.1.1.2
  obtain ⟨ro, hro⟩ := Option.isSome_iff_exists.mp hroS
  -- step 1: opening brace is inert
  have s1 : step st (pc "\x7b") = .ok st := step_noop hmot (by decide)
  -- step 2: OFFSET creates the joint
  have hexA : st.scene.resolveList (TinyDAG.child n D).full_path = [] := by
    rw [hPfull]
    exact resolve_full_absent hnodes hN' hR hqel hqne hqnotrel
  have hnew : ∀ sc1 : Scene, sc1.nodes = st.scene.nodes ++ [pjoin (grp :: C) ++ '|' :: (TinyDAG.child n D).str] → sc1.resolveU (pjoin (grp :: C) ++ '|' :: (TinyDAG.child n D).str) = some (pjoin (grp :: C) ++ '|' :: (TinyDAG.child n D).str) := by
    intro sc1 hsc1
    have hNN0 : pjoin (grp :: C) ++ '|' :: (TinyDAG.child n D).str = pjoin (grp :: (C ++ [n])) := hNNeq
    rw [hNN0]
    have hn1 : sc1.nodes = jpaths grp (rel ++ [C ++ [n]]) := by
      rw [hsc1, hnodes, hNN0, hjp1]
    exact resolveU_of_list (resolve_full_mem hn1 hN' hR1 hq1)
  have s2 := step_offset_create hmot hok_off hsc hmp hexA hsel hnew
  have hNN0 : pjoin (grp :: C) ++ '|' :: (TinyDAG.child n D).str = pjoin (grp :: (C ++ [n])) := hNNeq
  rw [hNN0, hnodes, hjp1] at s2
  have e1 : runL st (pc "\x7b" :: (pc "OFFSET " ++ wsJoin off) :: (pc "CHANNELS " ++ natStr ch.length ++ pc " " ++ wsJoin ch) :: (renderKids kids ++ tipLines tip ++ [pc "\x7d"])) = runL st ((pc "OFFSET " ++ wsJoin off) :: (pc "CHANNELS " ++ natStr ch.length ++ pc " " ++ wsJoin ch) :: (renderKids kids ++ tipLines tip ++ [pc "\x7d"])) := runL_cons_ok _ s1
  have e2 : runL st ((pc "OFFSET " ++ wsJoin off) :: (pc "CHANNELS " ++ natStr ch.length ++ pc " " ++ wsJoin ch) :: (renderKids kids ++ tipLines tip ++ [pc "\x7d"])) = runL { st with jnt := JntVal.path (pjoin (grp :: (C ++ [n]))), scene := { st.scene with nodes := jpaths grp (rel ++ [C ++ [n]]), selection := some (pjoin (grp :: (C ++ [n]))), attrs := upd st.scene.attrs (pjoin (grp :: (C ++ [n])) ++ '.' :: pc "translate") (wsJoin off) } } ((pc "CHANNELS " ++ natStr ch.length ++ pc " " ++ wsJoin ch) :: (renderKids kids ++ tipLines tip ++ [pc "\x7d"])) := runL_cons_ok _ s2
  -- step 3: CHANNELS extends the table at the joint's full path
  have hres2 : Scene.resolveU { st.scene with nodes := jpaths grp (rel ++ [C ++ [n]]), selection := some (pjoin (grp :: (C ++ [n]))), attrs := upd st.scene.attrs (pjoin (grp :: (C ++ [n])) ++ '.' :: pc "translate") (wsJoin off) } (pjoin (grp :: (C ++ [n]))) = some (pjoin (grp :: (C ++ [n]))) :=
    resolveU_of_list (resolve_full_mem rfl hN' hR1 hq1)
  have s3 := step_channels (show St.motion { st with jnt := JntVal.path (pjoin (grp :: (C ++ [n]))), scene := { st.scene with nodes := jpaths grp (rel ++ [C ++ [n]]), selection := some (pjoin (grp :: (C ++ [n]))), attrs := upd st.scene.attrs (pjoin (grp :: (C ++ [n])) ++ '.' :: pc "translate") (wsJoin off) } } = false from hmot) hok_ch hro hmp rfl hres2
  rw [hPfull] at s3
  have e3 : runL { st with jnt := JntVal.path (pjoin (grp :: (C ++ [n]))), scene := { st.scene with nodes := jpaths grp (rel ++ [C ++ [n]]), selection := some (pjoin (grp :: (C ++ [n]))), attrs := upd st.scene.attrs (pjoin (grp :: (C ++ [n])) ++ '.' :: pc "translate") (wsJoin off) } } ((pc "CHANNELS " ++ natStr ch.length ++ pc " " ++ wsJoin ch) :: (renderKids kids ++ tipLines tip ++ [pc "\x7d"])) = runL { st with jnt := JntVal.path (pjoin (grp :: (C ++ [n]))), rot_order := some ro, channels := st.channels ++ List.map (fun tok => pjoin (grp :: (C ++ [n])) ++ '.' :: (translationDict tok).getD []) ch, scene := { st.scene with nodes := jpaths grp (rel ++ [C ++ [n]]), selection := some (pjoin (grp :: (C ++ [n]))), attrs := upd (upd st.scene.attrs (pjoin (grp :: (C ++ [n])) ++ '.' :: pc "translate") (wsJoin off)) (pjoin (grp :: (C ++ [n])) ++ '.' :: pc "rotateOrder") (natStr ro) } } (renderKids kids ++ tipLines tip ++ [pc "\x7d"]) := runL_cons_ok _ s3
  -- step 4: children
  obtain ⟨attrs1, jv1, ro1, hrunK⟩ := hkids { st with jnt := JntVal.path (pjoin (grp :: (C ++ [n]))), rot_order := some ro, channels := st.channels ++ List.map (fun tok => pjoin (grp :: (C ++ [n])) ++ '.' :: (translationDict tok).getD []) ch, scene := { st.scene with nodes := jpaths grp (rel ++ [C ++ [n]]), selection := some (pjoin (grp :: (C ++ [n]))), attrs := upd (upd st.scene.attrs (pjoin (grp :: (C ++ [n])) ++ '.' :: pc "translate") (wsJoin off)) (pjoin (grp :: (C ++ [n])) ++ '.' :: pc "rotateOrder") (natStr ro) } } (rel ++ [C ++ [n]]) (TinyDAG.child n D) hR1 hq1 hfr1 hmot hsc hmp hPfull rfl rfl
  have e4 : runL { st with jnt := JntVal.path (pjoin (grp :: (C ++ [n]))), rot_order := some ro, channels := st.channels ++ List.map (fun tok => pjoin (grp :: (C ++ [n])) ++ '.' :: (translationDict tok).getD []) ch, scene := { st.scene with nodes := jpaths grp (rel ++ [C ++ [n]]), selection := some (pjoin (grp :: (C ++ [n]))), attrs := upd (upd st.scene.attrs (pjoin (grp :: (C ++ [n])) ++ '.' :: pc "translate") (wsJoin off)) (pjoin (grp :: (C ++ [n])) ++ '.' :: pc "rotateOrder") (natStr ro) } } (renderKids kids ++ tipLines tip ++ [pc "\x7d"]) = runL { st with jnt := jv1, rot_order := ro1, channels := (st.channels ++ List.map (fun tok => pjoin (grp :: (C ++ [n])) ++ '.' :: (translationDict tok).getD []) ch) ++ chanPaths [grp] (bindsOfK (C ++ [n]) kids), scene := { st.scene with nodes := jpaths grp ((rel ++ [C ++ [n]]) ++ chainsRelK (C ++ [n]) kids), selection := some (pjoin (grp :: (C ++ [n]))), attrs := attrs1 } } (tipLines tip ++ [pc "\x7d"]) := by
    rw [List.append_assoc]
    exact runL_append_ok _ hrunK
  -- step 5: optional End Site block
  have hresT : Scene.resolveU { st.scene with nodes := jpaths grp ((rel ++ [C ++ [n]]) ++ chainsRelK (C ++ [n]) kids), selection := some (pjoin (grp :: (C ++ [n]))), attrs := attrs1 } (TinyDAG.child n D).full_path = some (pjoin (grp :: (C ++ [n]))) := by
    rw [hPfull]
    exact resolveU_of_list (resolve_full_mem rfl hN' hRK hqK)
  obtain ⟨jv2, attrs2, hrunT⟩ := runTip (P := TinyDAG.child n D) tip (show St.motion { st with jnt := jv1, rot_order := ro1, channels := (st.channels ++ List.map (fun tok => pjoin (grp :: (C ++ [n])) ++ '.' :: (translationDict tok).getD []) ch) ++ chanPaths [grp] (bindsOfK (C ++ [n]) kids), scene := { st.scene with nodes := jpaths grp ((rel ++ [C ++ [n]]) ++ chainsRelK (C ++ [n]) kids), selection := some (pjoin (grp :: (C ++ [n]))), attrs := attrs1 } } = false from hmot) hsc hmp hresT hok_tip
  have e5 : runL { st with jnt := jv1, rot_order := ro1, channels := (st.channels ++ List.map (fun tok => pjoin (grp :: (C ++ [n])) ++ '.' :: (translationDict tok).getD []) ch) ++ chanPaths [grp] (bindsOfK (C ++ [n]) kids), scene := { st.scene with nodes := jpaths grp ((rel ++ [C ++ [n]]) ++ chainsRelK (C ++ [n]) kids), selection := some (pjoin (grp :: (C ++ [n]))), attrs := attrs1 } } (tipLines tip ++ [pc "\x7d"]) = runL { st with jnt := jv2, rot_order := ro1, channels := (st.channels ++ List.map (fun tok => pjoin (grp :: (C ++ [n])) ++ '.' :: (translationDict tok).getD []) ch) ++ chanPaths [grp] (bindsOfK (C ++ [n]) kids), scene := { st.scene with nodes := jpaths grp ((rel ++ [C ++ [n]]) ++ chainsRelK (C ++ [n]) kids), selection := some (pjoin (grp :: (C ++ [n]))), attrs := attrs2 } } [pc "\x7d"] := runL_append_ok _ hrunT
  -- step 6: closing brace ascends and reselects the parent
  have hres6 : Scene.resolveU { st.scene with nodes := jpaths grp ((rel ++ [C ++ [n]]) ++ chainsRelK (C ++ [n]) kids), selection := some (pjoin (grp :: (C ++ [n]))), attrs := attrs2 } D.full_path = some (pjoin (grp :: C)) := by
    rw [hD]
    apply resolveU_of_list
    rcases hCnil with hc0 | hcm
    · subst hc0
      exact resolve_grp rfl hN' hRK
    · exact resolve_full_mem rfl hN' hRK (List.mem_append.mpr (Or.inl (List.mem_append.mpr (Or.inl hcm))))
  have s6 := step_brace_ascend (p := TinyDAG.child n D) (q := D) (show St.motion { st with jnt := jv2, rot_order := ro1, channels := (st.channels ++ List.map (fun tok => pjoin (grp :: (C ++ [n])) ++ '.' :: (translationDict tok).getD []) ch) ++ chanPaths [grp] (bindsOfK (C ++ [n]) kids), scene := { st.scene with nodes := jpaths grp ((rel ++ [C ++ [n]]) ++ chainsRelK (C ++ [n]) kids), selection := some (pjoin (grp :: (C ++ [n]))), attrs := attrs2 } } = false from hmot) hsc hmp rfl hres6
  have e6 : runL { st with jnt := jv2, rot_order := ro1, channels := (st.channels ++ List.map (fun tok => pjoin (grp :: (C ++ [n])) ++ '.' :: (translationDict tok).getD []) ch) ++ chanPaths [grp] (bindsOfK (C ++ [n]) kids), scene := { st.scene with nodes := jpaths grp ((rel ++ [C ++ [n]]) ++ chainsRelK (C ++ [n]) kids), selection := some (pjoin (grp :: (C ++ [n]))), attrs := attrs2 } } [pc "\x7d"] = runL { st with my_parent := some D, jnt := jv2, rot_order := ro1, channels := (st.channels ++ List.map (fun tok => pjoin (grp :: (C ++ [n])) ++ '.' :: (translationDict tok).getD []) ch) ++ chanPaths [grp] (bindsOfK (C ++ [n]) kids), scene := { st.scene with nodes := jpaths grp ((rel ++ [C ++ [n]]) ++ chainsRelK (C ++ [n]) kids), selection := some (pjoin (grp :: C)), attrs := attrs2 } } [] := runL_cons_ok _ s6
  refine ⟨attrs2, jv2, ro1, ?_⟩
  have etot := (((((e1.trans e2).trans e3).trans e4).trans e5).trans e6)
  rw [etot]
  have hch2 : st.channels ++ chanPaths [grp] (List.map (fun tok => (C ++ [n], (translationDict tok).getD [])) ch ++ bindsOfK (C ++ [n]) kids) = (st.channels ++ List.map (fun tok => pjoin (grp :: (C ++ [n])) ++ '.' :: (translationDict tok).getD []) ch) ++ chanPaths [grp] (bindsOfK (C ++ [n]) kids) := by
    unfold chanPaths
    rw [List.map_append, List.map_map, ← List.append_assoc]
    rfl
  have hnod2 : rel ++ (C ++ [n]) :: chainsRelK (C ++ [n]) kids = (rel ++ [C ++ [n]]) ++ chainsRelK (C ++ [n]) kids := by
    rw [List.append_assoc]
    rfl
  rw [hch2, hnod2]
  rfl

theorem relOK_extendJ {rootn : PyStr} {usable : List PyStr} {rel : List (List PyStr)}
    {C : List PyStr} {t : BT}
    (hR : RelOK rootn usable rel) (hCm : C ∈ rel)
    (hu : ∀ m ∈ namesOf t, m ∈ usable) (hnd : (namesOf t).Nodup)
    (hfr : ∀ m ∈ namesOf t, m ∉ rel.flatten) :
    RelOK rootn usable (rel ++ chainsRel C t) := by
  cases t with
  | mk n off ch kids tip =>
    have hCnd : C.Nodup := (hR.2 C hCm).2.1
    have hCu : ∀ m ∈ C, m ∈ usable := (hR.2 C hCm).2.2.1
    have hnu : ∀ m ∈ n :: namesOfK kids, m ∈ usable := hu
    have hnnd : (n :: namesOfK kids).Nodup := hnd
    have hnfr : ∀ m ∈ n :: namesOfK kids, m ∉ rel.flatten := hfr
    have hnotC : ∀ m ∈ n :: namesOfK kids, m ∉ C :=
      fun m hm hmc => hnfr m hm (List.mem_flatten.mpr ⟨C, hCm, hmc⟩)
    have hqne : (C ++ [n] : List PyStr) ≠ [] := by simp
    have hqnd : (C ++ [n]).Nodup :=
      List.Nodup.append hCnd (by simp)
        (fun m hmC hmn => hnotC n (by simp) ((List.mem_singleton.mp hmn) ▸ hmC))
    have hqu : ∀ m ∈ C ++ [n], m ∈ usable := by
      intro m hm
      rcases List.mem_append.mp hm with h | h
      · exact hCu m h
      · rw [List.mem_singleton.mp h]; exact hnu n (by simp)
    have hqnotrel : (C ++ [n]) ∉ rel := fun hmem =>
      hnfr n (by simp) (List.mem_flatten.mpr ⟨C ++ [n], hmem, by simp⟩)
    have hCr : ∃ c', C ++ [n] = rootn :: c' := by
      obtain ⟨c', hc'⟩ := (hR.2 C hCm).2.2.2
      exact ⟨c' ++ [n], by rw [hc']; exact List.cons_append rootn c' [n]⟩
    have hR1 : RelOK rootn usable (rel ++ [C ++ [n]]) :=
      relOK_snoc hR hqnotrel hqne hqnd hqu hCr
    have hfr1 : ∀ m ∈ namesOfK kids, m ∉ (rel ++ [C ++ [n]]).flatten := by
      intro m hm hmem
      rw [List.flatten_append] at hmem
      rcases List.mem_append.mp hmem with h | h
      · exact hnfr m (List.mem_cons_of_mem n hm) h
      · simp only [List.flatten_cons, List.flatten_nil, List.append_nil] at h
        rcases List.mem_append.mp h with h2 | h2
        · exact hnotC m (List.mem_cons_of_mem n hm) h2
        · rw [List.mem_singleton.mp h2] at hm
          exact (List.nodup_cons.mp hnnd).1 hm
    have hkq : ∀ m ∈ namesOfK kids, m ∉ C ++ [n] := by
      intro m hm hmem
      rcases List.mem_append.mp hmem with h2 | h2
      · exact hnotC m (List.mem_cons_of_mem n hm) h2
      · rw [List.mem_singleton.mp h2] at hm
        exact (List.nodup_cons.mp hnnd).1 hm
    have hRK : RelOK rootn usable ((rel ++ [C ++ [n]]) ++ chainsRelK (C ++ [n]) kids) :=
      relOK_extendK hR1 hCr hqnd hqu (List.nodup_cons.mp hnnd).2
        (fun m hm => hnu m (List.mem_cons_of_mem n hm)) hfr1 hkq
    have heq : rel ++ chainsRel C (BT.mk n off ch kids tip) =
        (rel ++ [C ++ [n]]) ++ chainsRelK (C ++ [n]) kids := by
      show rel ++ (C ++ [n]) :: chainsRelK (C ++ [n]) kids = _
      rw [List.append_assoc]
      rfl
    rw [heq]
    exact hRK

theorem fresh_extendJ {rel : List (List PyStr)} {C : List PyStr} {t : BT}
    (hCm : C ∈ rel) :
    ∀ m, m ∉ rel.flatten → m ∉ namesOf t → m ∉ (rel ++ chainsRel C t).flatten := by
  intro m h1 h2 hmem
  rw [List.flatten_append] at hmem
  rcases List.mem_append.mp hmem with h | h
  · exact h1 h
  · obtain ⟨c, hc, hmc⟩ := List.mem_flatten.mp h
    obtain ⟨d, hd1, _, hd3, _⟩ := chainsRel_shape t C c hc
    rw [hd1] at hmc
    rcases List.mem_append.mp hmc with h3 | h3
    · exact h1 (List.mem_flatten.mpr ⟨C, hCm, h3⟩)
    · exact h2 (hd3 m h3)

mutual
/-- Fresh-import characterization of one `JOINT` block: it creates the
subtree's nodes, extends the channel table with the subtree's bindings at
full DAG paths, and restores the parent and selection. -/
theorem run1J (t : BT) : ∀ (C : List PyStr) (st : St) (rel : List (List PyStr))
    (D : TinyDAG) (grp rootn : PyStr) (usable : List PyStr),
    treeOKb t = true → NamesOK grp usable → RelOK rootn usable rel → C ∈ rel →
    (∀ m ∈ namesOf t, m ∈ usable) → (namesOf t).Nodup →
    (∀ m ∈ namesOf t, m ∉ rel.flatten) →
    st.motion = false → st.safe_close = false → st.my_parent = some D →
    D.full_path = pjoin (grp :: C) → st.scene.selection = some (pjoin (grp :: C)) →
    st.scene.nodes = jpaths grp rel →
    ∃ (attrs' : List (PyStr × PyStr)) (jv : JntVal) (ro : Option Nat),
      runL st (renderJ t) = .ok { st with jnt := jv, rot_order := ro, channels := st.channels ++ chanPaths [grp] (bindsOf C t), scene := { st.scene with nodes := jpaths grp (rel ++ chainsRel C t), attrs := attrs' } } := by
  cases t with
  | mk n off ch kids tip =>
    intro C st rel D grp rootn usable hok hN hR hCm hu hnd hfr hmot hsc hmp hD hsel hnodes
    have hokl : okNameB n = true ∧ jointLineB n = true ∧ offsetLineB off = true ∧
        channelsLineB ch = true ∧ treesOKb kids = true ∧ tipOKb tip = true := by
      unfold treeOKb at hok
      simp only [Bool.and_eq_true] at hok
      exact ⟨hok.1.1.1.1.1, hok.1.1.1.1.2, hok.1.1.1.2, hok.1.1.2, hok.1.2, hok.2⟩
    obtain ⟨hok_n, hok_j, hok_off, hok_ch, hok_k, hok_tip⟩ := hokl
    have hCr : ∃ c', C ++ [n] = rootn :: c' := by
      obtain ⟨c', hc'⟩ := (hR.2 C hCm).2.2.2
      exact ⟨c' ++ [n], by rw [hc']; exact List.cons_append rootn c' [n]⟩
    have s0 := step_joint hmot hok_j
    rw [hmp] at s0
    have e0 : runL st (renderJ (BT.mk n off ch kids tip)) = runL { st with jnt := JntVal.toks [pc "JOINT", n], my_parent := some (TinyDAG.child n D) } (pc "\x7b" :: (pc "OFFSET " ++ wsJoin off) :: (pc "CHANNELS " ++ natStr ch.length ++ pc " " ++ wsJoin ch) :: (renderKids kids ++ tipLines tip ++ [pc "\x7d"])) := runL_cons_ok _ s0
    obtain ⟨attrs', jv, ro, hbody⟩ := run1Body (C := C) (n := n) (D := D)
      off ch kids tip hok_off hok_ch hok_tip hN hR (Or.inr hCm) hCr hu hnd hfr
      (fun st' rel' D' h1 h2 h3 h4 h5 h6 h7 h8 h9 =>
        run1K kids (C ++ [n]) st' rel' D' grp rootn usable hok_k hN h1 h2
          (fun m hm => hu m (List.mem_cons_of_mem n hm))
          (List.nodup_cons.mp hnd).2 h3 h4 h5 h6 h7 h8 h9)
      (show St.motion { st with jnt := JntVal.toks [pc "JOINT", n], my_parent := some (TinyDAG.child n D) } = false from hmot) hsc rfl hD hsel hnodes
    refine ⟨attrs', jv, ro, ?_⟩
    rw [e0, hbody]
    rw [← hmp, ← hsel]
    rfl
/-- Fresh-import characterization of a sibling list of `JOINT` blocks. -/
theorem run1K (ts : BTs) : ∀ (C : List PyStr) (st : St) (rel : List (List PyStr))
    (D : TinyDAG) (grp rootn : PyStr) (usable : List PyStr),
    treesOKb ts = true → NamesOK grp usable → RelOK rootn usable rel → C ∈ rel →
    (∀ m ∈ namesOfK ts, m ∈ usable) → (namesOfK ts).Nodup →
    (∀ m ∈ namesOfK ts, m ∉ rel.flatten) →
    st.motion = false → st.safe_close = false → st.my_parent = some D →
    D.full_path = pjoin (grp :: C) → st.scene.selection = some (pjoin (grp :: C)) →
    st.scene.nodes = jpaths grp rel →
    ∃ (attrs' : List (PyStr × PyStr)) (jv : JntVal) (ro : Option Nat),
      runL st (renderKids ts) = .ok { st with jnt := jv, rot_order := ro, channels := st.channels ++ chanPaths [grp] (bindsOfK C ts), scene := { st.scene with nodes := jpaths grp (rel ++ chainsRelK C ts), attrs := attrs' } } := by
  cases ts with
  | nil =>
    intro C st rel D grp rootn usable _ _ _ _ _ _ _ _ _ _ _ _ hnodes
    refine ⟨st.scene.attrs, st.jnt, st.rot_order, ?_⟩
    show Except.ok st = _
    simp only [bindsOfK, chainsRelK, chanPaths, List.map_nil, List.append_nil]
    rw [← hnodes]
  | cons t ts' =>
    intro C st rel D grp rootn usable hok hN hR hCm hu hnd hfr hmot hsc hmp hD hsel hnodes
    have hokl : treeOKb t = true ∧ treesOKb ts' = true := by
      unfold treesOKb at hok
      simp only [Bool.and_eq_true] at hok
      exact hok
    have hut : ∀ m ∈ namesOf t, m ∈ usable :=
      fun m hm => hu m (List.mem_append.mpr (Or.inl hm))
    have hus : ∀ m ∈ namesOfK ts', m ∈ usable :=
      fun m hm => hu m (List.mem_append.mpr (Or.inr hm))
    have hndt : (namesOf t).Nodup := List.Nodup.of_append_left hnd
    have hnds : (namesOfK ts').Nodup := List.Nodup.of_append_right hnd
    have hdisj : ∀ m ∈ namesOf t, m ∉ namesOfK ts' :=
      fun m hm1 hm2 => (List.nodup_append.mp hnd).2.2 hm1 hm2
    have hfrt : ∀ m ∈ namesOf t, m ∉ rel.flatten :=
      fun m hm => hfr m (List.mem_append.mpr (Or.inl hm))
    have hfrs : ∀ m ∈ namesOfK ts', m ∉ rel.flatten :=
      fun m hm => hfr m (List.mem_append.mpr (Or.inr hm))
    obtain ⟨a1, j1, r1, h1⟩ := run1J t C st rel D grp rootn usable hokl.1 hN hR hCm
      hut hndt hfrt hmot hsc hmp hD hsel hnodes
    have hR2 : RelOK rootn usable (rel ++ chainsRel C t) :=
      relOK_extendJ hR hCm hut hndt hfrt
    have hfr2 : ∀ m ∈ namesOfK ts', m ∉ (rel ++ chainsRel C t).flatten :=
      fun m hm => fresh_extendJ hCm m (hfrs m hm) (fun hmt => hdisj m hmt hm)
    obtain ⟨a2, j2, r2, h2⟩ := run1K ts' C
      { st with jnt := j1, rot_order := r1, channels := st.channels ++ chanPaths [grp] (bindsOf C t), scene := { st.scene with nodes := jpaths grp (rel ++ chainsRel C t), attrs := a1 } }
      (rel ++ chainsRel C t) D grp rootn usable hokl.2 hN hR2
      (List.mem_append.mpr (Or.inl hCm)) hus hnds hfr2 hmot hsc hmp hD hsel rfl
    refine ⟨a2, j2, r2, ?_⟩
    show runL st (renderJ t ++ renderKids ts') = _
    rw [runL_append_ok _ h1, h2]
    simp only [bindsOfK, chainsRelK]
    have hch : st.channels ++ chanPaths [grp] (bindsOf C t ++ bindsOfK C ts') = (st.channels ++ chanPaths [grp] (bindsOf C t)) ++ chanPaths [grp] (bindsOfK C ts') := by
      unfold chanPaths
      rw [List.map_append, ← List.append_assoc]
    have hnd2 : rel ++ (chainsRel C t ++ chainsRelK C ts') = (rel ++ chainsRel C t) ++ chainsRelK C ts' := (List.append_assoc rel (chainsRel C t) (chainsRelK C ts')).symm
    rw [hch, hnd2]
end

/-- Name of the group node `readFile` creates on a fresh import (line 97). -/
def mocapGrp (fp : PyStr) : PyStr := pc "_mocap_" ++ pyBasename fp ++ pc "_grp"

/-- Root joint's name. -/
def rootName : BT → PyStr
  | .mk n _ _ _ _ => n

/-- String-check outcomes for a motion-section header line: tab
normalization is the identity and the text contains `Frame`. -/
def hdrLineOK (s : PyStr) : Bool := (tabToSpace s == s) && subIn (pc "Frame") s

/-- String-check outcomes for a data row of at most `k` float tokens:
rendering and re-splitting the row is the identity, the text does not
contain `Frame`, and every token is a float token. -/
def rowOK (k : Nat) (fr : List PyStr) : Bool :=
  (tabToSpace (wsJoin fr) == wsJoin fr) && (subIn (pc "Frame") (wsJoin fr) == false) &&
  (pySplit (wsJoin fr) == fr) && fr.all isFloatTok && decide (fr.length ≤ k)

theorem chanTargets_full {sc : Scene} {grp rootn : PyStr} {usable : List PyStr}
    {rel : List (List PyStr)} (hnodes : sc.nodes = jpaths grp rel)
    (hN : NamesOK grp usable) (hR : RelOK rootn usable rel)
    (bs : List (List PyStr × PyStr))
    (hbs : ∀ b ∈ bs, b.1 ∈ rel ∧ (∀ cc ∈ b.2, cc ≠ '.')) :
    (chanPaths [grp] bs).map (chanTarget sc) = (chanPaths [grp] bs).map some := by
  unfold chanPaths
  rw [List.map_map, List.map_map]
  apply List.map_congr_left
  intro b hb
  show chanTarget sc (pjoin ([grp] ++ b.1) ++ '.' :: b.2) =
    some (pjoin ([grp] ++ b.1) ++ '.' :: b.2)
  unfold chanTarget
  rw [splitAttr_append _ _ (hbs b hb).2]
  dsimp only
  have hr : sc.resolveU (pjoin ([grp] ++ b.1)) = some (pjoin ([grp] ++ b.1)) :=
    resolveU_of_list (resolve_full_mem hnodes hN hR (hbs b hb).1)
  rw [hr]
  rfl

theorem chanTargets_rel {sc : Scene} {grp rootn : PyStr} {usable : List PyStr}
    {rel : List (List PyStr)} (hnodes : sc.nodes = jpaths grp rel)
    (hN : NamesOK grp usable) (hR : RelOK rootn usable rel)
    (bs : List (List PyStr × PyStr))
    (hbs : ∀ b ∈ bs, b.1 ∈ rel ∧ (∀ cc ∈ b.2, cc ≠ '.')) :
    (chanPaths [] bs).map (chanTarget sc) = (chanPaths [grp] bs).map some := by
  unfold chanPaths
  rw [List.map_map, List.map_map]
  apply List.map_congr_left
  intro b hb
  show chanTarget sc (pjoin ([] ++ b.1) ++ '.' :: b.2) =
    some (pjoin ([grp] ++ b.1) ++ '.' :: b.2)
  unfold chanTarget
  rw [splitAttr_append _ _ (hbs b hb).2]
  dsimp only
  have hr : sc.resolveU (pjoin ([] ++ b.1)) = some (pjoin ([grp] ++ b.1)) :=
    resolveU_of_list (resolve_rel_mem hnodes hN hR (hbs b hb).1)
  rw [hr]
  rfl

theorem chanPaths_length (P : List PyStr) (bs : List (List PyStr × PyStr)) :
    (chanPaths P bs).length = bs.length := by
  unfold chanPaths
  rw [List.length_map]

theorem binds_shape_root {rt : BT} (hok : rootOKb rt = true) :
    ∀ b ∈ bindsOf [] rt, b.1 ∈ chainsRel [] rt ∧ b.2 ∈ sixAttrs ∧
      (∀ cc ∈ b.2, cc ≠ '.') := by
  cases rt with
  | mk n off ch kids tip =>
    intro b hb
    unfold rootOKb at hok
    simp only [Bool.and_eq_true] at hok
    have hch : channelsLineB ch = true := hok.1.1.2
    have hkids : treesOKb kids = true := hok.1.2
    have hdict : ∀ tok ∈ ch, (translationDict tok).isSome = true := by
      unfold channelsLineB at hch
      simp only [Bool.and_eq_true] at hch
      exact fun tok htok => List.all_eq_true.mp hch.2 tok htok
    unfold bindsOf at hb
    unfold chainsRel
    rcases List.mem_append.mp hb with h1 | h1
    · obtain ⟨tok, htok, hbe⟩ := List.mem_map.mp h1
      obtain ⟨a, ha⟩ := Option.isSome_iff_exists.mp (hdict tok htok)
      have h2 := td_six ha
      rw [← hbe]
      refine ⟨by simp, ?_, ?_⟩
      · rw [ha]
        exact h2.1
      · rw [ha]
        exact h2.2
    · obtain ⟨hb1, hb2, hb3⟩ := bindsK_shape kids ([] ++ [n]) b hkids h1
      exact ⟨List.mem_cons_of_mem _ hb1, hb2, hb3⟩

theorem mlines_ok {channels : List PyStr} {fc ft : PyStr} {frames : List (List PyStr)}
    {k : Nat}
    (hh1 : hdrLineOK (pc "Frames: " ++ fc) = true)
    (hh2 : hdrLineOK (pc "Frame Time: " ++ ft) = true)
    (hrows : ∀ fr ∈ frames, rowOK k fr = true)
    (hlen : k ≤ channels.length) :
    ∀ line ∈ (pc "Frames: " ++ fc) :: (pc "Frame Time: " ++ ft) :: frames.map wsJoin,
      MLineOK channels line := by
  intro line hl
  rcases List.mem_cons.mp hl with h | h
  · subst h
    left
    unfold hdrLineOK at hh1
    simp only [Bool.and_eq_true, beq_iff_eq] at hh1
    rw [hh1.1]
    exact hh1.2
  · rcases List.mem_cons.mp h with h2 | h2
    · subst h2
      left
      unfold hdrLineOK at hh2
      simp only [Bool.and_eq_true, beq_iff_eq] at hh2
      rw [hh2.1]
      exact hh2.2
    · obtain ⟨fr, hfr, hfe⟩ := List.mem_map.mp h2
      rw [← hfe]
      right
      have hrow := hrows fr hfr
      unfold rowOK at hrow
      simp only [Bool.and_eq_true, beq_iff_eq, decide_eq_true_eq] at hrow
      constructor
      · rw [hrow.1.1.1.1, hrow.1.1.2, List.all_eq_true]
        exact fun tok htok => List.all_eq_true.mp hrow.1.2 tok htok
      · rw [hrow.1.1.1.1, hrow.1.1.2]
        omega

/-- Characterization of a complete fresh `readFile` pass on a rendered BVH
file: the scale group and the joint hierarchy are created, the channel
table holds exactly the rendered bindings at full paths, the root is
persisted, and the keyframe store is the `mIngest` of the motion section
against the channel targets. -/
theorem run1_top (rt : BT) (fc ft : PyStr) (frames : List (List PyStr))
    (sess : Session) (sc0 : Scene) (usable : List PyStr)
    (hroot : sess.root_node = none)
    (hdata : sess.data = renderFile rt fc ft frames)
    (hok : rootOKb rt = true)
    (hN : NamesOK (mocapGrp sess.file_path) usable)
    (hu : ∀ m ∈ namesOf rt, m ∈ usable) (hnd : (namesOf rt).Nodup)
    (hh1 : hdrLineOK (pc "Frames: " ++ fc) = true)
    (hh2 : hdrLineOK (pc "Frame Time: " ++ ft) = true)
    (hrows : ∀ fr ∈ frames, rowOK (sumCh rt) fr = true)
    (hsc0 : sc0.nodes = []) :
    ∃ (sessF : Session) (scF : Scene),
      readFile sess sc0 = .ok (sessF, scF) ∧
      sessF.channels = chanPaths [mocapGrp sess.file_path] (bindsOf [] rt) ∧
      sessF.root_node = some (.child (rootName rt) (.root (mocapGrp sess.file_path))) ∧
      sessF.root_full = some (mocapGrp sess.file_path ++ '|' :: rootName rt) ∧
      sessF.file_path = sess.file_path ∧ sessF.scale = sess.scale ∧
      sessF.data = sess.data ∧
      scF.nodes = jpaths (mocapGrp sess.file_path) (chainsRel [] rt) ∧
      scF.keyframes = mIngest (chanPaths [mocapGrp sess.file_path] (bindsOf [] rt)) 0
        ((pc "Frames: " ++ fc) :: (pc "Frame Time: " ++ ft) :: frames.map wsJoin)
        sc0.keyframes := by
  cases rt with
  | mk rtN off ch kids tip =>
    have hokl : okNameB rtN = true ∧ rootLineB rtN = true ∧ offsetLineB off = true ∧
        channelsLineB ch = true ∧ treesOKb kids = true ∧ tipOKb tip = true := by
      unfold rootOKb at hok
      simp only [Bool.and_eq_true] at hok
      exact ⟨hok.1.1.1.1.1, hok.1.1.1.1.2, hok.1.1.1.2, hok.1.1.2, hok.1.2, hok.2⟩
    obtain ⟨hok_n, hok_r, hok_off, hok_ch, hok_k, hok_tip⟩ := hokl
    have hRnil : RelOK rtN usable ([] : List (List PyStr)) :=
      ⟨List.nodup_nil, fun c hc => absurd hc (List.not_mem_nil c)⟩
    -- the group scene after `mc.group` and the scale `setAttr`
    have hresGrp : Scene.resolveU { sc0 with nodes := sc0.nodes ++ [mocapGrp sess.file_path], selection := some (mocapGrp sess.file_path) } (mocapGrp sess.file_path) = some (mocapGrp sess.file_path) := by
      apply resolveU_of_list
      apply resolve_grp ?_ hN hRnil
      show sc0.nodes ++ [mocapGrp sess.file_path] = _
      rw [hsc0]
      rfl
    have hsetA : Scene.setAttrM { sc0 with nodes := sc0.nodes ++ [mocapGrp sess.file_path], selection := some (mocapGrp sess.file_path) } (mocapGrp sess.file_path ++ pc ".scale") (wsJoin [sess.scale, sess.scale, sess.scale]) = .ok { sc0 with nodes := sc0.nodes ++ [mocapGrp sess.file_path], selection := some (mocapGrp sess.file_path), attrs := upd sc0.attrs (mocapGrp sess.file_path ++ '.' :: pc "scale") (wsJoin [sess.scale, sess.scale, sess.scale]) } := by
      rw [show mocapGrp sess.file_path ++ pc ".scale" = mocapGrp sess.file_path ++ '.' :: pc "scale" from rfl]
      exact setAttrM_ok (by decide) hresGrp _
    -- hierarchy phase
    have hnodes1 : sc0.nodes ++ [mocapGrp sess.file_path] = jpaths (mocapGrp sess.file_path) [] := by
      rw [hsc0]
      rfl
    obtain ⟨attrs', jv, ro, hbody⟩ := run1Body (C := []) (n := rtN)
      (D := TinyDAG.root (mocapGrp sess.file_path))
      off ch kids tip hok_off hok_ch hok_tip hN hRnil (Or.inl rfl) ⟨[], rfl⟩ hu hnd
      (fun m _ hmem => absurd hmem (List.not_mem_nil m))
      (fun st' rel' D' h1 h2 h3 h4 h5 h6 h7 h8 h9 =>
        run1K kids ([] ++ [rtN]) st' rel' D' (mocapGrp sess.file_path) rtN usable
          hok_k hN h1 h2 (fun m hm => hu m (List.mem_cons_of_mem rtN hm))
          (List.nodup_cons.mp hnd).2 h3 h4 h5 h6 h7 h8 h9)
      (show St.motion { safe_close := false, motion := false, frame := 0, rot_order := none, my_parent := some (TinyDAG.child rtN (TinyDAG.root (mocapGrp sess.file_path))), jnt := JntVal.undef, channels := [], root_node := some (TinyDAG.child rtN (TinyDAG.root (mocapGrp sess.file_path))), root_full := some (mocapGrp sess.file_path ++ '|' :: rtN), scene := { sc0 with nodes := sc0.nodes ++ [mocapGrp sess.file_path], selection := some (mocapGrp sess.file_path), attrs := upd sc0.attrs (mocapGrp sess.file_path ++ '.' :: pc "scale") (wsJoin [sess.scale, sess.scale, sess.scale]) } } = false from rfl) rfl rfl rfl rfl hnodes1
    -- rotation-order bookkeeping facts for the whole hierarchy
    have hR1 : RelOK rtN usable [[rtN]] := by
      refine relOK_snoc hRnil (fun h => absurd h (List.not_mem_nil _)) (by simp) (by simp) ?_ ⟨[], rfl⟩
      intro m hm
      rw [List.mem_singleton.mp hm]
      exact hu rtN (List.mem_cons_self rtN (namesOfK kids))
    have hknotr : ∀ m ∈ namesOfK kids, m ∉ ([[rtN]] : List (List PyStr)).flatten := by
      intro m hm hmem
      simp only [List.flatten_cons, List.flatten_nil, List.append_nil] at hmem
      rw [List.mem_singleton.mp hmem] at hm
      exact (List.nodup_cons.mp hnd).1 hm
    have hknq : ∀ m ∈ namesOfK kids, m ∉ ([rtN] : List PyStr) := by
      intro m hm hmem
      rw [List.mem_singleton.mp hmem] at hm
      exact (List.nodup_cons.mp hnd).1 hm
    have hRALL : RelOK rtN usable (chainsRel [] (BT.mk rtN off ch kids tip)) := by
      have h := relOK_extendK (q := [rtN]) hR1 ⟨[], rfl⟩ (by simp)
        (fun m hm => by rw [List.mem_singleton.mp hm]; exact hu rtN (List.mem_cons_self rtN (namesOfK kids)))
        (List.nodup_cons.mp hnd).2
        (fun m hm => hu m (List.mem_cons_of_mem rtN hm)) hknotr hknq
      exact h
    have hbs : ∀ b ∈ bindsOf [] (BT.mk rtN off ch kids tip),
        b.1 ∈ chainsRel [] (BT.mk rtN off ch kids tip) ∧ (∀ cc ∈ b.2, cc ≠ '.') :=
      fun b hb => ⟨(binds_shape_root hok b hb).1, (binds_shape_root hok b hb).2.2⟩
    have hmap : (chanPaths [mocapGrp sess.file_path] (bindsOf [] (BT.mk rtN off ch kids tip))).map (chanTarget { nodes := jpaths (mocapGrp sess.file_path) (chainsRel [] (BT.mk rtN off ch kids tip)), attrs := attrs', keyframes := sc0.keyframes, selection := some (mocapGrp sess.file_path) }) = (chanPaths [mocapGrp sess.file_path] (bindsOf [] (BT.mk rtN off ch kids tip))).map some :=
      chanTargets_full rfl hN hRALL _ hbs
    have hlenC : sumCh (BT.mk rtN off ch kids tip) ≤ (chanPaths [mocapGrp sess.file_path] (bindsOf [] (BT.mk rtN off ch kids tip))).length := by
      rw [chanPaths_length, binds_length]
    obtain ⟨stF, hrunM, hframe, hmotF, hchanF, hparF, hrnF, hrfF, hnodesF, hattrsF, hselF, hkfsF⟩ :=
      motionRun ((pc "Frames: " ++ fc) :: (pc "Frame Time: " ++ ft) :: frames.map wsJoin)
        { safe_close := false, motion := true, frame := 0, rot_order := ro, my_parent := some (TinyDAG.root (mocapGrp sess.file_path)), jnt := jv, channels := chanPaths [mocapGrp sess.file_path] (bindsOf [] (BT.mk rtN off ch kids tip)), root_node := some (TinyDAG.child rtN (TinyDAG.root (mocapGrp sess.file_path))), root_full := some (mocapGrp sess.file_path ++ '|' :: rtN), scene := { nodes := jpaths (mocapGrp sess.file_path) (chainsRel [] (BT.mk rtN off ch kids tip)), attrs := attrs', keyframes := sc0.keyframes, selection := some (mocapGrp sess.file_path) } }
        (chanPaths [mocapGrp sess.file_path] (bindsOf [] (BT.mk rtN off ch kids tip)))
        rfl hmap (mlines_ok hh1 hh2 hrows hlenC)
    -- assemble the whole pass
    have e1 : runL (initSt sess (some (TinyDAG.root (mocapGrp sess.file_path))) { sc0 with nodes := sc0.nodes ++ [mocapGrp sess.file_path], selection := some (mocapGrp sess.file_path), attrs := upd sc0.attrs (mocapGrp sess.file_path ++ '.' :: pc "scale") (wsJoin [sess.scale, sess.scale, sess.scale]) }) (renderFile (BT.mk rtN off ch kids tip) fc ft frames) = runL (initSt sess (some (TinyDAG.root (mocapGrp sess.file_path))) { sc0 with nodes := sc0.nodes ++ [mocapGrp sess.file_path], selection := some (mocapGrp sess.file_path), attrs := upd sc0.attrs (mocapGrp sess.file_path ++ '.' :: pc "scale") (wsJoin [sess.scale, sess.scale, sess.scale]) }) (renderRoot (BT.mk rtN off ch kids tip) ++ pc "MOTION" :: (pc "Frames: " ++ fc) :: (pc "Frame Time: " ++ ft) :: frames.map wsJoin) :=
      runL_cons_ok _ (step_noop rfl (by decide))
    have e2 : runL (initSt sess (some (TinyDAG.root (mocapGrp sess.file_path))) { sc0 with nodes := sc0.nodes ++ [mocapGrp sess.file_path], selection := some (mocapGrp sess.file_path), attrs := upd sc0.attrs (mocapGrp sess.file_path ++ '.' :: pc "scale") (wsJoin [sess.scale, sess.scale, sess.scale]) }) (renderRoot (BT.mk rtN off ch kids tip) ++ pc "MOTION" :: (pc "Frames: " ++ fc) :: (pc "Frame Time: " ++ ft) :: frames.map wsJoin) = runL { safe_close := false, motion := false, frame := 0, rot_order := none, my_parent := some (TinyDAG.child rtN (TinyDAG.root (mocapGrp sess.file_path))), jnt := JntVal.undef, channels := [], root_node := some (TinyDAG.child rtN (TinyDAG.root (mocapGrp sess.file_path))), root_full := some (mocapGrp sess.file_path ++ '|' :: rtN), scene := { sc0 with nodes := sc0.nodes ++ [mocapGrp sess.file_path], selection := some (mocapGrp sess.file_path), attrs := upd sc0.attrs (mocapGrp sess.file_path ++ '.' :: pc "scale") (wsJoin [sess.scale, sess.scale, sess.scale]) } } ((pc "\x7b" :: (pc "OFFSET " ++ wsJoin off) :: (pc "CHANNELS " ++ natStr ch.length ++ pc " " ++ wsJoin ch) :: (renderKids kids ++ tipLines tip ++ [pc "\x7d"])) ++ pc "MOTION" :: (pc "Frames: " ++ fc) :: (pc "Frame Time: " ++ ft) :: frames.map wsJoin) :=
      runL_cons_ok _ (step_root_fresh rfl hok_r hroot)
    have e3 : runL { safe_close := false, motion := false, frame := 0, rot_order := none, my_parent := some (TinyDAG.child rtN (TinyDAG.root (mocapGrp sess.file_path))), jnt := JntVal.undef, channels := [], root_node := some (TinyDAG.child rtN (TinyDAG.root (mocapGrp sess.file_path))), root_full := some (mocapGrp sess.file_path ++ '|' :: rtN), scene := { sc0 with nodes := sc0.nodes ++ [mocapGrp sess.file_path], selection := some (mocapGrp sess.file_path), attrs := upd sc0.attrs (mocapGrp sess.file_path ++ '.' :: pc "scale") (wsJoin [sess.scale, sess.scale, sess.scale]) } } ((pc "\x7b" :: (pc "OFFSET " ++ wsJoin off) :: (pc "CHANNELS " ++ natStr ch.length ++ pc " " ++ wsJoin ch) :: (renderKids kids ++ tipLines tip ++ [pc "\x7d"])) ++ pc "MOTION" :: (pc "Frames: " ++ fc) :: (pc "Frame Time: " ++ ft) :: frames.map wsJoin) = runL { safe_close := false, motion := false, frame := 0, rot_order := ro, my_parent := some (TinyDAG.root (mocapGrp sess.file_path)), jnt := jv, channels := chanPaths [mocapGrp sess.file_path] (bindsOf [] (BT.mk rtN off ch kids tip)), root_node := some (TinyDAG.child rtN (TinyDAG.root (mocapGrp sess.file_path))), root_full := some (mocapGrp sess.file_path ++ '|' :: rtN), scene := { nodes := jpaths (mocapGrp sess.file_path) (chainsRel [] (BT.mk rtN off ch kids tip)), attrs := attrs', keyframes := sc0.keyframes, selection := some (mocapGrp sess.file_path) } } (pc "MOTION" :: (pc "Frames: " ++ fc) :: (pc "Frame Time: " ++ ft) :: frames.map wsJoin) :=
      runL_append_ok _ hbody
    have e4 : runL { safe_close := false, motion := false, frame := 0, rot_order := ro, my_parent := some (TinyDAG.root (mocapGrp sess.file_path)), jnt := jv, channels := chanPaths [mocapGrp sess.file_path] (bindsOf [] (BT.mk rtN off ch kids tip)), root_node := some (TinyDAG.child rtN (TinyDAG.root (mocapGrp sess.file_path))), root_full := some (mocapGrp sess.file_path ++ '|' :: rtN), scene := { nodes := jpaths (mocapGrp sess.file_path) (chainsRel [] (BT.mk rtN off ch kids tip)), attrs := attrs', keyframes := sc0.keyframes, selection := some (mocapGrp sess.file_path) } } (pc "MOTION" :: (pc "Frames: " ++ fc) :: (pc "Frame Time: " ++ ft) :: frames.map wsJoin) = runL { safe_close := false, motion := true, frame := 0, rot_order := ro, my_parent := some (TinyDAG.root (mocapGrp sess.file_path)), jnt := jv, channels := chanPaths [mocapGrp sess.file_path] (bindsOf [] (BT.mk rtN off ch kids tip)), root_node := some (TinyDAG.child rtN (TinyDAG.root (mocapGrp sess.file_path))), root_full := some (mocapGrp sess.file_path ++ '|' :: rtN), scene := { nodes := jpaths (mocapGrp sess.file_path) (chainsRel [] (BT.mk rtN off ch kids tip)), attrs := attrs', keyframes := sc0.keyframes, selection := some (mocapGrp sess.file_path) } } ((pc "Frames: " ++ fc) :: (pc "Frame Time: " ++ ft) :: frames.map wsJoin) :=
      runL_cons_ok _ (step_motion_line rfl)
    have hrunAll : runL (initSt sess (some (TinyDAG.root (mocapGrp sess.file_path))) { sc0 with nodes := sc0.nodes ++ [mocapGrp sess.file_path], selection := some (mocapGrp sess.file_path), attrs := upd sc0.attrs (mocapGrp sess.file_path ++ '.' :: pc "scale") (wsJoin [sess.scale, sess.scale, sess.scale]) }) sess.data = .ok stF := by
      rw [hdata]
      exact (((e1.trans e2).trans e3).trans e4).trans hrunM
    refine ⟨{ sess with channels := stF.channels, root_node := stF.root_node, root_full := stF.root_full }, stF.scene, ?_, hchanF, hrnF, hrfF, rfl, rfl, rfl, hnodesF, hkfsF⟩
    unfold readFile
    rw [hroot]
    dsimp only
    unfold Scene.createGroup
    dsimp only
    rw [show (pc "_mocap_" ++ pyBasename sess.file_path ++ pc "_grp" : PyStr) = mocapGrp sess.file_path from rfl]
    rw [hsetA]
    dsimp only
    rw [hrunAll]
    rfl

/-- C3: for every valid BVH input, after a `readFile` pass the channel
binding table contains exactly the rendered bindings in file order — one
entry per declared channel pairing the joint's full path with the attribute
from the fixed channel-name table — so its size is the sum of the declared
channel counts over all `CHANNELS` lines; the table is rebuilt from empty on
every pass, so an arbitrary stale table from a prior parse does not leak
into the result. -/
theorem claim_C3_channel_table :
    ∀ (rt : BT) (fc ft : PyStr) (frames : List (List PyStr)) (fp scale : PyStr)
      (stale : List PyStr) (sc0 : Scene) (usable : List PyStr),
      rootOKb rt = true →
      NamesOK (mocapGrp fp) usable →
      (∀ m ∈ namesOf rt, m ∈ usable) → (namesOf rt).Nodup →
      hdrLineOK (pc "Frames: " ++ fc) = true →
      hdrLineOK (pc "Frame Time: " ++ ft) = true →
      (∀ fr ∈ frames, rowOK (sumCh rt) fr = true) →
      sc0.nodes = [] →
      ∃ (sessF : Session) (scF : Scene),
        readFile { file_path := fp, scale := scale, data := renderFile rt fc ft frames, channels := stale, root_node := none, root_full := none } sc0 = .ok (sessF, scF) ∧
        sessF.channels = chanPaths [mocapGrp fp] (bindsOf [] rt) ∧
        sessF.channels.length = sumCh rt := by
  intro rt fc ft frames fp scale stale sc0 usable hok hN hu hnd hh1 hh2 hrows hsc0
  obtain ⟨sessF, scF, h1, h2, _, _, _, _, _, _, _⟩ :=
    run1_top rt fc ft frames
      { file_path := fp, scale := scale, data := renderFile rt fc ft frames, channels := stale, root_node := none, root_full := none }
      sc0 usable rfl rfl hok hN hu hnd hh1 hh2 hrows hsc0
  exact ⟨sessF, scF, h1, h2, by rw [h2, chanPaths_length, binds_length]⟩

/-- Witness for C3: a one-joint skeleton with four declared channels and a
stale single-entry table; the resulting table has the four full-path
bindings. -/
theorem claim_C3_channel_table_witness :
    ∃ (sessF : Session) (scF : Scene),
      readFile { file_path := pc "f.bvh", scale := pc "1.0", data := renderFile (BT.mk (pc "Hip") [pc "0", pc "0", pc "0"] [pc "Xposition", pc "Zrotation", pc "Xrotation", pc "Yrotation"] BTs.nil none) (pc "1") (pc "0.04") [[pc "1", pc "2", pc "3", pc "4"]], channels := [pc "junk"], root_node := none, root_full := none } emptyScene = .ok (sessF, scF) ∧
      sessF.channels = chanPaths [mocapGrp (pc "f.bvh")] (bindsOf [] (BT.mk (pc "Hip") [pc "0", pc "0", pc "0"] [pc "Xposition", pc "Zrotation", pc "Xrotation", pc "Yrotation"] BTs.nil none)) ∧
      sessF.channels.length = sumCh (BT.mk (pc "Hip") [pc "0", pc "0", pc "0"] [pc "Xposition", pc "Zrotation", pc "Xrotation", pc "Yrotation"] BTs.nil none) :=
  claim_C3_channel_table
    (BT.mk (pc "Hip") [pc "0", pc "0", pc "0"] [pc "Xposition", pc "Zrotation", pc "Xrotation", pc "Yrotation"] BTs.nil none)
    (pc "1") (pc "0.04") [[pc "1", pc "2", pc "3", pc "4"]] (pc "f.bvh") (pc "1.0")
    [pc "junk"] emptyScene [pc "Hip"]
    (by decide) (by unfold NamesOK okName; decide) (by decide) (by decide) (by decide)
    (by decide) (by decide) (by decide)

/-- Re-import characterization of one block body up to (excluding) its
closing brace: every `OFFSET` finds the already-existing node through the
short name-chain path and reuses it, so no node is created; the `CHANNELS`
line extends the table with short-path bindings. -/
theorem run2Body {grp rootn : PyStr} {usable : List PyStr} {relF : List (List PyStr)}
    {Cn : List PyStr} {P : TinyDAG} {st : St}
    (off ch : List PyStr) (kids : BTs) (tip : Option (List PyStr))
    (hok_off : offsetLineB off = true) (hok_ch : channelsLineB ch = true)
    (hok_tip : tipOKb tip = true)
    (hN : NamesOK grp usable) (hR : RelOK rootn usable relF)
    (hq : Cn ∈ relF)
    (hkids : ∀ (st' : St) (D' : TinyDAG),
      st'.motion = false → st'.safe_close = false →
      st'.my_parent = some D' → D'.full_path = pjoin Cn →
      st'.scene.nodes = jpaths grp relF →
      ∃ (attrs' : List (PyStr × PyStr)) (jv : JntVal) (ro : Option Nat) (sel' : Option PyStr),
        runL st' (renderKids kids) = .ok { st' with jnt := jv, rot_order := ro, channels := st'.channels ++ chanPaths [] (bindsOfK Cn kids), scene := { st'.scene with selection := sel', attrs := attrs' } })
    (hmot : st.motion = false) (hsc : st.safe_close = false)
    (hmp : st.my_parent = some P)
    (hPfull : P.full_path = pjoin Cn)
    (hnodes : st.scene.nodes = jpaths grp relF) :
    ∃ (attrs' : List (PyStr × PyStr)) (jv : JntVal) (ro : Option Nat) (sel' : Option PyStr),
      runL st (pc "\x7b" :: (pc "OFFSET " ++ wsJoin off) :: (pc "CHANNELS " ++ natStr ch.length ++ pc " " ++ wsJoin ch) :: (renderKids kids ++ tipLines tip)) = .ok { st with jnt := jv, rot_order := ro, channels := st.channels ++ chanPaths [] (List.map (fun tok => (Cn, (translationDict tok).getD [])) ch ++ bindsOfK Cn kids), scene := { st.scene with selection := sel', attrs := attrs' } } := by
  obtain ⟨hgok, hgnu, huok⟩ := hN
  have hN' : NamesOK grp usable := ⟨hgok, hgnu, huok⟩
  have hroS : (rotOrderOf (pc "CHANNELS" :: natStr ch.length :: ch)).isSome = true := by
    unfold channelsLineB at hok_ch
    simp only [Bool.and_eq_true] at hok_ch
    exact hok_ch.1.1.2
  obtain ⟨ro, hro⟩ := Option.isSome_iff_exists.mp hroS
  have hresF : st.scene.resolveU (pjoin Cn) = some (pjoin (grp :: Cn)) :=
    resolveU_of_list (resolve_rel_mem hnodes hN' hR hq)
  have hresP : st.scene.resolveU P.full_path = some (pjoin (grp :: Cn)) := by
    rw [hPfull]
    exact hresF
  -- step 1: opening brace
  have s1 : step st (pc "\x7b") = .ok st := step_noop hmot (by decide)
  -- step 2: OFFSET reuses the existing node
  have s2 := step_offset_exists hmot hok_off hmp (objExists_of_resolveU hresP) hresP
  rw [hPfull] at s2
  have e1 : runL st (pc "\x7b" :: (pc "OFFSET " ++ wsJoin off) :: (pc "CHANNELS " ++ natStr ch.length ++ pc " " ++ wsJoin ch) :: (renderKids kids ++ tipLines tip)) = runL st ((pc "OFFSET " ++ wsJoin off) :: (pc "CHANNELS " ++ natStr ch.length ++ pc " " ++ wsJoin ch) :: (renderKids kids ++ tipLines tip)) := runL_cons_ok _ s1
  have e2 : runL st ((pc "OFFSET " ++ wsJoin off) :: (pc "CHANNELS " ++ natStr ch.length ++ pc " " ++ wsJoin ch) :: (renderKids kids ++ tipLines tip)) = runL { st with jnt := JntVal.path (pjoin Cn), scene := { st.scene with attrs := upd st.scene.attrs (pjoin (grp :: Cn) ++ '.' :: pc "translate") (wsJoin off) } } ((pc "CHANNELS " ++ natStr ch.length ++ pc " " ++ wsJoin ch) :: (renderKids kids ++ tipLines tip)) := runL_cons_ok _ s2
  -- step 3: CHANNELS extends the table with short paths
  have s3 := step_channels (show St.motion { st with jnt := JntVal.path (pjoin Cn), scene := { st.scene with attrs := upd st.scene.attrs (pjoin (grp :: Cn) ++ '.' :: pc "translate") (wsJoin off) } } = false from hmot) hok_ch hro hmp rfl hresF
  rw [hPfull] at s3
  have e3 : runL { st with jnt := JntVal.path (pjoin Cn), scene := { st.scene with attrs := upd st.scene.attrs (pjoin (grp :: Cn) ++ '.' :: pc "translate") (wsJoin off) } } ((pc "CHANNELS " ++ natStr ch.length ++ pc " " ++ wsJoin ch) :: (renderKids kids ++ tipLines tip)) = runL { st with jnt := JntVal.path (pjoin Cn), rot_order := some ro, channels := st.channels ++ List.map (fun tok => pjoin Cn ++ '.' :: (translationDict tok).getD []) ch, scene := { st.scene with attrs := upd (upd st.scene.attrs (pjoin (grp :: Cn) ++ '.' :: pc "translate") (wsJoin off)) (pjoin (grp :: Cn) ++ '.' :: pc "rotateOrder") (natStr ro) } } (renderKids kids ++ tipLines tip) := runL_cons_ok _ s3
  -- step 4: children
  obtain ⟨attrs1, jv1, ro1, sel1, hrunK⟩ := hkids { st with jnt := JntVal.path (pjoin Cn), rot_order := some ro, channels := st.channels ++ List.map (fun tok => pjoin Cn ++ '.' :: (translationDict tok).getD []) ch, scene := { st.scene with attrs := upd (upd st.scene.attrs (pjoin (grp :: Cn) ++ '.' :: pc "translate") (wsJoin off)) (pjoin (grp :: Cn) ++ '.' :: pc "rotateOrder") (natStr ro) } } P hmot hsc hmp hPfull hnodes
  have e4 : runL { st with jnt := JntVal.path (pjoin Cn), rot_order := some ro, channels := st.channels ++ List.map (fun tok => pjoin Cn ++ '.' :: (translationDict tok).getD []) ch, scene := { st.scene with attrs := upd (upd st.scene.attrs (pjoin (grp :: Cn) ++ '.' :: pc "translate") (wsJoin off)) (pjoin (grp :: Cn) ++ '.' :: pc "rotateOrder") (natStr ro) } } (renderKids kids ++ tipLines tip) = runL { st with jnt := jv1, rot_order := ro1, channels := (st.channels ++ List.map (fun tok => pjoin Cn ++ '.' :: (translationDict tok).getD []) ch) ++ chanPaths [] (bindsOfK Cn kids), scene := { st.scene with selection := sel1, attrs := attrs1 } } (tipLines tip) := runL_append_ok _ hrunK
  -- step 5: optional End Site block (reuses the node)
  have hresT : Scene.resolveU { st.scene with selection := sel1, attrs := attrs1 } P.full_path = some (pjoin (grp :: Cn)) := hresP
  obtain ⟨jv2, attrs2, hrunT⟩ := runTip (P := P) tip (show St.motion { st with jnt := jv1, rot_order := ro1, channels := (st.channels ++ List.map (fun tok => pjoin Cn ++ '.' :: (translationDict tok).getD []) ch) ++ chanPaths [] (bindsOfK Cn kids), scene := { st.scene with selection := sel1, attrs := attrs1 } } = false from hmot) hsc hmp hresT hok_tip
  refine ⟨attrs2, jv2, ro1, sel1, ?_⟩
  have etot := (((e1.trans e2).trans e3).trans e4).trans hrunT
  rw [etot]
  have hch2 : st.channels ++ chanPaths [] (List.map (fun tok => (Cn, (translationDict tok).getD [])) ch ++ bindsOfK Cn kids) = (st.channels ++ List.map (fun tok => pjoin Cn ++ '.' :: (translationDict tok).getD []) ch) ++ chanPaths [] (bindsOfK Cn kids) := by
    unfold chanPaths
    rw [List.map_append, List.map_map, ← List.append_assoc]
    rfl
  rw [hch2]

mutual
/-- Re-import characterization of one `JOINT` block: every node is found
through its short name-chain path and reused, the channel table is extended
with short-path bindings, and the closing brace reselects the parent's
resolved full path. -/
theorem run2J (t : BT) : ∀ (C : List PyStr) (st : St) (relF : List (List PyStr))
    (D : TinyDAG) (grp rootn : PyStr) (usable : List PyStr),
    treeOKb t = true → NamesOK grp usable → RelOK rootn usable relF →
    C ∈ relF → (∀ c ∈ chainsRel C t, c ∈ relF) →
    st.motion = false → st.safe_close = false → st.my_parent = some D →
    D.full_path = pjoin C →
    st.scene.nodes = jpaths grp relF →
    ∃ (attrs' : List (PyStr × PyStr)) (jv : JntVal) (ro : Option Nat),
      runL st (renderJ t) = .ok { st with jnt := jv, rot_order := ro, channels := st.channels ++ chanPaths [] (bindsOf C t), scene := { st.scene with selection := some (pjoin (grp :: C)), attrs := attrs' } } := by
  cases t with
  | mk n off ch kids tip =>
    intro C st relF D grp rootn usable hok hN hR hCm hsub hmot hsc hmp hD hnodes
    have hokl : okNameB n = true ∧ jointLineB n = true ∧ offsetLineB off = true ∧
        channelsLineB ch = true ∧ treesOKb kids = true ∧ tipOKb tip = true := by
      unfold treeOKb at hok
      simp only [Bool.and_eq_true] at hok
      exact ⟨hok.1.1.1.1.1, hok.1.1.1.1.2, hok.1.1.1.2, hok.1.1.2, hok.1.2, hok.2⟩
    obtain ⟨hok_n, hok_j, hok_off, hok_ch, hok_k, hok_tip⟩ := hokl
    have hCne : C ≠ [] := (hR.2 C hCm).1
    have hPfull : (TinyDAG.child n D).full_path = pjoin (C ++ [n]) := by
      show D.full_path ++ '|' :: n = _
      rw [hD, pjoin_snoc C n hCne]
    have hq : (C ++ [n]) ∈ relF := hsub (C ++ [n]) (List.mem_cons_self _ _)
    have hsubK : ∀ c ∈ chainsRelK (C ++ [n]) kids, c ∈ relF :=
      fun c hc => hsub c (List.mem_cons_of_mem _ hc)
    have s0 := step_joint hmot hok_j
    rw [hmp] at s0
    have e0 : runL st (renderJ (BT.mk n off ch kids tip)) = runL { st with jnt := JntVal.toks [pc "JOINT", n], my_parent := some (TinyDAG.child n D) } ((pc "\x7b" :: (pc "OFFSET " ++ wsJoin off) :: (pc "CHANNELS " ++ natStr ch.length ++ pc " " ++ wsJoin ch) :: (renderKids kids ++ tipLines tip)) ++ [pc "\x7d"]) := runL_cons_ok _ s0
    obtain ⟨attrs1, jv1, ro1, sel1, hbody⟩ := run2Body (P := TinyDAG.child n D)
      off ch kids tip hok_off hok_ch hok_tip hN hR hq
      (fun st' D' h4 h5 h6 h7 h9 =>
        run2K kids (C ++ [n]) st' relF D' grp rootn usable hok_k hN hR hq hsubK
          h4 h5 h6 h7 h9)
      (show St.motion { st with jnt := JntVal.toks [pc "JOINT", n], my_parent := some (TinyDAG.child n D) } = false from hmot) hsc rfl hPfull hnodes
    have e1 : runL { st with jnt := JntVal.toks [pc "JOINT", n], my_parent := some (TinyDAG.child n D) } ((pc "\x7b" :: (pc "OFFSET " ++ wsJoin off) :: (pc "CHANNELS " ++ natStr ch.length ++ pc " " ++ wsJoin ch) :: (renderKids kids ++ tipLines tip)) ++ [pc "\x7d"]) = runL { st with jnt := jv1, rot_order := ro1, my_parent := some (TinyDAG.child n D), channels := st.channels ++ chanPaths [] (List.map (fun tok => (C ++ [n], (translationDict tok).getD [])) ch ++ bindsOfK (C ++ [n]) kids), scene := { st.scene with selection := sel1, attrs := attrs1 } } [pc "\x7d"] := runL_append_ok _ hbody
    have hres6 : Scene.resolveU { st.scene with selection := sel1, attrs := attrs1 } D.full_path = some (pjoin (grp :: C)) := by
      rw [hD]
      exact resolveU_of_list (resolve_rel_mem hnodes hN hR hCm)
    have s6 := step_brace_ascend (p := TinyDAG.child n D) (q := D) (show St.motion { st with jnt := jv1, rot_order := ro1, my_parent := some (TinyDAG.child n D), channels := st.channels ++ chanPaths [] (List.map (fun tok => (C ++ [n], (translationDict tok).getD [])) ch ++ bindsOfK (C ++ [n]) kids), scene := { st.scene with selection := sel1, attrs := attrs1 } } = false from hmot) hsc rfl rfl hres6
    have e2 : runL { st with jnt := jv1, rot_order := ro1, my_parent := some (TinyDAG.child n D), channels := st.channels ++ chanPaths [] (List.map (fun tok => (C ++ [n], (translationDict tok).getD [])) ch ++ bindsOfK (C ++ [n]) kids), scene := { st.scene with selection := sel1, attrs := attrs1 } } [pc "\x7d"] = runL { st with jnt := jv1, rot_order := ro1, my_parent := some D, channels := st.channels ++ chanPaths [] (List.map (fun tok => (C ++ [n], (translationDict tok).getD [])) ch ++ bindsOfK (C ++ [n]) kids), scene := { st.scene with selection := some (pjoin (grp :: C)), attrs := attrs1 } } [] := runL_cons_ok _ s6
    refine ⟨attrs1, jv1, ro1, ?_⟩
    rw [(e0.trans e1).trans e2]
    rw [← hmp]
    rfl
/-- Re-import characterization of a sibling list of `JOINT` blocks. -/
theorem run2K (ts : BTs) : ∀ (C : List PyStr) (st : St) (relF : List (List PyStr))
    (D : TinyDAG) (grp rootn : PyStr) (usable : List PyStr),
    treesOKb ts = true → NamesOK grp usable → RelOK rootn usable relF →
    C ∈ relF → (∀ c ∈ chainsRelK C ts, c ∈ relF) →
    st.motion = false → st.safe_close = false → st.my_parent = some D →
    D.full_path = pjoin C →
    st.scene.nodes = jpaths grp relF →
    ∃ (attrs' : List (PyStr × PyStr)) (jv : JntVal) (ro : Option Nat) (sel' : Option PyStr),
      runL st (renderKids ts) = .ok { st with jnt := jv, rot_order := ro, channels := st.channels ++ chanPaths [] (bindsOfK C ts), scene := { st.scene with selection := sel', attrs := attrs' } } := by
  cases ts with
  | nil =>
    intro C st relF D grp rootn usable _ _ _ _ _ _ _ _ _ _
    refine ⟨st.scene.attrs, st.jnt, st.rot_order, st.scene.selection, ?_⟩
    show Except.ok st = _
    simp only [bindsOfK, chanPaths, List.map_nil, List.append_nil]
  | cons t ts' =>
    intro C st relF D grp rootn usable hok hN hR hCm hsub hmot hsc hmp hD hnodes
    have hokl : treeOKb t = true ∧ treesOKb ts' = true := by
      unfold treesOKb at hok
      simp only [Bool.and_eq_true] at hok
      exact hok
    have hsubt : ∀ c ∈ chainsRel C t, c ∈ relF :=
      fun c hc => hsub c (List.mem_append.mpr (Or.inl hc))
    have hsubs : ∀ c ∈ chainsRelK C ts', c ∈ relF :=
      fun c hc => hsub c (List.mem_append.mpr (Or.inr hc))
    obtain ⟨a1, j1, r1, h1⟩ := run2J t C st relF D grp rootn usable hokl.1 hN hR hCm
      hsubt hmot hsc hmp hD hnodes
    obtain ⟨a2, j2, r2, s2, h2⟩ := run2K ts' C
      { st with jnt := j1, rot_order := r1, channels := st.channels ++ chanPaths [] (bindsOf C t), scene := { st.scene with selection := some (pjoin (grp :: C)), attrs := a1 } }
      relF D grp rootn usable hokl.2 hN hR hCm hsubs hmot hsc hmp hD hnodes
    refine ⟨a2, j2, r2, s2, ?_⟩
    show runL st (renderJ t ++ renderKids ts') = _
    rw [runL_append_ok _ h1, h2]
    simp only [bindsOfK]
    have hch : st.channels ++ chanPaths [] (bindsOf C t ++ bindsOfK C ts') = (st.channels ++ chanPaths [] (bindsOf C t)) ++ chanPaths [] (bindsOfK C ts') := by
      unfold chanPaths
      rw [List.map_append, ← List.append_assoc]
    rw [hch]
end

theorem upd_mem {α : Type} [DecidableEq α] {l : List (α × PyStr)} {k : α} {v : PyStr}
    {kv : α × PyStr} (h : kv ∈ upd l k v) : kv ∈ l ∨ kv = (k, v) := by
  unfold upd at h
  rcases List.mem_append.mp h with h1 | h1
  · exact Or.inl (List.mem_of_mem_filter h1)
  · exact Or.inr (List.mem_singleton.mp h1)

theorem kfWrites_mem :
    ∀ (pairs : List (PyStr × PyStr)) (kfs : List ((PyStr × Nat) × PyStr)) (t : Nat)
      (kv : (PyStr × Nat) × PyStr), kv ∈ kfWrites kfs t pairs →
      kv ∈ kfs ∨ ∃ p ∈ pairs, kv.1.1 = p.1 := by
  intro pairs
  induction pairs with
  | nil => intro kfs t kv h; exact Or.inl h
  | cons p rest ih =>
    intro kfs t kv h
    obtain ⟨a, v⟩ := p
    rcases ih (upd kfs (a, t) v) t kv h with h1 | h1
    · rcases upd_mem h1 with h2 | h2
      · exact Or.inl h2
      · refine Or.inr ⟨(a, v), by simp, ?_⟩
        rw [h2]
    · obtain ⟨q, hq, he⟩ := h1
      exact Or.inr ⟨q, List.mem_cons_of_mem _ hq, he⟩

theorem mIngest_mem (tgts : List PyStr) :
    ∀ (lines : List PyStr) (f : Nat) (kfs : List ((PyStr × Nat) × PyStr))
      (kv : (PyStr × Nat) × PyStr), kv ∈ mIngest tgts f lines kfs →
      kv ∈ kfs ∨ kv.1.1 ∈ tgts := by
  intro lines
  induction lines with
  | nil => intro f kfs kv h; exact Or.inl h
  | cons l ls ih =>
    intro f kfs kv h
    rw [mIngest_cons] at h
    by_cases hfr : subIn (pc "Frame") (tabToSpace l) = true
    · rw [if_pos hfr] at h
      exact ih f kfs kv h
    · rw [if_neg hfr] at h
      rcases ih (f + 1) _ kv h with h1 | h1
      · rcases kfWrites_mem _ _ _ kv h1 with h2 | h2
        · exact Or.inl h2
        · obtain ⟨p, hp, he⟩ := h2
          have hp1 : p.1 ∈ tgts.take (pySplit (tabToSpace l)).length :=
            (List.of_mem_zip hp).1
          exact Or.inr (he ▸ List.mem_of_mem_take hp1)
      · exact Or.inr h1

theorem clearFold_kfEmpty :
    ∀ (ns : List PyStr) (sc : Scene),
      (∀ n ∈ ns, sc.resolveU n = some n) →
      (∀ kv ∈ sc.keyframes, ∃ n ∈ ns, ∃ a ∈ sixAttrs, kv.1.1 = n ++ '.' :: a) →
      ∃ sc', clearFold sc ns = .ok sc' ∧ sc'.nodes = sc.nodes ∧
        sc'.keyframes = [] ∧ sc'.selection = sc.selection := by
  intro ns
  induction ns with
  | nil =>
    intro sc _ hcov
    have hkf : sc.keyframes = [] := by
      rw [List.eq_nil_iff_forall_not_mem]
      intro kv hkv
      obtain ⟨n, hn, _⟩ := hcov kv hkv
      exact absurd hn (List.not_mem_nil n)
    exact ⟨sc, rfl, rfl, hkf, rfl⟩
  | cons n rest ih =>
    intro sc hres hcov
    have hn : sc.resolveU n = some n := hres n (by simp)
    have hclear := clearNode_ok hn
    obtain ⟨sc', hfold, hnodes, hkf, hsel⟩ := ih
      { sc with keyframes := sc.keyframes.filter (fun kv => !(sixAttrs.any (fun a => kv.1.1 = n ++ '.' :: a))), attrs := upd (upd (upd sc.attrs (n ++ '.' :: pc "rotateX") (pc "0")) (n ++ '.' :: pc "rotateY") (pc "0")) (n ++ '.' :: pc "rotateZ") (pc "0") }
      (fun m hm => (resolveU_nodes rfl m).trans (hres m (List.mem_cons_of_mem n hm)))
      (by
        intro kv hkv
        have hmem : kv ∈ sc.keyframes := List.mem_of_mem_filter hkv
        have hpred := List.of_mem_filter hkv
        obtain ⟨m, hm, a, ha, heq⟩ := hcov kv hmem
        rcases List.mem_cons.mp hm with hm1 | hm1
        · exfalso
          rw [hm1] at heq
          have : sixAttrs.any (fun a' => kv.1.1 = n ++ '.' :: a') = true := by
            rw [List.any_eq_true]
            exact ⟨a, ha, by simp [heq]⟩
          rw [this] at hpred
          cases hpred
        · exact ⟨m, hm1, a, ha, heq⟩)
    refine ⟨sc', ?_, hnodes, hkf, hsel⟩
    unfold clearFold
    rw [hclear]
    exact hfold

theorem isPrefixOf_append (p q : PyStr) : p.isPrefixOf (p ++ q) = true := by
  induction p with
  | nil => simp [List.isPrefixOf]
  | cons c p' ih => simp [List.isPrefixOf, ih]

theorem jpaths_mem_cases {grp n : PyStr} {rel : List (List PyStr)}
    (h : n ∈ jpaths grp rel) : n = grp ∨ ∃ c ∈ rel, n = pjoin (grp :: c) := by
  unfold jpaths at h
  rcases List.mem_cons.mp h with h1 | h1
  · exact Or.inl h1
  · obtain ⟨c, hc, he⟩ := List.mem_map.mp h1
    exact Or.inr ⟨c, hc, he.symm⟩

theorem hier_pred {grp rtN : PyStr} {c : List PyStr} (hc : ∃ c', c = rtN :: c') :
    (decide (pjoin (grp :: c) = grp ++ '|' :: rtN) ||
      ((grp ++ '|' :: rtN) ++ ['|']).isPrefixOf (pjoin (grp :: c))) = true := by
  obtain ⟨c', rfl⟩ := hc
  cases c' with
  | nil =>
    rw [decide_eq_true (show pjoin (grp :: [rtN]) = grp ++ '|' :: rtN from rfl)]
    rw [Bool.true_or]
  | cons x xs =>
    have h1 : pjoin (grp :: rtN :: x :: xs) =
        (grp ++ '|' :: rtN) ++ '|' :: pjoin (x :: xs) := by
      have := pjoin_append (grp :: [rtN]) (x :: xs) (by simp) (by simp)
      rw [show ((grp :: [rtN] : List PyStr) ++ x :: xs) = grp :: rtN :: x :: xs from rfl] at this
      rw [this]
      rfl
    have h2 : ((grp ++ '|' :: rtN) ++ ['|']).isPrefixOf (pjoin (grp :: rtN :: x :: xs)) = true := by
      rw [h1]
      rw [show ((grp ++ '|' :: rtN) ++ '|' :: pjoin (x :: xs) : PyStr) =
        ((grp ++ '|' :: rtN) ++ ['|']) ++ pjoin (x :: xs) from by simp]
      exact isPrefixOf_append _ _
    rw [h2, Bool.or_true]

theorem relAll_OK {rt : BT} {usable : List PyStr}
    (hu : ∀ m ∈ namesOf rt, m ∈ usable) (hnd : (namesOf rt).Nodup) :
    RelOK (rootName rt) usable (chainsRel [] rt) := by
  cases rt with
  | mk rtN off ch kids tip =>
    have hRnil : RelOK rtN usable ([] : List (List PyStr)) :=
      ⟨List.nodup_nil, fun c hc => absurd hc (List.not_mem_nil c)⟩
    have hR1 : RelOK rtN usable [[rtN]] := by
      refine relOK_snoc hRnil (fun h => absurd h (List.not_mem_nil _)) (by simp) (by simp) ?_ ⟨[], rfl⟩
      intro m hm
      rw [List.mem_singleton.mp hm]
      exact hu rtN (List.mem_cons_self rtN (namesOfK kids))
    have hknotr : ∀ m ∈ namesOfK kids, m ∉ ([[rtN]] : List (List PyStr)).flatten := by
      intro m hm hmem
      simp only [List.flatten_cons, List.flatten_nil, List.append_nil] at hmem
      rw [List.mem_singleton.mp hmem] at hm
      exact (List.nodup_cons.mp hnd).1 hm
    have hknq : ∀ m ∈ namesOfK kids, m ∉ ([rtN] : List PyStr) := by
      intro m hm hmem
      rw [List.mem_singleton.mp hmem] at hm
      exact (List.nodup_cons.mp hnd).1 hm
    have h := relOK_extendK (q := [rtN]) hR1 ⟨[], rfl⟩ (by simp)
      (fun m hm => by rw [List.mem_singleton.mp hm]; exact hu rtN (List.mem_cons_self rtN (namesOfK kids)))
      (List.nodup_cons.mp hnd).2
      (fun m hm => hu m (List.mem_cons_of_mem rtN hm)) hknotr hknq
    exact h

/-- Characterization of a complete re-import `readFile` pass: the scale is
set on the group (the first path component of the persisted root full
path), the clear-animation pass deletes every keyframe, the hierarchy
phase reuses every node through short name-chain paths and creates nothing,
and motion ingestion writes the same keyframe store as a fresh import:
`mIngest` of the motion section against the resolved full-path targets,
starting from the emptied store. -/
theorem run2_top (rt : BT) (fc ft : PyStr) (frames : List (List PyStr))
    (sess : Session) (sc : Scene) (grp : PyStr) (usable : List PyStr)
    (hroot : sess.root_node = some (.child (rootName rt) (.root grp)))
    (hrfull : sess.root_full = some (grp ++ '|' :: rootName rt))
    (hdata : sess.data = renderFile rt fc ft frames)
    (hok : rootOKb rt = true)
    (hN : NamesOK grp usable)
    (hu : ∀ m ∈ namesOf rt, m ∈ usable) (hnd : (namesOf rt).Nodup)
    (hh1 : hdrLineOK (pc "Frames: " ++ fc) = true)
    (hh2 : hdrLineOK (pc "Frame Time: " ++ ft) = true)
    (hrows : ∀ fr ∈ frames, rowOK (sumCh rt) fr = true)
    (hnodes : sc.nodes = jpaths grp (chainsRel [] rt))
    (hkcov : ∀ kv ∈ sc.keyframes, ∃ b ∈ bindsOf [] rt,
      kv.1.1 = pjoin (grp :: b.1) ++ '.' :: b.2) :
    ∃ (sessF : Session) (scF : Scene),
      readFile sess sc = .ok (sessF, scF) ∧
      scF.nodes = sc.nodes ∧
      scF.keyframes = mIngest (chanPaths [grp] (bindsOf [] rt)) 0
        ((pc "Frames: " ++ fc) :: (pc "Frame Time: " ++ ft) :: frames.map wsJoin) [] := by
  cases rt with
  | mk rtN off ch kids tip =>
    dsimp only [rootName] at hroot hrfull
    have hokl : okNameB rtN = true ∧ rootLineB rtN = true ∧ offsetLineB off = true ∧
        channelsLineB ch = true ∧ treesOKb kids = true ∧ tipOKb tip = true := by
      unfold rootOKb at hok
      simp only [Bool.and_eq_true] at hok
      exact ⟨hok.1.1.1.1.1, hok.1.1.1.1.2, hok.1.1.1.2, hok.1.1.2, hok.1.2, hok.2⟩
    obtain ⟨hok_n, hok_r, hok_off, hok_ch, hok_k, hok_tip⟩ := hokl
    have hRALL : RelOK rtN usable (chainsRel [] (BT.mk rtN off ch kids tip)) :=
      relAll_OK hu hnd
    have hrtmem : ([rtN] : List PyStr) ∈ chainsRel [] (BT.mk rtN off ch kids tip) :=
      List.mem_cons_self _ _
    have hpipe : ∀ c ∈ grp, c ≠ '|' := hN.1.2
    have hresG : sc.resolveU grp = some grp := resolveU_of_list (resolve_grp hnodes hN hRALL)
    have hsetA : sc.setAttrM (grp ++ pc ".scale") (wsJoin [sess.scale, sess.scale, sess.scale]) = .ok { sc with attrs := upd sc.attrs (grp ++ '.' :: pc "scale") (wsJoin [sess.scale, sess.scale, sess.scale]) } := by
      rw [show grp ++ pc ".scale" = grp ++ '.' :: pc "scale" from rfl]
      exact setAttrM_ok (by decide) hresG _
    have hresSc : Scene.resolveU { sc with attrs := upd sc.attrs (grp ++ '.' :: pc "scale") (wsJoin [sess.scale, sess.scale, sess.scale]) } rtN = some (grp ++ '|' :: rtN) :=
      resolveU_of_list (resolve_rel_mem hnodes hN hRALL hrtmem)
    have hbsr := binds_shape_root hok
    obtain ⟨scC, hfoldrun, hnodesC0, hkfC, hselC⟩ :=
      clearFold_kfEmpty (hierNodes { sc with attrs := upd sc.attrs (grp ++ '.' :: pc "scale") (wsJoin [sess.scale, sess.scale, sess.scale]) } (grp ++ '|' :: rtN)) { sc with attrs := upd sc.attrs (grp ++ '.' :: pc "scale") (wsJoin [sess.scale, sess.scale, sess.scale]), selection := some (grp ++ '|' :: rtN) }
      (by
        intro n hn
        have hmem2 : n ∈ jpaths grp (chainsRel [] (BT.mk rtN off ch kids tip)) := by
          rw [← hnodes]
          exact (List.mem_filter.mp hn).1
        rcases jpaths_mem_cases hmem2 with h1 | ⟨c, hc, h2⟩
        · rw [h1]
          exact resolveU_of_list (resolve_grp hnodes hN hRALL)
        · rw [h2]
          exact resolveU_of_list (resolve_full_mem hnodes hN hRALL hc))
      (by
        intro kv hkv
        obtain ⟨b, hb, he⟩ := hkcov kv hkv
        have hbs := hbsr b hb
        refine ⟨pjoin (grp :: b.1), ?_, b.2, hbs.2.1, he⟩
        apply List.mem_filter.mpr
        constructor
        · show pjoin (grp :: b.1) ∈ sc.nodes
          rw [hnodes]
          unfold jpaths
          exact List.mem_cons_of_mem _ (List.mem_map_of_mem _ hbs.1)
        · exact hier_pred ((hRALL.2 b.1 hbs.1).2.2.2))
    have hnodesC : scC.nodes = jpaths grp (chainsRel [] (BT.mk rtN off ch kids tip)) := by
      rw [show scC.nodes = sc.nodes from hnodesC0]
      exact hnodes
    -- hierarchy phase on the cleared scene
    obtain ⟨attrs1, jv1, ro1, sel1, hbody⟩ := run2Body (P := TinyDAG.root rtN)
      off ch kids tip hok_off hok_ch hok_tip hN hRALL hrtmem
      (fun st' D' h4 h5 h6 h7 h9 =>
        run2K kids [rtN] st' (chainsRel [] (BT.mk rtN off ch kids tip)) D' grp rtN usable
          hok_k hN hRALL hrtmem (fun c hc => List.mem_cons_of_mem _ hc) h4 h5 h6 h7 h9)
      (show St.motion { safe_close := false, motion := false, frame := 0, rot_order := none, my_parent := some (TinyDAG.root rtN), jnt := JntVal.undef, channels := [], root_node := sess.root_node, root_full := sess.root_full, scene := scC } = false from rfl) rfl rfl rfl hnodesC
    have e1 : runL (initSt sess (some (TinyDAG.root rtN)) scC) (renderFile (BT.mk rtN off ch kids tip) fc ft frames) = runL (initSt sess (some (TinyDAG.root rtN)) scC) (renderRoot (BT.mk rtN off ch kids tip) ++ pc "MOTION" :: (pc "Frames: " ++ fc) :: (pc "Frame Time: " ++ ft) :: frames.map wsJoin) :=
      runL_cons_ok _ (step_noop rfl (by decide))
    have e2 : runL (initSt sess (some (TinyDAG.root rtN)) scC) (renderRoot (BT.mk rtN off ch kids tip) ++ pc "MOTION" :: (pc "Frames: " ++ fc) :: (pc "Frame Time: " ++ ft) :: frames.map wsJoin) = runL { safe_close := false, motion := false, frame := 0, rot_order := none, my_parent := some (TinyDAG.root rtN), jnt := JntVal.undef, channels := [], root_node := sess.root_node, root_full := sess.root_full, scene := scC } ((pc "\x7b" :: (pc "OFFSET " ++ wsJoin off) :: (pc "CHANNELS " ++ natStr ch.length ++ pc " " ++ wsJoin ch) :: (renderKids kids ++ tipLines tip ++ [pc "\x7d"])) ++ pc "MOTION" :: (pc "Frames: " ++ fc) :: (pc "Frame Time: " ++ ft) :: frames.map wsJoin) :=
      runL_cons_ok _ (step_root_re (r := TinyDAG.child rtN (TinyDAG.root grp)) rfl hok_r hroot)
    have hlist : ((pc "\x7b" :: (pc "OFFSET " ++ wsJoin off) :: (pc "CHANNELS " ++ natStr ch.length ++ pc " " ++ wsJoin ch) :: (renderKids kids ++ tipLines tip ++ [pc "\x7d"])) ++ pc "MOTION" :: (pc "Frames: " ++ fc) :: (pc "Frame Time: " ++ ft) :: frames.map wsJoin : List PyStr) = (pc "\x7b" :: (pc "OFFSET " ++ wsJoin off) :: (pc "CHANNELS " ++ natStr ch.length ++ pc " " ++ wsJoin ch) :: (renderKids kids ++ tipLines tip)) ++ (pc "\x7d" :: pc "MOTION" :: (pc "Frames: " ++ fc) :: (pc "Frame Time: " ++ ft) :: frames.map wsJoin) := by
      simp
    have e3 : runL { safe_close := false, motion := false, frame := 0, rot_order := none, my_parent := some (TinyDAG.root rtN), jnt := JntVal.undef, channels := [], root_node := sess.root_node, root_full := sess.root_full, scene := scC } ((pc "\x7b" :: (pc "OFFSET " ++ wsJoin off) :: (pc "CHANNELS " ++ natStr ch.length ++ pc " " ++ wsJoin ch) :: (renderKids kids ++ tipLines tip ++ [pc "\x7d"])) ++ pc "MOTION" :: (pc "Frames: " ++ fc) :: (pc "Frame Time: " ++ ft) :: frames.map wsJoin) = runL { safe_close := false, motion := false, frame := 0, rot_order := ro1, my_parent := some (TinyDAG.root rtN), jnt := jv1, channels := chanPaths [] (bindsOf [] (BT.mk rtN off ch kids tip)), root_node := sess.root_node, root_full := sess.root_full, scene := { nodes := scC.nodes, attrs := attrs1, keyframes := scC.keyframes, selection := sel1 } } (pc "\x7d" :: pc "MOTION" :: (pc "Frames: " ++ fc) :: (pc "Frame Time: " ++ ft) :: frames.map wsJoin) := by
      rw [hlist]
      exact runL_append_ok _ hbody
    have e4 : runL { safe_close := false, motion := false, frame := 0, rot_order := ro1, my_parent := some (TinyDAG.root rtN), jnt := jv1, channels := chanPaths [] (bindsOf [] (BT.mk rtN off ch kids tip)), root_node := sess.root_node, root_full := sess.root_full, scene := { nodes := scC.nodes, attrs := attrs1, keyframes := scC.keyframes, selection := sel1 } } (pc "\x7d" :: pc "MOTION" :: (pc "Frames: " ++ fc) :: (pc "Frame Time: " ++ ft) :: frames.map wsJoin) = runL { safe_close := false, motion := false, frame := 0, rot_order := ro1, my_parent := none, jnt := jv1, channels := chanPaths [] (bindsOf [] (BT.mk rtN off ch kids tip)), root_node := sess.root_node, root_full := sess.root_full, scene := { nodes := scC.nodes, attrs := attrs1, keyframes := scC.keyframes, selection := sel1 } } (pc "MOTION" :: (pc "Frames: " ++ fc) :: (pc "Frame Time: " ++ ft) :: frames.map wsJoin) :=
      runL_cons_ok _ (step_brace_top rfl rfl rfl rfl)
    have e5 : runL { safe_close := false, motion := false, frame := 0, rot_order := ro1, my_parent := none, jnt := jv1, channels := chanPaths [] (bindsOf [] (BT.mk rtN off ch kids tip)), root_node := sess.root_node, root_full := sess.root_full, scene := { nodes := scC.nodes, attrs := attrs1, keyframes := scC.keyframes, selection := sel1 } } (pc "MOTION" :: (pc "Frames: " ++ fc) :: (pc "Frame Time: " ++ ft) :: frames.map wsJoin) = runL { safe_close := false, motion := true, frame := 0, rot_order := ro1, my_parent := none, jnt := jv1, channels := chanPaths [] (bindsOf [] (BT.mk rtN off ch kids tip)), root_node := sess.root_node, root_full := sess.root_full, scene := { nodes := scC.nodes, attrs := attrs1, keyframes := scC.keyframes, selection := sel1 } } ((pc "Frames: " ++ fc) :: (pc "Frame Time: " ++ ft) :: frames.map wsJoin) :=
      runL_cons_ok _ (step_motion_line rfl)
    have hmap : (chanPaths [] (bindsOf [] (BT.mk rtN off ch kids tip))).map (chanTarget { nodes := scC.nodes, attrs := attrs1, keyframes := scC.keyframes, selection := sel1 }) = (chanPaths [grp] (bindsOf [] (BT.mk rtN off ch kids tip))).map some :=
      chanTargets_rel hnodesC hN hRALL _ (fun b hb => ⟨(hbsr b hb).1, (hbsr b hb).2.2⟩)
    have hlenC : sumCh (BT.mk rtN off ch kids tip) ≤ (chanPaths [] (bindsOf [] (BT.mk rtN off ch kids tip))).length := by
      rw [chanPaths_length, binds_length]
    obtain ⟨stF, hrunM, hframe, hmotF, hchanF, hparF, hrnF, hrfF, hnodesF, hattrsF, hselF, hkfsF⟩ :=
      motionRun ((pc "Frames: " ++ fc) :: (pc "Frame Time: " ++ ft) :: frames.map wsJoin)
        { safe_close := false, motion := true, frame := 0, rot_order := ro1, my_parent := none, jnt := jv1, channels := chanPaths [] (bindsOf [] (BT.mk rtN off ch kids tip)), root_node := sess.root_node, root_full := sess.root_full, scene := { nodes := scC.nodes, attrs := attrs1, keyframes := scC.keyframes, selection := sel1 } }
        (chanPaths [grp] (bindsOf [] (BT.mk rtN off ch kids tip)))
        rfl hmap (mlines_ok hh1 hh2 hrows hlenC)
    have hrunAll : runL (initSt sess (some (TinyDAG.root rtN)) scC) sess.data = .ok stF := by
      rw [hdata]
      exact ((((e1.trans e2).trans e3).trans e4).trans e5).trans hrunM
    refine ⟨{ sess with channels := stF.channels, root_node := stF.root_node, root_full := stF.root_full }, stF.scene, ?_, ?_, ?_⟩
    · unfold readFile
      rw [hroot]
      dsimp only
      rw [hrfull]
      dsimp only
      rw [takeBefore_pipe grp rtN hpipe]
      rw [hsetA]
      dsimp only
      unfold clearAnimation
      dsimp only [TinyDAG.str]
      rw [hresSc]
      dsimp only
      rw [hfoldrun]
      dsimp only
      rw [hrunAll]
      rfl
    · have hn1 : stF.scene.nodes = scC.nodes := hnodesF
      rw [hn1, show scC.nodes = sc.nodes from hnodesC0]
    · have hkk : stF.scene.keyframes = mIngest (chanPaths [grp] (bindsOf [] (BT.mk rtN off ch kids tip))) 0 ((pc "Frames: " ++ fc) :: (pc "Frame Time: " ++ ft) :: frames.map wsJoin) scC.keyframes := hkfsF
      rw [hkk, hkfC]

/-- C1: re-import idempotence.  For every valid rendered BVH file, a
fresh import succeeds, and invoking the parse a second time on the resulting
session (which has a persisted root) also succeeds — the second pass clears
all prior keyframes and re-ingests the motion data through reused nodes —
and the final keyframe store (attribute paths, times, values) and the node
list equal those of the single fresh import. -/
theorem claim_C1_reimport_idempotence :
    ∀ (rt : BT) (fc ft : PyStr) (frames : List (List PyStr)) (fp scale : PyStr)
      (usable : List PyStr),
      rootOKb rt = true →
      NamesOK (mocapGrp fp) usable →
      (∀ m ∈ namesOf rt, m ∈ usable) → (namesOf rt).Nodup →
      hdrLineOK (pc "Frames: " ++ fc) = true →
      hdrLineOK (pc "Frame Time: " ++ ft) = true →
      (∀ fr ∈ frames, rowOK (sumCh rt) fr = true) →
      ∃ (sess1 : Session) (sc1 : Scene) (sess2 : Session) (sc2 : Scene),
        readFile { file_path := fp, scale := scale, data := renderFile rt fc ft frames, channels := [], root_node := none, root_full := none } emptyScene = .ok (sess1, sc1) ∧
        readFile sess1 sc1 = .ok (sess2, sc2) ∧
        sc2.keyframes = sc1.keyframes ∧
        sc2.nodes = sc1.nodes := by
  intro rt fc ft frames fp scale usable hok hN hu hnd hh1 hh2 hrows
  obtain ⟨sess1, sc1, hrun1, hchan1, hrn1, hrf1, hfp1, hscale1, hdata1, hnodes1, hkfs1⟩ :=
    run1_top rt fc ft frames
      { file_path := fp, scale := scale, data := renderFile rt fc ft frames, channels := [], root_node := none, root_full := none }
      emptyScene usable rfl rfl hok hN hu hnd hh1 hh2 hrows rfl
  have hkfs1' : sc1.keyframes = mIngest (chanPaths [mocapGrp fp] (bindsOf [] rt)) 0
      ((pc "Frames: " ++ fc) :: (pc "Frame Time: " ++ ft) :: frames.map wsJoin) [] := hkfs1
  have hkcov : ∀ kv ∈ sc1.keyframes, ∃ b ∈ bindsOf [] rt,
      kv.1.1 = pjoin (mocapGrp fp :: b.1) ++ '.' :: b.2 := by
    intro kv hkv
    rw [hkfs1'] at hkv
    rcases mIngest_mem _ _ _ _ kv hkv with h1 | h1
    · exact absurd h1 (List.not_mem_nil kv)
    · unfold chanPaths at h1
      obtain ⟨b, hb, he⟩ := List.mem_map.mp h1
      exact ⟨b, hb, he.symm⟩
  obtain ⟨sess2, sc2, hrun2, hnodes2, hkfs2⟩ :=
    run2_top rt fc ft frames sess1 sc1 (mocapGrp fp) usable hrn1 hrf1 hdata1 hok hN
      hu hnd hh1 hh2 hrows hnodes1 hkcov
  exact ⟨sess1, sc1, sess2, sc2, hrun1, hrun2, hkfs2.trans hkfs1'.symm, hnodes2⟩

/-- Witness for C1: a one-joint skeleton with four channels and one data
row; both passes succeed and yield the same keyframes and nodes. -/
theorem claim_C1_reimport_idempotence_witness :
    ∃ (sess1 : Session) (sc1 : Scene) (sess2 : Session) (sc2 : Scene),
      readFile { file_path := pc "f.bvh", scale := pc "1.0", data := renderFile (BT.mk (pc "Hip") [pc "0", pc "0", pc "0"] [pc "Xposition", pc "Zrotation", pc "Xrotation", pc "Yrotation"] BTs.nil none) (pc "1") (pc "0.04") [[pc "1", pc "2", pc "3", pc "4"]], channels := [], root_node := none, root_full := none } emptyScene = .ok (sess1, sc1) ∧
      readFile sess1 sc1 = .ok (sess2, sc2) ∧
      sc2.keyframes = sc1.keyframes ∧
      sc2.nodes = sc1.nodes :=
  claim_C1_reimport_idempotence
    (BT.mk (pc "Hip") [pc "0", pc "0", pc "0"] [pc "Xposition", pc "Zrotation", pc "Xrotation", pc "Yrotation"] BTs.nil none)
    (pc "1") (pc "0.04") [[pc "1", pc "2", pc "3", pc "4"]] (pc "f.bvh") (pc "1.0")
    [pc "Hip"]
    (by decide) (by unfold NamesOK okName; decide) (by decide) (by decide) (by decide)
    (by decide) (by decide)
